import Mathlib

/-!
# Verification of the neural-network engine (`nn.ts`) and the URL-hash state
# deserializer (`state.ts`)

A shallow embedding of the TypeScript neural-network playground engine.
JavaScript `number`s are modelled by an arbitrary `LinearOrderedField α`
(instantiated at `ℚ` for executable witnesses and at `ℝ` where the
transcendental activation functions are needed).  The mutable object graph
(nodes holding references to links and vice versa) is modelled arena-style:
a network is a list of layers of nodes plus a list (arena) of links; a JS
object reference to a node becomes a `(layer, index)` coordinate and a
reference to a link becomes its index in the arena.  Imperative loops become
`List.foldl` over the corresponding index ranges, in the source's iteration
order, threading the whole network as explicit state.
-/

set_option linter.unusedSectionVars false

namespace NN

/-- `ActivationFunction` interface from nn.ts: output value and derivative. -/
structure ActivationFunction (α : Type) where
  output : α → α
  der : α → α

/-- `ErrorFunction` interface from nn.ts. -/
structure ErrorFunction (α : Type) where
  error : α → α → α
  der : α → α → α

/-- `RegularizationFunction` interface from nn.ts. -/
structure RegularizationFunction (α : Type) where
  output : α → α
  der : α → α

variable {α : Type} [LinearOrderedField α]

/-- `Errors.SQUARE` from nn.ts. -/
def Errors.SQUARE : ErrorFunction α :=
  { error := fun output target => (1 / 2) * (output - target) ^ 2
    der := fun output target => output - target }

/-- `Activations.RELU` from nn.ts (`max(0, x)`, derivative `x <= 0 ? 0 : 1`). -/
def Activations.RELU : ActivationFunction α :=
  { output := fun x => max 0 x
    der := fun x => if x ≤ 0 then 0 else 1 }

/-- `Activations.LINEAR` from nn.ts. -/
def Activations.LINEAR : ActivationFunction α :=
  { output := fun x => x
    der := fun _ => 1 }

/-- `Activations.SIGMOID` from nn.ts: `1 / (1 + exp(-x))`. -/
noncomputable def Activations.SIGMOID : ActivationFunction ℝ :=
  { output := fun x => 1 / (1 + Real.exp (-x))
    der := fun x =>
      let output := 1 / (1 + Real.exp (-x))
      output * (1 - output) }

/-- `Activations.TANH` from nn.ts (via the `Math.tanh` polyfill). -/
noncomputable def Activations.TANH : ActivationFunction ℝ :=
  { output := fun x => Real.tanh x
    der := fun x => 1 - Real.tanh x * Real.tanh x }

/-- `RegularizationFunction.L1` from nn.ts. -/
def RegularizationFunction.L1 : RegularizationFunction α :=
  { output := fun w => |w|
    der := fun w => if w < 0 then -1 else if w > 0 then 1 else 0 }

/-- `RegularizationFunction.L2` from nn.ts. -/
def RegularizationFunction.L2 : RegularizationFunction α :=
  { output := fun w => (1 / 2) * w * w
    der := fun w => w }

/-- The nullable `regularization` reference held by a `Link`.  JS compares it
by object identity (`link.regularization === RegularizationFunction.L1`), so
the model distinguishes the two built-in instances from any caller-supplied
pair of the same behaviour, and from `null`. -/
inductive RegRef (α : Type) where
  | null : RegRef α
  | builtinL1 : RegRef α
  | builtinL2 : RegRef α
  | custom : RegularizationFunction α → RegRef α

/-- Dereference a `RegRef` (the JS truthiness test `link.regularization ?`). -/
def RegRef.fn : RegRef α → Option (RegularizationFunction α)
  | .null => none
  | .builtinL1 => some RegularizationFunction.L1
  | .builtinL2 => some RegularizationFunction.L2
  | .custom f => some f

/-- The identity test `link.regularization === RegularizationFunction.L1`. -/
def RegRef.isL1 {α : Type} : RegRef α → Bool
  | .builtinL1 => true
  | _ => false

/-- `Node` class from nn.ts.  `inputLinks` and `outputs` hold link-arena
indices; `totalInput` and `output` are uninitialized in the source until the
first forward pass and are modelled as starting at 0. -/
structure Node (α : Type) where
  id : String
  inputLinks : List Nat
  bias : α
  outputs : List Nat
  totalInput : α
  output : α
  outputDer : α
  inputDer : α
  accInputDer : α
  numAccumulatedDers : Nat
  activation : ActivationFunction α

/-- The `Node` constructor: bias `0.1`, or `0` when `initZero` is set. -/
def Node.make (id : String) (activation : ActivationFunction α) (initZero : Bool) : Node α :=
  { id := id, inputLinks := [], bias := if initZero then 0 else 1 / 10, outputs := []
    totalInput := 0, output := 0, outputDer := 0, inputDer := 0, accInputDer := 0
    numAccumulatedDers := 0, activation := activation }

/-- `Link` class from nn.ts.  `source` and `dest` are `(layer, index)`
coordinates of the endpoint nodes. -/
structure Link (α : Type) where
  id : String
  source : Nat × Nat
  dest : Nat × Nat
  weight : α
  isDead : Bool
  errorDer : α
  accErrorDer : α
  numAccumulatedDers : Nat
  regularization : RegRef α

/-- A network: the `Node[][]` of the source plus the link arena. -/
structure Network (α : Type) where
  layers : List (List (Node α))
  links : List (Link α)

/-- Point update of one list element (no-op when out of range, which the
engine never does on the networks it builds). -/
def listModify {β : Type} : List β → Nat → (β → β) → List β
  | [], _, _ => []
  | b :: bs, 0, f => f b :: bs
  | b :: bs, n + 1, f => b :: listModify bs n f

def Network.node? (net : Network α) (l i : Nat) : Option (Node α) :=
  (net.layers[l]?).bind fun layer => layer[i]?

def Network.link? (net : Network α) (k : Nat) : Option (Link α) :=
  net.links[k]?

/-- Default node used to totalize reads the source performs through object
references (never out of range on well-formed networks). -/
def defaultNode : Node α :=
  { id := "", inputLinks := [], bias := 0, outputs := [], totalInput := 0, output := 0
    outputDer := 0, inputDer := 0, accInputDer := 0, numAccumulatedDers := 0
    activation := Activations.LINEAR }

def defaultLink : Link α :=
  { id := "", source := (0, 0), dest := (0, 0), weight := 0, isDead := false
    errorDer := 0, accErrorDer := 0, numAccumulatedDers := 0, regularization := .null }

/-- Follow a node reference (a `(layer, index)` coordinate). -/
def Network.nodeD (net : Network α) (p : Nat × Nat) : Node α :=
  (net.node? p.1 p.2).getD defaultNode

/-- Follow a link reference (an arena index). -/
def Network.linkD (net : Network α) (k : Nat) : Link α :=
  (net.link? k).getD defaultLink

def Network.modifyNode (net : Network α) (l i : Nat) (f : Node α → Node α) : Network α :=
  { net with layers := listModify net.layers l (fun layer => listModify layer i f) }

def Network.modifyLink (net : Network α) (k : Nat) (f : Link α → Link α) : Network α :=
  { net with links := listModify net.links k f }

def Network.layerSize (net : Network α) (l : Nat) : Nat :=
  (net.layers[l]?.getD []).length

/-- The descending loop `for (i = n; i >= 1; i--)`: the list `[n, …, 1]`. -/
def downFrom : Nat → List Nat
  | 0 => []
  | n + 1 => (n + 1) :: downFrom n

/-- `Node.updateOutput` from nn.ts, acting on the node at `(l, i)`:
`totalInput = bias + Σ link.weight * link.source.output` over `inputLinks`
(dead links are not skipped), then `output = activation.output(totalInput)`. -/
def updateOutputAt (net : Network α) (l i : Nat) : Network α :=
  net.modifyNode l i fun node =>
    let totalInput := node.inputLinks.foldl
      (fun acc k => acc + (net.linkD k).weight * (net.nodeD (net.linkD k).source).output)
      node.bias
    { node with totalInput := totalInput, output := node.activation.output totalInput }

/-- `forwardProp` from nn.ts.  The thrown `Error` is modelled as an
`Except.error` carrying the message, paired with the (unmutated) network. -/
def forwardProp (net : Network α) (inputs : List α) : Network α × Except String α :=
  let inputLayer := net.layers[0]?.getD []
  if inputs.length ≠ inputLayer.length then
    (net, .error "The number of inputs must match the number of nodes in the input layer")
  else
    let net1 := (List.range inputLayer.length).foldl
      (fun n i => n.modifyNode 0 i fun node => { node with output := inputs.getD i 0 }) net
    let net2 := (List.range' 1 (net.layers.length - 1)).foldl
      (fun n layerIdx =>
        (List.range (n.layerSize layerIdx)).foldl
          (fun n' i => updateOutputAt n' layerIdx i) n)
      net1
    (net2, .ok (net2.nodeD (net2.layers.length - 1, 0)).output)

/-- The first loop of a `backProp` iteration: derivative of the error with
respect to each node's total input. -/
def bwdStep1 (n : Network α) (layerIdx : Nat) : Network α :=
  (List.range (n.layerSize layerIdx)).foldl
    (fun n' i => n'.modifyNode layerIdx i fun node =>
      let inputDer := node.outputDer * node.activation.der node.totalInput
      { node with inputDer := inputDer
                  accInputDer := node.accInputDer + inputDer
                  numAccumulatedDers := node.numAccumulatedDers + 1 }) n

/-- The second loop of a `backProp` iteration: derivative of the error with
respect to each incoming weight, skipping dead links. -/
def bwdStep2 (n : Network α) (layerIdx : Nat) : Network α :=
  (List.range (n.layerSize layerIdx)).foldl
    (fun n' i =>
      let node := n'.nodeD (layerIdx, i)
      node.inputLinks.foldl
        (fun n'' k => n''.modifyLink k fun link =>
          if link.isDead then link
          else
            let errorDer := node.inputDer * (n''.nodeD link.source).output
            { link with errorDer := errorDer
                        accErrorDer := link.accErrorDer + errorDer
                        numAccumulatedDers := link.numAccumulatedDers + 1 }) n') n

/-- The third loop of a `backProp` iteration: recompute the previous layer's
`outputDer`s. -/
def bwdStep3 (n : Network α) (layerIdx : Nat) : Network α :=
  (List.range (n.layerSize (layerIdx - 1))).foldl
    (fun n' i => n'.modifyNode (layerIdx - 1) i fun node =>
      let outputDer := node.outputs.foldl
        (fun acc k => acc + (n'.linkD k).weight * (n'.nodeD (n'.linkD k).dest).inputDer) 0
      { node with outputDer := outputDer }) n

/-- One iteration of the layer walk of `backProp` (`continue` at layer 1
skips the third loop). -/
def bwdBody (n : Network α) (layerIdx : Nat) : Network α :=
  let n1 := bwdStep1 n layerIdx
  let n2 := bwdStep2 n1 layerIdx
  if layerIdx = 1 then n2 else bwdStep3 n2 layerIdx

/-- `backProp` from nn.ts.  The layer walk `for (layerIdx = L-1; layerIdx >= 1;
layerIdx--)` is the fold over `downFrom (L-1)`; each iteration performs the
node pass, then the link pass, then (unless at layer 1) the previous-layer
`outputDer` recomputation, exactly as in the source. -/
def backProp (net : Network α) (target : α) (errorFunc : ErrorFunction α) : Network α :=
  let net0 := net.modifyNode (net.layers.length - 1) 0 fun node =>
    { node with outputDer := errorFunc.der node.output target }
  (downFrom (net.layers.length - 1)).foldl bwdBody net0

/-- The body of the link loop in `updateWeights`: `regulDer` is computed from
the current weight *before* the gradient step (as in the source), then the
gradient step, the regularization candidate, the L1 zero-crossing pruning
check, and the accumulator reset. -/
def updateLink (learningRate regularizationRate : α) (link : Link α) : Link α :=
  if link.isDead then link
  else
    let regulDer := match link.regularization.fn with
      | none => 0
      | some reg => reg.der link.weight
    if 0 < link.numAccumulatedDers then
      let w1 := link.weight - (learningRate / (link.numAccumulatedDers : α)) * link.accErrorDer
      let newLinkWeight := w1 - (learningRate * regularizationRate) * regulDer
      if link.regularization.isL1 = true ∧ w1 * newLinkWeight < 0 then
        { link with weight := 0, isDead := true, accErrorDer := 0, numAccumulatedDers := 0 }
      else
        { link with weight := newLinkWeight, accErrorDer := 0, numAccumulatedDers := 0 }
    else link

/-- The per-node body of `updateWeights`: the bias step followed by the
weight updates of the node's incoming links. -/
def updNodeBody (learningRate regularizationRate : α) (n' : Network α)
    (layerIdx i : Nat) : Network α :=
  let n1 := n'.modifyNode layerIdx i fun node =>
    if 0 < node.numAccumulatedDers then
      { node with
          bias := node.bias - learningRate * node.accInputDer / (node.numAccumulatedDers : α)
          accInputDer := 0, numAccumulatedDers := 0 }
    else node
  let node := n1.nodeD (layerIdx, i)
  node.inputLinks.foldl
    (fun n'' k => n''.modifyLink k (updateLink learningRate regularizationRate)) n1

/-- `updateWeights` from nn.ts. -/
def updateWeights (net : Network α) (learningRate regularizationRate : α) : Network α :=
  (List.range' 1 (net.layers.length - 1)).foldl
    (fun n layerIdx =>
      (List.range (n.layerSize layerIdx)).foldl
        (fun n' i => updNodeBody learningRate regularizationRate n' layerIdx i) n)
    net

/-- The effect of `updateWeights` on one node's bias and accumulators. -/
def updBias (learningRate : α) (nd : Node α) : Node α :=
  if 0 < nd.numAccumulatedDers then
    { nd with
        bias := nd.bias - learningRate * nd.accInputDer / (nd.numAccumulatedDers : α)
        accInputDer := 0, numAccumulatedDers := 0 }
  else nd

/-- The inner `for j` loop of `buildNetwork`: create the link from node
`(layerIdx - 1, j)` to node `(layerIdx, i)`, append it to the arena, and push
its index onto `prevNode.outputs` and `node.inputLinks`.  `rand` models the
stream of `Math.random() - 0.5` draws, indexed by link creation order. -/
def addLinkStep (regularization : RegRef α) (initZero : Bool) (rand : Nat → α)
    (layerIdx i : Nat) (n : Network α) (j : Nat) : Network α :=
  let k := n.links.length
  let prevNode := n.nodeD (layerIdx - 1, j)
  let node := n.nodeD (layerIdx, i)
  let link : Link α :=
    { id := prevNode.id ++ "-" ++ node.id
      source := (layerIdx - 1, j), dest := (layerIdx, i)
      weight := if initZero then 0 else rand k
      isDead := false, errorDer := 0, accErrorDer := 0, numAccumulatedDers := 0
      regularization := regularization }
  let n' := { n with links := n.links ++ [link] }
  let n'' := n'.modifyNode (layerIdx - 1) j fun p => { p with outputs := p.outputs ++ [k] }
  n''.modifyNode layerIdx i fun q => { q with inputLinks := q.inputLinks ++ [k] }

/-- The `for i` node loop body of `buildNetwork` (state: network × next id). -/
def addNodeStep (networkShape : List Nat) (activation outputActivation : ActivationFunction α)
    (regularization : RegRef α) (inputIds : List String) (initZero : Bool) (rand : Nat → α)
    (layerIdx : Nat) (st : Network α × Nat) (i : Nat) : Network α × Nat :=
  let isOutputLayer := layerIdx = networkShape.length - 1
  let isInputLayer := layerIdx = 0
  let nodeId := if isInputLayer then inputIds.getD i "" else toString st.2
  let id' := if isInputLayer then st.2 else st.2 + 1
  let node := Node.make nodeId (if isOutputLayer then outputActivation else activation) initZero
  let net1 := { st.1 with layers := listModify st.1.layers layerIdx (fun lay => lay ++ [node]) }
  if 1 ≤ layerIdx then
    let prevLen := (net1.layers[layerIdx - 1]?.getD []).length
    ((List.range prevLen).foldl (addLinkStep regularization initZero rand layerIdx i) net1, id')
  else (net1, id')

/-- `buildNetwork` from nn.ts. -/
def buildNetwork (networkShape : List Nat) (activation outputActivation : ActivationFunction α)
    (regularization : RegRef α) (inputIds : List String) (initZero : Bool)
    (rand : Nat → α) : Network α :=
  ((List.range networkShape.length).foldl
    (fun (st : Network α × Nat) layerIdx =>
      let withLayer : Network α := { st.1 with layers := st.1.layers ++ [[]] }
      (List.range (networkShape.getD layerIdx 0)).foldl
        (addNodeStep networkShape activation outputActivation regularization inputIds initZero
          rand layerIdx)
        (withLayer, st.2))
    ({ layers := [], links := [] }, 1)).1

/-- `getOutputNode` from nn.ts. -/
def getOutputNode (net : Network α) : Node α :=
  net.nodeD (net.layers.length - 1, 0)

/-! ## Basic lemmas about `listModify` and the network accessors -/

theorem length_listModify {β : Type} (l : List β) (i : Nat) (f : β → β) :
    (listModify l i f).length = l.length := by
  induction l generalizing i with
  | nil => rfl
  | cons b bs ih => cases i with
    | zero => rfl
    | succ n => simpa [listModify] using ih n

theorem getElem?_listModify_self {β : Type} (l : List β) (i : Nat) (f : β → β) :
    (listModify l i f)[i]? = (l[i]?).map f := by
  induction l generalizing i with
  | nil => rfl
  | cons b bs ih => cases i with
    | zero => simp [listModify]
    | succ n => simpa [listModify] using ih n

theorem getElem?_listModify_ne {β : Type} (l : List β) (i j : Nat) (f : β → β)
    (h : j ≠ i) : (listModify l i f)[j]? = l[j]? := by
  induction l generalizing i j with
  | nil => rfl
  | cons b bs ih =>
    cases i with
    | zero => cases j with
      | zero => exact absurd rfl h
      | succ m => simp [listModify]
    | succ n => cases j with
      | zero => simp [listModify]
      | succ m => simpa [listModify] using ih n m (fun hc => h (by omega))

theorem listModify_eq_of_fix {β : Type} (l : List β) (i : Nat) (f : β → β)
    (h : ∀ b, l[i]? = some b → f b = b) : listModify l i f = l := by
  induction l generalizing i with
  | nil => rfl
  | cons b bs ih => cases i with
    | zero => simpa [listModify] using h b (by simp)
    | succ n => simpa [listModify] using ih n (fun c hc => h c (by simpa using hc))

@[simp] theorem links_modifyNode (net : Network α) (l i : Nat) (f : Node α → Node α) :
    (net.modifyNode l i f).links = net.links := rfl

@[simp] theorem layers_modifyLink (net : Network α) (k : Nat) (f : Link α → Link α) :
    (net.modifyLink k f).layers = net.layers := rfl

@[simp] theorem node?_modifyLink (net : Network α) (k : Nat) (f : Link α → Link α)
    (l i : Nat) : (net.modifyLink k f).node? l i = net.node? l i := rfl

@[simp] theorem link?_modifyNode (net : Network α) (l i : Nat) (f : Node α → Node α)
    (k : Nat) : (net.modifyNode l i f).link? k = net.link? k := rfl

theorem layers_getElem?_modifyNode_ne (net : Network α) (l i : Nat) (f : Node α → Node α)
    (l' : Nat) (h : l' ≠ l) : (net.modifyNode l i f).layers[l']? = net.layers[l']? :=
  getElem?_listModify_ne _ _ _ _ h

theorem node?_modifyNode (net : Network α) (l i : Nat) (f : Node α → Node α) (l' i' : Nat) :
    (net.modifyNode l i f).node? l' i' =
      if l' = l ∧ i' = i then (net.node? l i).map f else net.node? l' i' := by
  by_cases hl : l' = l
  · subst hl
    by_cases hi : i' = i
    · subst hi
      simp only [Network.node?, Network.modifyNode, getElem?_listModify_self, and_self, if_true]
      cases net.layers[l']? with
      | none => rfl
      | some lay => simp [getElem?_listModify_self]
    · simp only [Network.node?, Network.modifyNode, getElem?_listModify_self, hi, and_false,
        if_false]
      cases net.layers[l']? with
      | none => rfl
      | some lay => simp [getElem?_listModify_ne _ _ _ _ hi]
  · simp only [Network.node?, Network.modifyNode, hl, false_and, if_false]
    rw [getElem?_listModify_ne _ _ _ _ hl]

theorem link?_modifyLink (net : Network α) (k : Nat) (f : Link α → Link α) (k' : Nat) :
    (net.modifyLink k f).link? k' =
      if k' = k then (net.link? k).map f else net.link? k' := by
  by_cases h : k' = k
  · subst h; simp [Network.link?, Network.modifyLink, getElem?_listModify_self]
  · simp [Network.link?, Network.modifyLink, getElem?_listModify_ne _ _ _ _ h, h]

theorem layerSize_modifyNode (net : Network α) (l i : Nat) (f : Node α → Node α)
    (l' : Nat) : (net.modifyNode l i f).layerSize l' = net.layerSize l' := by
  by_cases h : l' = l
  · subst h
    simp only [Network.layerSize, Network.modifyNode, getElem?_listModify_self]
    cases net.layers[l']? with
    | none => rfl
    | some lay => simp [length_listModify]
  · simp only [Network.layerSize, Network.modifyNode]
    rw [getElem?_listModify_ne _ _ _ _ h]

@[simp] theorem layerSize_modifyLink (net : Network α) (k : Nat) (f : Link α → Link α)
    (l : Nat) : (net.modifyLink k f).layerSize l = net.layerSize l := rfl

theorem length_layers_modifyNode (net : Network α) (l i : Nat) (f : Node α → Node α) :
    (net.modifyNode l i f).layers.length = net.layers.length := length_listModify _ _ _

theorem modifyNode_eq_of_fix (net : Network α) (l i : Nat) (f : Node α → Node α)
    (h : ∀ nd, net.node? l i = some nd → f nd = nd) : net.modifyNode l i f = net := by
  cases net with
  | mk layers links =>
    simp only [Network.modifyNode, Network.mk.injEq, and_true]
    apply listModify_eq_of_fix
    intro lay hlay
    apply listModify_eq_of_fix
    intro nd hnd
    exact h nd (by simp [Network.node?, hlay, hnd])

theorem modifyLink_eq_of_fix (net : Network α) (k : Nat) (f : Link α → Link α)
    (h : ∀ lk, net.link? k = some lk → f lk = lk) : net.modifyLink k f = net := by
  cases net with
  | mk layers links =>
    simp only [Network.modifyLink, Network.mk.injEq, true_and]
    exact listModify_eq_of_fix _ _ _ h

/-- A plain invariant-preservation principle for `List.foldl`. -/
theorem foldl_preserves {σ β : Type} (P : σ → Prop) (f : σ → β → σ) (l : List β) (s : σ)
    (h0 : P s) (hstep : ∀ t b, b ∈ l → P t → P (f t b)) : P (l.foldl f s) := by
  induction l generalizing s with
  | nil => exact h0
  | cons b bs ih =>
    exact ih (f s b) (hstep s b (List.mem_cons_self _ _) h0)
      (fun t c hc ht => hstep t c (List.mem_cons_of_mem _ hc) ht)

/-! ## Characterization of the in-layer loops

Both passes iterate `for (i = 0; i < currentLayer.length; i++)` mutating node
`(l, i)` from a value computed out of the evolving network.  When the
computation only reads state the loop never writes (the link arena and the
other layers), the whole loop is a point-wise map of layer `l` by the modifier
evaluated in the initial state. -/

theorem layerLoop_spec (net : Network α) (l m : Nat) (F : Network α → Nat → Node α → Node α)
    (hagree : ∀ (n : Network α) (i : Nat), i < m →
      n.links = net.links →
      (∀ l', l' ≠ l → n.layers[l']? = net.layers[l']?) →
      ∀ nd, net.node? l i = some nd → F n i nd = F net i nd) :
    (((List.range m).foldl (fun n i => n.modifyNode l i (F n i)) net).links = net.links) ∧
    (∀ l', l' ≠ l →
      ((List.range m).foldl (fun n i => n.modifyNode l i (F n i)) net).layers[l']? =
        net.layers[l']?) ∧
    (∀ l', ((List.range m).foldl (fun n i => n.modifyNode l i (F n i)) net).layerSize l' =
      net.layerSize l') ∧
    (((List.range m).foldl (fun n i => n.modifyNode l i (F n i)) net).layers.length =
      net.layers.length) ∧
    (∀ i, ((List.range m).foldl (fun n i => n.modifyNode l i (F n i)) net).node? l i =
      if i < m then (net.node? l i).map (F net i) else net.node? l i) := by
  induction m with
  | zero =>
    refine ⟨rfl, fun _ _ => rfl, fun _ => rfl, rfl, fun i => ?_⟩
    simp
  | succ m ih =>
    obtain ⟨ihlinks, ihlayers, ihsize, ihlen, ihnode⟩ :=
      ih (fun n i hi => hagree n i (Nat.lt_succ_of_lt hi))
    set netm := (List.range m).foldl (fun n i => n.modifyNode l i (F n i)) net with hnetm
    have hfold : (List.range (m + 1)).foldl (fun n i => n.modifyNode l i (F n i)) net =
        netm.modifyNode l m (F netm m) := by
      rw [List.range_succ, List.foldl_append]; rfl
    rw [hfold]
    refine ⟨by simp [ihlinks], ?_, ?_, ?_, ?_⟩
    · intro l' hl'
      rw [layers_getElem?_modifyNode_ne _ _ _ _ _ hl']
      exact ihlayers l' hl'
    · intro l'
      rw [layerSize_modifyNode]
      exact ihsize l'
    · rw [length_layers_modifyNode]
      exact ihlen
    · intro i
      rcases Nat.lt_trichotomy i m with hi | hi | hi

      · rw [node?_modifyNode]
        have : ¬(l = l ∧ i = m) := fun h => absurd h.2 (Nat.ne_of_lt hi)
        rw [if_neg this, ihnode i, if_pos hi, if_pos (Nat.lt_succ_of_lt hi)]
      · subst hi
        rw [node?_modifyNode, if_pos ⟨rfl, rfl⟩, ihnode i, if_neg (lt_irrefl i),
          if_pos (Nat.lt_succ_self i)]
        cases hcase : net.node? l i with
        | none => rfl
        | some nd =>
          simp only [Option.map_some']
          congr 1
          exact hagree netm i (Nat.lt_succ_self i) ihlinks ihlayers nd hcase
      · rw [node?_modifyNode]
        have : ¬(l = l ∧ i = m) := fun h => absurd h.2 (by omega)
        rw [if_neg this, ihnode i, if_neg (by omega), if_neg (by omega)]

/-- Characterization of a loop over a duplicate-free list of link indices,
each mutated by a modifier that reads the evolving network only through the
node layers (which the loop never writes). -/
theorem linkLoop_spec (net : Network α) (ks : List Nat) (G : Network α → Nat → Link α → Link α)
    (hnd : ks.Nodup)
    (hagree : ∀ (n : Network α) (k : Nat) (lk : Link α), k ∈ ks →
      n.layers = net.layers → net.link? k = some lk → G n k lk = G net k lk) :
    ((ks.foldl (fun n k => n.modifyLink k (G n k)) net).layers = net.layers) ∧
    (∀ k ∈ ks, (ks.foldl (fun n k => n.modifyLink k (G n k)) net).link? k =
      (net.link? k).map (G net k)) ∧
    (∀ k, k ∉ ks → (ks.foldl (fun n k => n.modifyLink k (G n k)) net).link? k =
      net.link? k) := by
  induction ks generalizing net with
  | nil => exact ⟨rfl, fun k hk => absurd hk (List.not_mem_nil k), fun k _ => rfl⟩
  | cons k₀ rest ih =>
    have hnd' : rest.Nodup := hnd.of_cons
    have hk₀ : k₀ ∉ rest := by
      have := List.nodup_cons.mp hnd; exact this.1
    set net1 := net.modifyLink k₀ (G net k₀) with hnet1
    have hlay1 : net1.layers = net.layers := rfl
    have hlink1 : ∀ k, k ≠ k₀ → net1.link? k = net.link? k := by
      intro k hk; rw [hnet1, link?_modifyLink, if_neg hk]
    obtain ⟨ihlay, ihmem, ihnot⟩ := ih net1 hnd'
      (fun n k lk hk hlayn hlk =>
        have hlk' : net.link? k = some lk := by
          rw [← hlink1 k (fun h => hk₀ (h ▸ hk))]; exact hlk
        (hagree n k lk (List.mem_cons_of_mem _ hk) (hlayn.trans hlay1) hlk').trans
          (hagree net1 k lk (List.mem_cons_of_mem _ hk) hlay1 hlk').symm)
    have hfold : ((k₀ :: rest).foldl (fun n k => n.modifyLink k (G n k)) net) =
        rest.foldl (fun n k => n.modifyLink k (G n k)) net1 := rfl
    rw [hfold]
    refine ⟨ihlay.trans hlay1, ?_, ?_⟩
    · intro k hk
      rcases List.mem_cons.mp hk with hk | hk
      · subst hk
        rw [ihnot k hk₀, hnet1, link?_modifyLink, if_pos rfl]
      · rw [ihmem k hk, hlink1 k (fun h => hk₀ (h ▸ hk))]
        cases hcase : net.link? k with
        | none => rfl
        | some lk =>
          simp only [Option.map_some']
          congr 1
          exact hagree net1 k lk (List.mem_cons_of_mem _ hk) hlay1 hcase
    · intro k hk
      have hk1 : k ≠ k₀ := fun h => hk (h ▸ List.mem_cons_self _ _)
      have hk2 : k ∉ rest := fun h => hk (List.mem_cons_of_mem _ h)
      rw [ihnot k hk2, hlink1 k hk1]

/-! ## Well-formed networks

The structural invariants of §3 of the design: links connect adjacent layers
with valid coordinates, and each link is registered exactly once in its
destination node's `inputLinks` and its source node's `outputs`, which are
sound lists of arena indices.  `buildNetwork` establishes this and none of
the passes touch any structural field. -/

def Network.wf (net : Network α) : Prop :=
  (∀ k ∈ List.range net.links.length,
    1 ≤ (net.linkD k).dest.1 ∧
    (net.linkD k).dest.1 < net.layers.length ∧
    (net.linkD k).source.1 + 1 = (net.linkD k).dest.1 ∧
    (net.linkD k).dest.2 < net.layerSize (net.linkD k).dest.1 ∧
    (net.linkD k).source.2 < net.layerSize (net.linkD k).source.1 ∧
    (net.nodeD (net.linkD k).dest).inputLinks.count k = 1 ∧
    (net.nodeD (net.linkD k).source).outputs.count k = 1) ∧
  (∀ l ∈ List.range net.layers.length, ∀ i ∈ List.range (net.layerSize l),
    (∀ k ∈ (net.nodeD (l, i)).inputLinks,
      k < net.links.length ∧ (net.linkD k).dest = (l, i)) ∧
    (∀ k ∈ (net.nodeD (l, i)).outputs,
      k < net.links.length ∧ (net.linkD k).source = (l, i)))

instance (net : Network α) : Decidable net.wf := by
  unfold Network.wf; infer_instance

/-- Structural equality: two networks with the same layer profile, the same
endpoint lists on every node and the same endpoints on every link. -/
def sameStructure (m n : Network α) : Prop :=
  m.layers.length = n.layers.length ∧
  (∀ l, m.layerSize l = n.layerSize l) ∧
  m.links.length = n.links.length ∧
  (∀ l i, (m.node? l i).map (fun nd => (nd.inputLinks, nd.outputs)) =
          (n.node? l i).map (fun nd => (nd.inputLinks, nd.outputs))) ∧
  (∀ k, (m.link? k).map (fun lk => (lk.source, lk.dest)) =
        (n.link? k).map (fun lk => (lk.source, lk.dest)))

theorem sameStructure.refl (m : Network α) : sameStructure m m :=
  ⟨rfl, fun _ => rfl, rfl, fun _ _ => rfl, fun _ => rfl⟩

theorem sameStructure.symm {m n : Network α} (h : sameStructure m n) : sameStructure n m :=
  ⟨h.1.symm, fun l => (h.2.1 l).symm, h.2.2.1.symm,
    fun l i => (h.2.2.2.1 l i).symm, fun k => (h.2.2.2.2 k).symm⟩

theorem sameStructure.trans {m n o : Network α} (h : sameStructure m n)
    (h' : sameStructure n o) : sameStructure m o :=
  ⟨h.1.trans h'.1, fun l => (h.2.1 l).trans (h'.2.1 l), h.2.2.1.trans h'.2.2.1,
    fun l i => (h.2.2.2.1 l i).trans (h'.2.2.2.1 l i),
    fun k => (h.2.2.2.2 k).trans (h'.2.2.2.2 k)⟩

theorem sameStructure.nodeD_inputLinks {m n : Network α} (h : sameStructure m n)
    (p : Nat × Nat) : (m.nodeD p).inputLinks = (n.nodeD p).inputLinks := by
  have := h.2.2.2.1 p.1 p.2
  unfold Network.nodeD
  cases hm : m.node? p.1 p.2 <;> cases hn : n.node? p.1 p.2 <;>
    rw [hm, hn] at this <;> simp_all [defaultNode]

theorem sameStructure.nodeD_outputs {m n : Network α} (h : sameStructure m n)
    (p : Nat × Nat) : (m.nodeD p).outputs = (n.nodeD p).outputs := by
  have := h.2.2.2.1 p.1 p.2
  unfold Network.nodeD
  cases hm : m.node? p.1 p.2 <;> cases hn : n.node? p.1 p.2 <;>
    rw [hm, hn] at this <;> simp_all [defaultNode]

theorem sameStructure.linkD_source {m n : Network α} (h : sameStructure m n)
    (k : Nat) : (m.linkD k).source = (n.linkD k).source := by
  have := h.2.2.2.2 k
  unfold Network.linkD
  cases hm : m.link? k <;> cases hn : n.link? k <;>
    rw [hm, hn] at this <;> simp_all [defaultLink]

theorem sameStructure.linkD_dest {m n : Network α} (h : sameStructure m n)
    (k : Nat) : (m.linkD k).dest = (n.linkD k).dest := by
  have := h.2.2.2.2 k
  unfold Network.linkD
  cases hm : m.link? k <;> cases hn : n.link? k <;>
    rw [hm, hn] at this <;> simp_all [defaultLink]

theorem wf_of_sameStructure {m n : Network α} (h : sameStructure m n) (hwf : n.wf) :
    m.wf := by
  obtain ⟨hwf1, hwf2⟩ := hwf
  constructor
  · intro k hk
    rw [List.mem_range, h.2.2.1] at hk
    have hk' := hwf1 k (List.mem_range.mpr hk)
    rw [h.linkD_source, h.linkD_dest, h.nodeD_inputLinks, h.nodeD_outputs, h.1]
    refine ⟨hk'.1, hk'.2.1, hk'.2.2.1, ?_, ?_, hk'.2.2.2.2.2⟩
    · rw [h.2.1]; exact hk'.2.2.2.1
    · rw [h.2.1]; exact hk'.2.2.2.2.1
  · intro l hl i hi
    rw [List.mem_range, h.1] at hl
    rw [List.mem_range, h.2.1] at hi
    have h2 := hwf2 l (List.mem_range.mpr hl) i (List.mem_range.mpr hi)
    rw [h.nodeD_inputLinks, h.nodeD_outputs]
    constructor
    · intro k hk
      have := h2.1 k hk
      rw [h.2.2.1, h.linkD_dest]
      exact this
    · intro k hk
      have := h2.2 k hk
      rw [h.2.2.1, h.linkD_source]
      exact this

/-! ## Small congruence helpers -/

theorem linkD_congr {m n : Network α} (h : m.links = n.links) (k : Nat) :
    m.linkD k = n.linkD k := by
  unfold Network.linkD Network.link?; rw [h]

theorem node?_congr_layer {m n : Network α} {l : Nat} (h : m.layers[l]? = n.layers[l]?)
    (i : Nat) : m.node? l i = n.node? l i := by
  unfold Network.node?; rw [h]

theorem nodeD_congr_layer {m n : Network α} {p : Nat × Nat}
    (h : m.layers[p.1]? = n.layers[p.1]?) : m.nodeD p = n.nodeD p := by
  unfold Network.nodeD; rw [node?_congr_layer h]

theorem node?_eq_none_of_le {net : Network α} {l i : Nat} (h : net.layerSize l ≤ i) :
    net.node? l i = none := by
  unfold Network.node?
  cases hcase : net.layers[l]? with
  | none => rfl
  | some lay =>
    have : lay.length ≤ i := by
      simpa [Network.layerSize, hcase] using h
    simp [List.getElem?_eq_none this]

theorem wf_link {net : Network α} (hwf : net.wf) {k : Nat} (hk : k < net.links.length) :
    1 ≤ (net.linkD k).dest.1 ∧
    (net.linkD k).dest.1 < net.layers.length ∧
    (net.linkD k).source.1 + 1 = (net.linkD k).dest.1 ∧
    (net.linkD k).dest.2 < net.layerSize (net.linkD k).dest.1 ∧
    (net.linkD k).source.2 < net.layerSize (net.linkD k).source.1 ∧
    (net.nodeD (net.linkD k).dest).inputLinks.count k = 1 ∧
    (net.nodeD (net.linkD k).source).outputs.count k = 1 :=
  hwf.1 k (List.mem_range.mpr hk)

theorem wf_inputLinks {net : Network α} (hwf : net.wf) {l i : Nat}
    (hl : l < net.layers.length) (hi : i < net.layerSize l) {k : Nat}
    (hk : k ∈ (net.nodeD (l, i)).inputLinks) :
    k < net.links.length ∧ (net.linkD k).dest = (l, i) :=
  (hwf.2 l (List.mem_range.mpr hl) i (List.mem_range.mpr hi)).1 k hk

theorem wf_outputs {net : Network α} (hwf : net.wf) {l i : Nat}
    (hl : l < net.layers.length) (hi : i < net.layerSize l) {k : Nat}
    (hk : k ∈ (net.nodeD (l, i)).outputs) :
    k < net.links.length ∧ (net.linkD k).source = (l, i) :=
  (hwf.2 l (List.mem_range.mpr hl) i (List.mem_range.mpr hi)).2 k hk

/-- Building block of `sameStructure` for a pass that rewrites the nodes of a
single layer without touching their structural fields. -/
theorem sameStructure_pointwise (net' net : Network α) (l : Nat)
    (hlinks : net'.links = net.links)
    (hlayers : ∀ l', l' ≠ l → net'.layers[l']? = net.layers[l']?)
    (hsize : ∀ l', net'.layerSize l' = net.layerSize l')
    (hlen : net'.layers.length = net.layers.length)
    (hnode : ∀ i, net'.node? l i = net.node? l i ∨
      ∃ nd, net.node? l i = some nd ∧ ∃ nd', net'.node? l i = some nd' ∧
        nd'.inputLinks = nd.inputLinks ∧ nd'.outputs = nd.outputs) :
    sameStructure net' net := by
  refine ⟨hlen, hsize, by rw [hlinks], ?_, ?_⟩
  · intro l' i
    by_cases hl' : l' = l
    · subst hl'
      rcases hnode i with h | ⟨nd, hnd, nd', hnd', h1, h2⟩
      · rw [h]
      · rw [hnd, hnd']; simp [h1, h2]
    · rw [node?_congr_layer (hlayers l' hl')]
  · intro k
    rw [show net'.link? k = net.link? k from by unfold Network.link?; rw [hlinks]]

/-! ## Characterization of the forward pass -/

/-- The `totalInput` computed by `Node.updateOutput`: bias plus the weighted
sum over *all* incoming links (dead links included) of the source outputs. -/
def fwdTotalInput (net : Network α) (nd : Node α) : α :=
  nd.inputLinks.foldl
    (fun acc k => acc + (net.linkD k).weight * (net.nodeD (net.linkD k).source).output)
    nd.bias

/-- The effect of `Node.updateOutput` on the node itself. -/
def fwdNodeUpd (net : Network α) (nd : Node α) : Node α :=
  { nd with totalInput := fwdTotalInput net nd
            output := nd.activation.output (fwdTotalInput net nd) }

theorem fwdNodeUpd_congr {m n : Network α} (nd : Node α)
    (hlk : ∀ k ∈ nd.inputLinks, m.linkD k = n.linkD k)
    (hsrc : ∀ k ∈ nd.inputLinks, m.nodeD (m.linkD k).source = n.nodeD (n.linkD k).source) :
    fwdNodeUpd m nd = fwdNodeUpd n nd := by
  have hT : fwdTotalInput m nd = fwdTotalInput n nd := by
    unfold fwdTotalInput
    refine List.foldl_ext _ _ _ (fun acc k hk => ?_)
    have h2 := hsrc k hk
    rw [hlk k hk] at h2
    rw [hlk k hk, h2]
  unfold fwdNodeUpd
  rw [hT]

/-- One iteration of the forward layer loop maps every node of layer `l`
through `updateOutput` evaluated in the state at loop entry, and changes
nothing else. -/
theorem updateLayer_spec (net : Network α) (l : Nat) (hwf : net.wf) (hl1 : 1 ≤ l)
    (hl : l < net.layers.length) :
    (((List.range (net.layerSize l)).foldl (fun n' i => updateOutputAt n' l i) net).links
        = net.links) ∧
    (∀ l', l' ≠ l →
      ((List.range (net.layerSize l)).foldl (fun n' i => updateOutputAt n' l i) net).layers[l']?
        = net.layers[l']?) ∧
    (∀ l', ((List.range (net.layerSize l)).foldl (fun n' i => updateOutputAt n' l i) net).layerSize l'
        = net.layerSize l') ∧
    (((List.range (net.layerSize l)).foldl (fun n' i => updateOutputAt n' l i) net).layers.length
        = net.layers.length) ∧
    (∀ i, ((List.range (net.layerSize l)).foldl (fun n' i => updateOutputAt n' l i) net).node? l i
        = if i < net.layerSize l then (net.node? l i).map (fwdNodeUpd net)
          else net.node? l i) := by
  have h := layerLoop_spec net l (net.layerSize l) (fun n _ nd => fwdNodeUpd n nd) ?_
  · exact h
  · intro n i hi hlinks hlayers nd hnd
    refine fwdNodeUpd_congr nd (fun k _ => linkD_congr hlinks k) (fun k hk => ?_)
    have hk' : k ∈ (net.nodeD (l, i)).inputLinks := by
      rw [show net.nodeD (l, i) = nd from by unfold Network.nodeD; rw [hnd]; rfl]
      exact hk
    obtain ⟨hklen, hdest⟩ := wf_inputLinks hwf hl hi hk'
    have hsrc : (net.linkD k).source.1 + 1 = l := by
      have := (wf_link hwf hklen).2.2.1
      rw [hdest] at this
      exact this
    rw [linkD_congr hlinks k]
    exact nodeD_congr_layer (hlayers _ (by omega))

theorem node?_some_lt {net : Network α} {l i : Nat} {nd : Node α}
    (h : net.node? l i = some nd) : i < net.layerSize l := by
  unfold Network.node? at h
  cases hcase : net.layers[l]? with
  | none => rw [hcase] at h; simp at h
  | some lay =>
    rw [hcase] at h
    have h' : lay[i]? = some nd := by simpa using h
    have hlt : i < lay.length := by
      by_contra hcon
      rw [List.getElem?_eq_none (by omega)] at h'
      simp at h'
    simpa [Network.layerSize, hcase] using hlt

theorem node?_some_layer_lt {net : Network α} {l i : Nat} {nd : Node α}
    (h : net.node? l i = some nd) : l < net.layers.length := by
  unfold Network.node? at h
  by_contra hcon
  rw [List.getElem?_eq_none (by omega)] at h
  exact absurd h (by simp)

@[simp] theorem fwdNodeUpd_inputLinks (net : Network α) (nd : Node α) :
    (fwdNodeUpd net nd).inputLinks = nd.inputLinks := rfl

@[simp] theorem fwdNodeUpd_outputs (net : Network α) (nd : Node α) :
    (fwdNodeUpd net nd).outputs = nd.outputs := rfl

/-- The forward layer walk `for (layerIdx = 1; layerIdx <= m; layerIdx++)`:
every node of a processed layer is mapped through `updateOutput`, whose
weighted sum reads the *final* outputs of the previous layer (already settled
when the layer is processed); everything else is untouched. -/
theorem fwdLayers_spec (net : Network α) (hwf : net.wf) (m : Nat)
    (hm : m + 1 ≤ net.layers.length) :
    (((List.range' 1 m).foldl
        (fun n layerIdx => (List.range (n.layerSize layerIdx)).foldl
          (fun n' i => updateOutputAt n' layerIdx i) n) net).links = net.links) ∧
    (∀ l', l' = 0 ∨ m < l' →
      ((List.range' 1 m).foldl
        (fun n layerIdx => (List.range (n.layerSize layerIdx)).foldl
          (fun n' i => updateOutputAt n' layerIdx i) n) net).layers[l']? = net.layers[l']?) ∧
    (∀ l', ((List.range' 1 m).foldl
        (fun n layerIdx => (List.range (n.layerSize layerIdx)).foldl
          (fun n' i => updateOutputAt n' layerIdx i) n) net).layerSize l' = net.layerSize l') ∧
    (((List.range' 1 m).foldl
        (fun n layerIdx => (List.range (n.layerSize layerIdx)).foldl
          (fun n' i => updateOutputAt n' layerIdx i) n) net).layers.length
        = net.layers.length) ∧
    sameStructure ((List.range' 1 m).foldl
        (fun n layerIdx => (List.range (n.layerSize layerIdx)).foldl
          (fun n' i => updateOutputAt n' layerIdx i) n) net) net ∧
    (∀ l i, 1 ≤ l → l ≤ m →
      ((List.range' 1 m).foldl
        (fun n layerIdx => (List.range (n.layerSize layerIdx)).foldl
          (fun n' i => updateOutputAt n' layerIdx i) n) net).node? l i
        = (net.node? l i).map (fwdNodeUpd ((List.range' 1 m).foldl
            (fun n layerIdx => (List.range (n.layerSize layerIdx)).foldl
              (fun n' i => updateOutputAt n' layerIdx i) n) net))) := by
  induction m with
  | zero =>
    exact ⟨rfl, fun _ _ => rfl, fun _ => rfl, rfl, sameStructure.refl net,
      fun l i h1 h0 => absurd h0 (by omega)⟩
  | succ m ih =>
    obtain ⟨ihlinks, ihlayers, ihsize, ihlen, ihstr, ihnode⟩ := ih (by omega)
    set netm := (List.range' 1 m).foldl
      (fun n layerIdx => (List.range (n.layerSize layerIdx)).foldl
        (fun n' i => updateOutputAt n' layerIdx i) n) net with hnetm
    have hconcat : List.range' 1 (m + 1) = List.range' 1 m ++ [m + 1] := by
      rw [List.range'_concat]; simp [Nat.add_comm]
    have hfold : (List.range' 1 (m + 1)).foldl
        (fun n layerIdx => (List.range (n.layerSize layerIdx)).foldl
          (fun n' i => updateOutputAt n' layerIdx i) n) net
        = (List.range (netm.layerSize (m + 1))).foldl
            (fun n' i => updateOutputAt n' (m + 1) i) netm := by
      rw [hconcat, List.foldl_append]
      simp only [List.foldl_cons, List.foldl_nil]
    have hwfm : netm.wf := wf_of_sameStructure ihstr hwf
    have hlm : m + 1 < netm.layers.length := by rw [ihlen]; omega
    obtain ⟨ulinks, ulayers, usize, ulen, unode⟩ :=
      updateLayer_spec netm (m + 1) hwfm (by omega) hlm
    rw [hfold]
    set netc := (List.range (netm.layerSize (m + 1))).foldl
      (fun n' i => updateOutputAt n' (m + 1) i) netm with hnetc
    have hclinks : netc.links = net.links := ulinks.trans ihlinks
    have hstrc : sameStructure netc netm := by
      refine sameStructure_pointwise netc netm (m + 1) ulinks ulayers usize ulen (fun i => ?_)
      rw [unode i]
      by_cases hi : i < netm.layerSize (m + 1)
      · rw [if_pos hi]
        cases hcase : netm.node? (m + 1) i with
        | none => left; simp
        | some nd => right; exact ⟨nd, rfl, fwdNodeUpd netm nd, by simp, rfl, rfl⟩
      · rw [if_neg hi]; left; rfl
    -- agreement of `fwdNodeUpd` between `netm` and `netc` on nodes whose
    -- sources lie strictly below layer `m + 1`
    have hupd_congr : ∀ (l i : Nat) (nd : Node α), net.node? l i = some nd →
        1 ≤ l → l ≤ m + 1 → fwdNodeUpd netm nd = fwdNodeUpd netc nd := by
      intro l i nd hnd hl1 hlm1
      have hil : i < net.layerSize l := node?_some_lt hnd
      have hll : l < net.layers.length := node?_some_layer_lt hnd
      refine fwdNodeUpd_congr nd (fun k _ => (linkD_congr hclinks.symm k).symm ▸
        (linkD_congr (ulinks : netc.links = netm.links) k).symm) (fun k hk => ?_)
      have hk' : k ∈ (net.nodeD (l, i)).inputLinks := by
        rw [show net.nodeD (l, i) = nd from by unfold Network.nodeD; rw [hnd]; rfl]
        exact hk
      obtain ⟨hklen, hdest⟩ := wf_inputLinks hwf hll hil hk'
      have hsrc : (net.linkD k).source.1 + 1 = l := by
        have := (wf_link hwf hklen).2.2.1
        rw [hdest] at this
        exact this
      have hlkm : netm.linkD k = net.linkD k := linkD_congr ihlinks k
      have hlkc : netc.linkD k = net.linkD k := linkD_congr hclinks k
      rw [hlkm, hlkc]
      exact (nodeD_congr_layer (ulayers _ (by omega))).symm
    refine ⟨hclinks, ?_, ?_, ?_, hstrc.trans ihstr, ?_⟩
    · intro l' hl'
      have hne : l' ≠ m + 1 := by omega
      rw [ulayers l' hne]
      exact ihlayers l' (by omega)
    · intro l'
      rw [usize l', ihsize l']
    · rw [ulen, ihlen]
    · intro l i hl1 hlsucc
      rcases Nat.lt_or_ge l (m + 1) with hcase | hcase
      · -- untouched by this iteration; transfer the inductive description
        have hne : l ≠ m + 1 := by omega
        have h1 : netc.node? l i = netm.node? l i := node?_congr_layer (ulayers l hne) i
        rw [h1, ihnode l i hl1 (by omega)]
        cases hnd : net.node? l i with
        | none => simp
        | some nd =>
          simp only [Option.map_some']
          rw [hupd_congr l i nd hnd hl1 (by omega)]
      · have hleq : l = m + 1 := by omega
        subst hleq
        rw [unode i]
        by_cases hi : i < netm.layerSize (m + 1)
        · rw [if_pos hi]
          have h2 : netm.node? (m + 1) i = net.node? (m + 1) i :=
            node?_congr_layer (ihlayers (m + 1) (by omega)) i
          rw [h2]
          cases hnd : net.node? (m + 1) i with
          | none => simp
          | some nd =>
            simp only [Option.map_some']
            rw [hupd_congr (m + 1) i nd hnd (by omega) (by omega)]
        · rw [if_neg hi]
          have hsz : net.layerSize (m + 1) ≤ i := by
            rw [← ihsize (m + 1)]; omega
          have h3 : netm.node? (m + 1) i = net.node? (m + 1) i :=
            node?_congr_layer (ihlayers (m + 1) (by omega)) i
          rw [h3, node?_eq_none_of_le hsz]
          simp

/-- Full characterization of a successful `forwardProp` call on a well-formed
network: the input layer receives the inputs, every later layer is mapped
through `updateOutput` (reading the final outputs of its predecessor layer),
nothing else changes, and the returned value is the output of the first node
of the last layer. -/
theorem forwardProp_spec (net : Network α) (inputs : List α) (hwf : net.wf)
    (hL : 1 ≤ net.layers.length) (hlen : inputs.length = net.layerSize 0) :
    (forwardProp net inputs).2 = Except.ok
      (((forwardProp net inputs).1).nodeD (net.layers.length - 1, 0)).output ∧
    ((forwardProp net inputs).1).links = net.links ∧
    sameStructure ((forwardProp net inputs).1) net ∧
    (∀ i, ((forwardProp net inputs).1).node? 0 i
        = (net.node? 0 i).map (fun nd => { nd with output := inputs.getD i 0 })) ∧
    (∀ l i, 1 ≤ l → ((forwardProp net inputs).1).node? l i
        = (net.node? l i).map (fwdNodeUpd ((forwardProp net inputs).1))) := by
  have hcond : ¬(inputs.length ≠ (net.layers[0]?.getD []).length) := by
    rw [hlen]; exact fun h => h rfl
  set m0 := (net.layers[0]?.getD []).length with hm0
  set net1 := (List.range m0).foldl
    (fun n i => n.modifyNode 0 i fun node => { node with output := inputs.getD i 0 }) net
    with hnet1
  set net2 := (List.range' 1 (net.layers.length - 1)).foldl
    (fun n layerIdx => (List.range (n.layerSize layerIdx)).foldl
      (fun n' i => updateOutputAt n' layerIdx i) n) net1 with hnet2
  have hfp : forwardProp net inputs
      = (net2, Except.ok (net2.nodeD (net2.layers.length - 1, 0)).output) := by
    simp only [forwardProp]
    rw [if_neg hcond]
  -- phase 1: writing the inputs into layer 0
  have p1links : net1.links = net.links :=
    (layerLoop_spec net 0 m0 (fun _ i nd => { nd with output := inputs.getD i 0 })
      (fun _ _ _ _ _ _ _ => rfl)).1
  have p1layers : ∀ l', l' ≠ 0 → net1.layers[l']? = net.layers[l']? :=
    (layerLoop_spec net 0 m0 (fun _ i nd => { nd with output := inputs.getD i 0 })
      (fun _ _ _ _ _ _ _ => rfl)).2.1
  have p1size : ∀ l', net1.layerSize l' = net.layerSize l' :=
    (layerLoop_spec net 0 m0 (fun _ i nd => { nd with output := inputs.getD i 0 })
      (fun _ _ _ _ _ _ _ => rfl)).2.2.1
  have p1len : net1.layers.length = net.layers.length :=
    (layerLoop_spec net 0 m0 (fun _ i nd => { nd with output := inputs.getD i 0 })
      (fun _ _ _ _ _ _ _ => rfl)).2.2.2.1
  have p1node : ∀ i, net1.node? 0 i = if i < m0
      then (net.node? 0 i).map (fun nd => { nd with output := inputs.getD i 0 })
      else net.node? 0 i :=
    (layerLoop_spec net 0 m0 (fun _ i nd => { nd with output := inputs.getD i 0 })
      (fun _ _ _ _ _ _ _ => rfl)).2.2.2.2
  have p1node' : ∀ i, net1.node? 0 i
      = (net.node? 0 i).map (fun nd => { nd with output := inputs.getD i 0 }) := by
    intro i
    rw [p1node i]
    by_cases hi : i < m0
    · rw [if_pos hi]
    · rw [if_neg hi]
      have : net.layerSize 0 ≤ i := by
        have : net.layerSize 0 = m0 := rfl
        omega
      rw [node?_eq_none_of_le this]
      simp
  have p1str : sameStructure net1 net := by
    refine sameStructure_pointwise net1 net 0 p1links p1layers p1size p1len (fun i => ?_)
    cases hcase : net.node? 0 i with
    | none => left; rw [p1node' i, hcase]; rfl
    | some nd =>
      right
      exact ⟨nd, rfl, { nd with output := inputs.getD i 0 },
        by rw [p1node' i, hcase]; rfl, rfl, rfl⟩
  have hwf1 : net1.wf := wf_of_sameStructure p1str hwf
  -- phase 2: the layer walk
  have hm : (net.layers.length - 1) + 1 ≤ net1.layers.length := by rw [p1len]; omega
  obtain ⟨f2links, f2layers, f2size, f2len, f2str, f2node⟩ :=
    fwdLayers_spec net1 hwf1 (net.layers.length - 1) hm
  rw [hfp]
  have hlinks2 : net2.links = net.links := f2links.trans p1links
  have hstr2 : sameStructure net2 net := f2str.trans p1str
  refine ⟨?_, hlinks2, hstr2, ?_, ?_⟩
  · have : net2.layers.length = net.layers.length := f2len.trans p1len
    rw [this]
  · intro i
    have h0 : net2.node? 0 i = net1.node? 0 i :=
      node?_congr_layer (f2layers 0 (Or.inl rfl)) i
    rw [h0, p1node' i]
  · intro l i hl1
    rcases Nat.lt_or_ge l (net.layers.length) with hcase | hcase
    · have hlm : l ≤ net.layers.length - 1 := by omega
      rw [f2node l i hl1 hlm]
      have h1 : net1.node? l i = net.node? l i :=
        node?_congr_layer (p1layers l (by omega)) i
      rw [h1]
    · have hnone : net.node? l i = none := by
        apply node?_eq_none_of_le
        have : net.layers[l]? = none := List.getElem?_eq_none (by omega)
        simp [Network.layerSize, this]
      have hnone2 : net2.node? l i = none := by
        apply node?_eq_none_of_le
        have hle : net2.layers.length ≤ l := by rw [f2len.trans p1len]; omega
        have : net2.layers[l]? = none := List.getElem?_eq_none hle
        simp [Network.layerSize, this]
      rw [hnone, hnone2]
      simp

/-! ## Characterization of the backward pass

Spec-side closed forms for the derivatives `backProp` computes (§4.3 of the
design): the output node's `outputDer` comes from the error function, interior
`outputDer`s are the weighted sums of the next layer's new `inputDer`s, and
each node's `inputDer` is its `outputDer` times the activation derivative at
the cached `totalInput`. -/

def specInputDer (net : Network α) (target : α) (errorFunc : ErrorFunction α) :
    Nat → Nat → α
  | l, i =>
    let nd := net.nodeD (l, i)
    let od : α :=
      if _h : net.layers.length - 1 ≤ l then errorFunc.der nd.output target
      else nd.outputs.foldl
        (fun acc k => acc + (net.linkD k).weight *
          specInputDer net target errorFunc (l + 1) (net.linkD k).dest.2) 0
    od * nd.activation.der nd.totalInput
  termination_by l _ => net.layers.length - l
  decreasing_by simp_wf; omega

/-- The recomputed `outputDer` of an interior node: the sum over its outgoing
links of `weight * dest.inputDer` (with the destination's *new* `inputDer`). -/
def specOutputDer (net : Network α) (target : α) (errorFunc : ErrorFunction α)
    (l i : Nat) : α :=
  (net.nodeD (l, i)).outputs.foldl
    (fun acc k => acc + (net.linkD k).weight *
      specInputDer net target errorFunc (l + 1) (net.linkD k).dest.2) 0

theorem specInputDer_def (net : Network α) (target : α) (errorFunc : ErrorFunction α)
    (l i : Nat) :
    specInputDer net target errorFunc l i
      = (if net.layers.length - 1 ≤ l then errorFunc.der (net.nodeD (l, i)).output target
         else specOutputDer net target errorFunc l i)
        * (net.nodeD (l, i)).activation.der (net.nodeD (l, i)).totalInput := by
  rw [specInputDer]
  by_cases h : net.layers.length - 1 ≤ l
  · rw [dif_pos h, if_pos h]
  · rw [dif_neg h, if_neg h]
    rfl

/-- The effect of `backProp` on one link (dead links are skipped). -/
def bwdLinkUpd (net : Network α) (target : α) (errorFunc : ErrorFunction α)
    (lk : Link α) : Link α :=
  if lk.isDead then lk
  else
    let e := specInputDer net target errorFunc lk.dest.1 lk.dest.2
      * (net.nodeD lk.source).output
    { lk with errorDer := e, accErrorDer := lk.accErrorDer + e
              numAccumulatedDers := lk.numAccumulatedDers + 1 }

/-- The intermediate effect of `backProp` on a node that has received its new
`outputDer` but not yet been visited by the node pass. -/
def bwdOdUpd (net : Network α) (target : α) (errorFunc : ErrorFunction α)
    (l i : Nat) (nd : Node α) : Node α :=
  { nd with outputDer :=
      if l = net.layers.length - 1 then errorFunc.der nd.output target
      else specOutputDer net target errorFunc l i }

/-- The full effect of `backProp` on a non-input node. -/
def bwdNodeUpd (net : Network α) (target : α) (errorFunc : ErrorFunction α)
    (l i : Nat) (nd : Node α) : Node α :=
  { nd with
    outputDer :=
      (if l = net.layers.length - 1 then errorFunc.der nd.output target
       else specOutputDer net target errorFunc l i)
    inputDer := specInputDer net target errorFunc l i
    accInputDer := nd.accInputDer + specInputDer net target errorFunc l i
    numAccumulatedDers := nd.numAccumulatedDers + 1 }

theorem linkD_of_link? {net : Network α} {k : Nat} {lk : Link α}
    (h : net.link? k = some lk) : net.linkD k = lk := by
  unfold Network.linkD; rw [h]; rfl

theorem link?_of_lt {net : Network α} {k : Nat} (h : k < net.links.length) :
    net.link? k = some (net.linkD k) := by
  unfold Network.linkD Network.link?
  rw [List.getElem?_eq_getElem h]
  rfl

theorem link?_some_lt {net : Network α} {k : Nat} {lk : Link α}
    (h : net.link? k = some lk) : k < net.links.length := by
  by_contra hcon
  unfold Network.link? at h
  rw [List.getElem?_eq_none (by omega)] at h
  exact absurd h (by simp)

theorem layerSize_pos_layer_lt {net : Network α} {m : Nat} (h : 0 < net.layerSize m) :
    m < net.layers.length := by
  by_contra hcon
  rw [show net.layerSize m = 0 from by
    simp [Network.layerSize, List.getElem?_eq_none (show net.layers.length ≤ m by omega)]] at h
  exact absurd h (by omega)

theorem wf_mem_inputLinks {net : Network α} (hwf : net.wf) {k : Nat}
    (hk : k < net.links.length) :
    k ∈ (net.nodeD (net.linkD k).dest).inputLinks := by
  have hc := (wf_link hwf hk).2.2.2.2.2.1
  exact List.count_pos_iff.mp (by omega)

theorem wf_inputLinks_nodup {net : Network α} (hwf : net.wf) {l i : Nat}
    (hl : l < net.layers.length) (hi : i < net.layerSize l) :
    (net.nodeD (l, i)).inputLinks.Nodup := by
  rw [List.nodup_iff_count_le_one]
  intro k
  by_cases hk : k ∈ (net.nodeD (l, i)).inputLinks
  · obtain ⟨hklen, hdest⟩ := wf_inputLinks hwf hl hi hk
    have hc := (wf_link hwf hklen).2.2.2.2.2.1
    rw [hdest] at hc
    omega
  · rw [List.count_eq_zero_of_not_mem hk]
    omega

theorem nodeD_congr_layers {m n : Network α} (h : m.layers = n.layers) (p : Nat × Nat) :
    m.nodeD p = n.nodeD p :=
  nodeD_congr_layer (by rw [h])

/-- The effect of the link pass on one link of the processed layer, expressed
against the state at entry of the link pass. -/
def bwdLinkUpdAt (b : Network α) (lk : Link α) : Link α :=
  if lk.isDead then lk
  else
    { lk with
      errorDer := (b.nodeD lk.dest).inputDer * (b.nodeD lk.source).output
      accErrorDer := lk.accErrorDer + (b.nodeD lk.dest).inputDer * (b.nodeD lk.source).output
      numAccumulatedDers := lk.numAccumulatedDers + 1 }

theorem links_length_modifyLink (net : Network α) (k : Nat) (f : Link α → Link α) :
    (net.modifyLink k f).links.length = net.links.length := length_listModify _ _ _

/-- The link pass of one `backProp` iteration over layer `m` maps precisely
the links with destination layer `m` through `bwdLinkUpdAt`, and nothing
else. -/
theorem bwdStep2_spec (b : Network α) (hbwf : b.wf) (m : Nat) (j : Nat)
    (hj : j ≤ b.layerSize m) :
    (((List.range j).foldl
        (fun n' i =>
          let node := n'.nodeD (m, i)
          node.inputLinks.foldl
            (fun n'' k => n''.modifyLink k fun link =>
              if link.isDead then link
              else
                let errorDer := node.inputDer * (n''.nodeD link.source).output
                { link with errorDer := errorDer
                            accErrorDer := link.accErrorDer + errorDer
                            numAccumulatedDers := link.numAccumulatedDers + 1 }) n') b).layers
      = b.layers) ∧
    (∀ k lk, b.link? k = some lk →
      ((List.range j).foldl
        (fun n' i =>
          let node := n'.nodeD (m, i)
          node.inputLinks.foldl
            (fun n'' k => n''.modifyLink k fun link =>
              if link.isDead then link
              else
                let errorDer := node.inputDer * (n''.nodeD link.source).output
                { link with errorDer := errorDer
                            accErrorDer := link.accErrorDer + errorDer
                            numAccumulatedDers := link.numAccumulatedDers + 1 }) n') b).link? k
        = if lk.dest.1 = m ∧ lk.dest.2 < j then some (bwdLinkUpdAt b lk) else some lk) := by
  induction j with
  | zero =>
    refine ⟨rfl, fun k lk hlk => ?_⟩
    rw [if_neg (by omega)]
    exact hlk
  | succ j ih =>
    obtain ⟨ihlay, ihlink⟩ := ih (by omega)
    set sj := (List.range j).foldl
      (fun n' i =>
        let node := n'.nodeD (m, i)
        node.inputLinks.foldl
          (fun n'' k => n''.modifyLink k fun link =>
            if link.isDead then link
            else
              let errorDer := node.inputDer * (n''.nodeD link.source).output
              { link with errorDer := errorDer
                          accErrorDer := link.accErrorDer + errorDer
                          numAccumulatedDers := link.numAccumulatedDers + 1 }) n') b
      with hsj
    have hfold : ((List.range (j + 1)).foldl
        (fun n' i =>
          let node := n'.nodeD (m, i)
          node.inputLinks.foldl
            (fun n'' k => n''.modifyLink k fun link =>
              if link.isDead then link
              else
                let errorDer := node.inputDer * (n''.nodeD link.source).output
                { link with errorDer := errorDer
                            accErrorDer := link.accErrorDer + errorDer
                            numAccumulatedDers := link.numAccumulatedDers + 1 }) n') b)
        = (sj.nodeD (m, j)).inputLinks.foldl
            (fun n'' k => n''.modifyLink k fun link =>
              if link.isDead then link
              else
                let errorDer := (sj.nodeD (m, j)).inputDer * (n''.nodeD link.source).output
                { link with errorDer := errorDer
                            accErrorDer := link.accErrorDer + errorDer
                            numAccumulatedDers := link.numAccumulatedDers + 1 }) sj := by
      rw [List.range_succ, List.foldl_append]
      rfl
    have hnodeD : ∀ p, sj.nodeD p = b.nodeD p := nodeD_congr_layers ihlay
    have hm : m < b.layers.length := layerSize_pos_layer_lt (by omega)
    have hjsz : j < b.layerSize m := by omega
    have hnd : (sj.nodeD (m, j)).inputLinks = (b.nodeD (m, j)).inputLinks := by
      rw [hnodeD]
    have hspec := linkLoop_spec sj ((sj.nodeD (m, j)).inputLinks)
      (fun n _ lk =>
        if lk.isDead then lk
        else
          { lk with
            errorDer := (sj.nodeD (m, j)).inputDer * (n.nodeD lk.source).output
            accErrorDer := lk.accErrorDer + (sj.nodeD (m, j)).inputDer * (n.nodeD lk.source).output
            numAccumulatedDers := lk.numAccumulatedDers + 1 })
      (by rw [hnd]; exact wf_inputLinks_nodup hbwf hm hjsz)
      (by
        intro n k lk hk hlayn hlk
        have hns : n.nodeD lk.source = sj.nodeD lk.source := nodeD_congr_layers hlayn _
        simp only [hns])
    have llay : ((sj.nodeD (m, j)).inputLinks.foldl
        (fun n'' k => n''.modifyLink k fun link =>
          if link.isDead then link
          else
            let errorDer := (sj.nodeD (m, j)).inputDer * (n''.nodeD link.source).output
            { link with errorDer := errorDer
                        accErrorDer := link.accErrorDer + errorDer
                        numAccumulatedDers := link.numAccumulatedDers + 1 }) sj).layers
        = sj.layers := hspec.1
    have lmem : ∀ k ∈ (sj.nodeD (m, j)).inputLinks,
        ((sj.nodeD (m, j)).inputLinks.foldl
          (fun n'' k => n''.modifyLink k fun link =>
            if link.isDead then link
            else
              let errorDer := (sj.nodeD (m, j)).inputDer * (n''.nodeD link.source).output
              { link with errorDer := errorDer
                          accErrorDer := link.accErrorDer + errorDer
                          numAccumulatedDers := link.numAccumulatedDers + 1 }) sj).link? k
          = (sj.link? k).map (fun lk =>
              if lk.isDead then lk
              else
                { lk with
                  errorDer := (sj.nodeD (m, j)).inputDer * (sj.nodeD lk.source).output
                  accErrorDer := lk.accErrorDer
                    + (sj.nodeD (m, j)).inputDer * (sj.nodeD lk.source).output
                  numAccumulatedDers := lk.numAccumulatedDers + 1 }) := hspec.2.1
    have lnot : ∀ k, k ∉ (sj.nodeD (m, j)).inputLinks →
        ((sj.nodeD (m, j)).inputLinks.foldl
          (fun n'' k => n''.modifyLink k fun link =>
            if link.isDead then link
            else
              let errorDer := (sj.nodeD (m, j)).inputDer * (n''.nodeD link.source).output
              { link with errorDer := errorDer
                          accErrorDer := link.accErrorDer + errorDer
                          numAccumulatedDers := link.numAccumulatedDers + 1 }) sj).link? k
          = sj.link? k := hspec.2.2
    rw [hfold]
    constructor
    · exact llay.trans ihlay
    · intro k lk hlk
      have hklen : k < b.links.length := link?_some_lt hlk
      have hlkD : b.linkD k = lk := linkD_of_link? hlk
      by_cases hmem : k ∈ (sj.nodeD (m, j)).inputLinks
      · -- a link into node (m, j): it was untouched so far and is mapped now
        have hdest : lk.dest = (m, j) := by
          rw [hnd] at hmem
          have := (wf_inputLinks hbwf hm hjsz hmem).2
          rw [hlkD] at this
          exact this
        have hsjlk : sj.link? k = some lk := by
          rw [ihlink k lk hlk, if_neg (by rw [hdest]; simp)]
        rw [lmem k hmem, hsjlk]
        simp only [Option.map_some']
        rw [if_pos (show lk.dest.1 = m ∧ lk.dest.2 < j + 1 by rw [hdest]; exact ⟨rfl, by omega⟩)]
        congr 1
        unfold bwdLinkUpdAt
        cases hd : lk.isDead with
        | true => simp [hd]
        | false =>
          simp only [hd, Bool.false_eq_true, if_false]
          rw [hdest, hnodeD (m, j), hnodeD lk.source]
      · -- not a link into node (m, j): left as after the previous iterations
        rw [lnot k hmem, ihlink k lk hlk]
        by_cases hdm : lk.dest.1 = m ∧ lk.dest.2 < j
        · rw [if_pos hdm, if_pos ⟨hdm.1, by omega⟩]
        · rw [if_neg hdm, if_neg ?_]
          intro hcontra
          apply hmem
          have hdj : lk.dest = (m, j) := by
            rcases Nat.lt_or_ge lk.dest.2 j with hlt | hge
            · exact absurd ⟨hcontra.1, hlt⟩ hdm
            · have h2 : lk.dest.2 = j := by omega
              exact Prod.ext hcontra.1 h2
          rw [hnd]
          have hmem' := wf_mem_inputLinks hbwf hklen
          rw [hlkD, hdj] at hmem'
          exact hmem'

theorem nodeD_of_node? {net : Network α} {l i : Nat} {nd : Node α}
    (h : net.node? l i = some nd) : net.nodeD (l, i) = nd := by
  unfold Network.nodeD; rw [h]; rfl

theorem node?_of_lt {net : Network α} {l i : Nat} (hl : l < net.layers.length)
    (hi : i < net.layerSize l) : net.node? l i = some (net.nodeD (l, i)) := by
  cases hcase : net.layers[l]? with
  | none =>
    have : net.layers[l]? = some net.layers[l] := List.getElem?_eq_getElem hl
    rw [hcase] at this
    exact absurd this (by simp)
  | some lay =>
    have hlen : i < lay.length := by simpa [Network.layerSize, hcase] using hi
    unfold Network.nodeD Network.node?
    rw [hcase]
    show lay[i]? = some ((lay[i]?).getD defaultNode)
    rw [List.getElem?_eq_getElem hlen]
    rfl

theorem nodeD_congr_node? {m n : Network α} {p : Nat × Nat}
    (h : m.node? p.1 p.2 = n.node? p.1 p.2) : m.nodeD p = n.nodeD p := by
  unfold Network.nodeD; rw [h]

@[simp] theorem bwdLinkUpd_source (net : Network α) (target : α) (e : ErrorFunction α)
    (lk : Link α) : (bwdLinkUpd net target e lk).source = lk.source := by
  unfold bwdLinkUpd; split <;> rfl

@[simp] theorem bwdLinkUpd_dest (net : Network α) (target : α) (e : ErrorFunction α)
    (lk : Link α) : (bwdLinkUpd net target e lk).dest = lk.dest := by
  unfold bwdLinkUpd; split <;> rfl

@[simp] theorem bwdLinkUpd_weight (net : Network α) (target : α) (e : ErrorFunction α)
    (lk : Link α) : (bwdLinkUpd net target e lk).weight = lk.weight := by
  unfold bwdLinkUpd; split <;> rfl

@[simp] theorem bwdLinkUpd_isDead (net : Network α) (target : α) (e : ErrorFunction α)
    (lk : Link α) : (bwdLinkUpd net target e lk).isDead = lk.isDead := by
  unfold bwdLinkUpd; split <;> rfl

theorem links_length_bwdStep2 (n : Network α) (m : Nat) :
    (bwdStep2 n m).links.length = n.links.length := by
  unfold bwdStep2
  refine foldl_preserves (fun (x : Network α) => x.links.length = n.links.length) _ _ _ rfl ?_
  intro t b _ ht
  refine (foldl_preserves (fun (x : Network α) => x.links.length = t.links.length)
    _ _ _ rfl ?_).trans ht
  intro u k _ hu
  exact (links_length_modifyLink u k _).trans hu

theorem link?_congr_links {m n : Network α} (h : m.links = n.links) (k : Nat) :
    m.link? k = n.link? k := by
  unfold Network.link?; rw [h]

/-- `specInputDer` written against the node record, for nodes of a layer the
backward walk visits (`m ≤ L - 1`). -/
theorem specInputDer_eq_bwd (net : Network α) (target : α) (e : ErrorFunction α)
    {m i : Nat} (hm : m ≤ net.layers.length - 1) (hL : 2 ≤ net.layers.length)
    {nd : Node α} (hnd : net.node? m i = some nd) :
    specInputDer net target e m i
      = (if m = net.layers.length - 1 then e.der nd.output target
         else specOutputDer net target e m i) * nd.activation.der nd.totalInput := by
  rw [specInputDer_def, nodeD_of_node? hnd]
  by_cases hc : m = net.layers.length - 1
  · rw [if_pos hc, if_pos (by omega)]
  · rw [if_neg hc, if_neg (by omega)]

/-- Loop invariant of the backward layer walk: before processing layer `m`,
all layers above `m` are finished, layer `m` has received its new `outputDer`
(and nothing more), everything below `m` and every link into a layer `≤ m`
is untouched. -/
def BwdInv (net : Network α) (target : α) (errorFunc : ErrorFunction α) (m : Nat)
    (s : Network α) : Prop :=
  sameStructure s net ∧
  (∀ l i, l < m → s.node? l i = net.node? l i) ∧
  (∀ i, s.node? m i = (net.node? m i).map (bwdOdUpd net target errorFunc m i)) ∧
  (∀ l i, m < l → s.node? l i = (net.node? l i).map (bwdNodeUpd net target errorFunc l i)) ∧
  (∀ k lk, net.link? k = some lk →
    s.link? k = if m < lk.dest.1 then some (bwdLinkUpd net target errorFunc lk) else some lk)

/-- The combined effect of the first two loops of a `backProp` iteration at
layer `m`, starting from the walk invariant: layer `m` becomes fully updated
and the links into layer `m` accumulate their error derivatives. -/
theorem bwdSteps12_spec (net : Network α) (target : α) (errorFunc : ErrorFunction α)
    (hwf : net.wf) (hL : 2 ≤ net.layers.length) (m : Nat) (h1 : 1 ≤ m)
    (hm : m ≤ net.layers.length - 1)
    (s : Network α) (hInv : BwdInv net target errorFunc m s) :
    sameStructure (bwdStep2 (bwdStep1 s m) m) net ∧
    (∀ l i, l < m → (bwdStep2 (bwdStep1 s m) m).node? l i = net.node? l i) ∧
    (∀ l i, m ≤ l → (bwdStep2 (bwdStep1 s m) m).node? l i
        = (net.node? l i).map (bwdNodeUpd net target errorFunc l i)) ∧
    (∀ k lk, net.link? k = some lk →
      (bwdStep2 (bwdStep1 s m) m).link? k
        = if m ≤ lk.dest.1 then some (bwdLinkUpd net target errorFunc lk) else some lk) := by
  obtain ⟨hstr, hbelow, hat, habove, hlinks⟩ := hInv
  -- ### step 1
  have hs1 := layerLoop_spec s m (s.layerSize m)
    (fun _ _ node =>
      let inputDer := node.outputDer * node.activation.der node.totalInput
      { node with inputDer := inputDer
                  accInputDer := node.accInputDer + inputDer
                  numAccumulatedDers := node.numAccumulatedDers + 1 })
    (fun _ _ _ _ _ _ _ => rfl)
  have s1links : (bwdStep1 s m).links = s.links := hs1.1
  have s1layers : ∀ l', l' ≠ m → (bwdStep1 s m).layers[l']? = s.layers[l']? := hs1.2.1
  have s1size : ∀ l', (bwdStep1 s m).layerSize l' = s.layerSize l' := hs1.2.2.1
  have s1len : (bwdStep1 s m).layers.length = s.layers.length := hs1.2.2.2.1
  have s1node : ∀ i, (bwdStep1 s m).node? m i
      = if i < s.layerSize m then
          (s.node? m i).map (fun node =>
            let inputDer := node.outputDer * node.activation.der node.totalInput
            { node with inputDer := inputDer
                        accInputDer := node.accInputDer + inputDer
                        numAccumulatedDers := node.numAccumulatedDers + 1 })
        else s.node? m i := hs1.2.2.2.2
  set n1 := bwdStep1 s m with hn1
  have n1at : ∀ i, n1.node? m i
      = (net.node? m i).map (bwdNodeUpd net target errorFunc m i) := by
    intro i
    rw [s1node i]
    by_cases hi : i < s.layerSize m
    · rw [if_pos hi, hat i]
      cases hnd : net.node? m i with
      | none => simp
      | some nd =>
        simp only [Option.map_some']
        congr 1
        have hspec := specInputDer_eq_bwd net target errorFunc hm hL hnd
        simp only [bwdOdUpd, bwdNodeUpd, hspec]
    · rw [if_neg hi]
      have hnone : net.node? m i = none := by
        apply node?_eq_none_of_le
        have := hstr.2.1 m
        omega
      rw [hat i, hnone]
      simp
  have n1below : ∀ l i, l < m → n1.node? l i = net.node? l i := by
    intro l i hl
    rw [node?_congr_layer (s1layers l (by omega)) i]
    exact hbelow l i hl
  have n1above : ∀ l i, m < l → n1.node? l i
      = (net.node? l i).map (bwdNodeUpd net target errorFunc l i) := by
    intro l i hl
    rw [node?_congr_layer (s1layers l (by omega)) i]
    exact habove l i hl
  have n1links : ∀ k, n1.link? k = s.link? k := link?_congr_links s1links
  have n1str : sameStructure n1 net := by
    refine (sameStructure_pointwise n1 s m s1links s1layers s1size s1len ?_).trans hstr
    intro i
    rw [s1node i]
    by_cases hi : i < s.layerSize m
    · rw [if_pos hi]
      cases hcase : s.node? m i with
      | none => left; simp
      | some nd => right; exact ⟨nd, rfl, _, rfl, rfl, rfl⟩
    · rw [if_neg hi]; left; rfl
  have n1wf : n1.wf := wf_of_sameStructure n1str hwf
  -- ### step 2
  have hs2 := bwdStep2_spec n1 n1wf m (n1.layerSize m) le_rfl
  have s2lay : (bwdStep2 n1 m).layers = n1.layers := hs2.1
  have s2link : ∀ k lk, n1.link? k = some lk →
      (bwdStep2 n1 m).link? k
        = if lk.dest.1 = m ∧ lk.dest.2 < n1.layerSize m then some (bwdLinkUpdAt n1 lk)
          else some lk := hs2.2
  have s2node : ∀ l i, (bwdStep2 n1 m).node? l i = n1.node? l i :=
    fun l i => node?_congr_layer (by rw [s2lay]) i
  have hmL : m < net.layers.length := by omega
  -- links, relative to the original network
  have linkchar : ∀ k lk, net.link? k = some lk →
      (bwdStep2 n1 m).link? k
        = if m ≤ lk.dest.1 then some (bwdLinkUpd net target errorFunc lk) else some lk := by
    intro k lk hlk
    have hklen : k < net.links.length := link?_some_lt hlk
    have hwfk := wf_link hwf hklen
    rw [linkD_of_link? hlk] at hwfk
    rcases Nat.lt_or_ge m lk.dest.1 with hgt | hle
    · -- already processed in an earlier (higher) iteration
      have hn1k : n1.link? k = some (bwdLinkUpd net target errorFunc lk) := by
        rw [n1links k, hlinks k lk hlk, if_pos hgt]
      have hcond : ¬((bwdLinkUpd net target errorFunc lk).dest.1 = m
          ∧ (bwdLinkUpd net target errorFunc lk).dest.2 < n1.layerSize m) := by
        rw [bwdLinkUpd_dest]
        intro hc
        omega
      rw [s2link k _ hn1k, if_neg hcond, if_pos (by omega)]
    · -- untouched so far
      have hn1k : n1.link? k = some lk := by
        rw [n1links k, hlinks k lk hlk, if_neg (by omega)]
      rcases Nat.lt_or_ge lk.dest.1 m with hlt | hge
      · rw [s2link k lk hn1k, if_neg (by omega), if_neg (by omega)]
      · have hdm : lk.dest.1 = m := by omega
        have hd2 : lk.dest.2 < n1.layerSize m := by
          have h := hwfk.2.2.2.1
          rw [hdm] at h
          have h2 := hstr.2.1 m
          have hsz := s1size m
          omega
        rw [s2link k lk hn1k, if_pos ⟨hdm, hd2⟩, if_pos (by omega)]
        congr 1
        -- `bwdLinkUpdAt` at the updated layer agrees with the closed form
        unfold bwdLinkUpdAt bwdLinkUpd
        cases hdead : lk.isDead with
        | true => simp [hdead]
        | false =>
          simp only [hdead, Bool.false_eq_true, if_false]
          have hdestp : lk.dest = (m, lk.dest.2) := Prod.ext hdm rfl
          have hdest2 : lk.dest.2 < net.layerSize m := by
            have h := hwfk.2.2.2.1
            rw [hdm] at h
            exact h
          have hsrclt : lk.source.1 < m := by
            have h := hwfk.2.2.1
            omega
          have hnddest : n1.nodeD lk.dest
              = bwdNodeUpd net target errorFunc m lk.dest.2 (net.nodeD (m, lk.dest.2)) := by
            rw [hdestp]
            apply nodeD_of_node?
            show n1.node? m lk.dest.2 = _
            rw [n1at lk.dest.2, node?_of_lt hmL hdest2]
            rfl
          have hndsrc : n1.nodeD lk.source = net.nodeD lk.source := by
            apply nodeD_congr_node?
            exact n1below lk.source.1 lk.source.2 hsrclt
          rw [hnddest, hndsrc, hdestp]
          rfl
  refine ⟨?_, ?_, ?_, linkchar⟩
  · -- structure
    refine sameStructure.trans ?_ n1str
    refine ⟨by rw [s2lay], fun l => by
        simp only [Network.layerSize]; rw [s2lay], links_length_bwdStep2 n1 m, ?_, ?_⟩
    · intro l i
      rw [s2node l i]
    · intro k
      rcases Nat.lt_or_ge k n1.links.length with hk | hk
      · have hk' : k < net.links.length := by
          have := hstr.2.2.1
          rw [show n1.links.length = s.links.length from by rw [s1links]] at hk
          omega
        obtain ⟨lk, hlk⟩ : ∃ lk, net.link? k = some lk := ⟨net.linkD k, link?_of_lt hk'⟩
        rw [linkchar k lk hlk]
        have hn1lk : n1.link? k = if m < lk.dest.1
            then some (bwdLinkUpd net target errorFunc lk) else some lk := by
          rw [n1links k]; exact hlinks k lk hlk
        rw [hn1lk]
        by_cases hcond : m ≤ lk.dest.1
        · rw [if_pos hcond]
          by_cases hcond2 : m < lk.dest.1
          · rw [if_pos hcond2]
          · rw [if_neg hcond2]
            simp [bwdLinkUpd_source, bwdLinkUpd_dest]
        · rw [if_neg hcond, if_neg (by omega)]
      · have h2 : (bwdStep2 n1 m).link? k = none := by
          unfold Network.link?
          exact List.getElem?_eq_none (by rw [links_length_bwdStep2 n1 m]; omega)
        have h3 : n1.link? k = none := by
          unfold Network.link?
          exact List.getElem?_eq_none (by omega)
        rw [h2, h3]
  · intro l i hl
    rw [s2node l i]
    exact n1below l i hl
  · intro l i hl
    rw [s2node l i]
    rcases Nat.lt_or_ge m l with hgt | hge
    · exact n1above l i hgt
    · have : l = m := by omega
      subst this
      exact n1at i

/-- The third loop of a `backProp` iteration at layer `m ≥ 2` writes the new
`outputDer`s of layer `m - 1`, re-establishing the walk invariant one layer
down. -/
theorem bwdStep3_spec (net : Network α) (target : α) (errorFunc : ErrorFunction α)
    (hwf : net.wf) (hL : 2 ≤ net.layers.length) (m : Nat) (h2 : 2 ≤ m)
    (hm : m ≤ net.layers.length - 1)
    (s2 : Network α)
    (hstr : sameStructure s2 net)
    (hbelow : ∀ l i, l < m → s2.node? l i = net.node? l i)
    (habove : ∀ l i, m ≤ l → s2.node? l i
        = (net.node? l i).map (bwdNodeUpd net target errorFunc l i))
    (hlinks : ∀ k lk, net.link? k = some lk →
      s2.link? k = if m ≤ lk.dest.1 then some (bwdLinkUpd net target errorFunc lk)
        else some lk) :
    BwdInv net target errorFunc (m - 1) (bwdStep3 s2 m) := by
  have s2wf : s2.wf := wf_of_sameStructure hstr hwf
  have hmL : m < net.layers.length := by omega
  have hm1L : m - 1 < net.layers.length := by omega
  -- weights and destinations of links are untouched in `s2`
  have hlinkproj : ∀ k, k < net.links.length →
      (s2.linkD k).weight = (net.linkD k).weight ∧
      (s2.linkD k).dest = (net.linkD k).dest := by
    intro k hk
    have hlk := link?_of_lt hk
    have := hlinks k (net.linkD k) hlk
    by_cases hcond : m ≤ (net.linkD k).dest.1
    · rw [if_pos hcond] at this
      rw [linkD_of_link? this]
      simp [bwdLinkUpd_weight, bwdLinkUpd_dest]
    · rw [if_neg hcond] at this
      rw [linkD_of_link? this]
      exact ⟨rfl, rfl⟩
  have hs3 := layerLoop_spec s2 (m - 1) (s2.layerSize (m - 1))
    (fun n _ node =>
      let outputDer := node.outputs.foldl
        (fun acc k => acc + (n.linkD k).weight * (n.nodeD (n.linkD k).dest).inputDer) 0
      { node with outputDer := outputDer })
    (by
      intro n i hi hlinkseq hlayersne nd hnd
      have hndD : s2.nodeD (m - 1, i) = nd := nodeD_of_node? hnd
      have hilt : i < s2.layerSize (m - 1) := node?_some_lt hnd
      have hfold : nd.outputs.foldl
          (fun acc k => acc + (n.linkD k).weight * (n.nodeD (n.linkD k).dest).inputDer) 0
          = nd.outputs.foldl
          (fun acc k => acc + (s2.linkD k).weight * (s2.nodeD (s2.linkD k).dest).inputDer) 0 := by
        refine List.foldl_ext _ _ _ (fun acc k hk => ?_)
        have hk' : k ∈ (s2.nodeD (m - 1, i)).outputs := by rw [hndD]; exact hk
        obtain ⟨hklen, hsrc⟩ := wf_outputs s2wf
          (by
            have := hstr.1
            omega) (hilt) hk'
        have hdest1 : (s2.linkD k).dest.1 = m := by
          have h := (wf_link s2wf hklen).2.2.1
          rw [hsrc] at h
          simp only at h
          omega
        have hlkc : n.linkD k = s2.linkD k := linkD_congr hlinkseq k
        rw [hlkc]
        have : n.nodeD (s2.linkD k).dest = s2.nodeD (s2.linkD k).dest :=
          nodeD_congr_layer (hlayersne _ (by omega))
        rw [this]
      simp only [hfold])
  have s3links : (bwdStep3 s2 m).links = s2.links := hs3.1
  have s3layers : ∀ l', l' ≠ m - 1 → (bwdStep3 s2 m).layers[l']? = s2.layers[l']? := hs3.2.1
  have s3size : ∀ l', (bwdStep3 s2 m).layerSize l' = s2.layerSize l' := hs3.2.2.1
  have s3len : (bwdStep3 s2 m).layers.length = s2.layers.length := hs3.2.2.2.1
  have s3node : ∀ i, (bwdStep3 s2 m).node? (m - 1) i
      = if i < s2.layerSize (m - 1) then
          (s2.node? (m - 1) i).map (fun node =>
            let outputDer := node.outputs.foldl
              (fun acc k => acc + (s2.linkD k).weight * (s2.nodeD (s2.linkD k).dest).inputDer) 0
            { node with outputDer := outputDer })
        else s2.node? (m - 1) i := hs3.2.2.2.2
  have hstr3 : sameStructure (bwdStep3 s2 m) net := by
    refine (sameStructure_pointwise _ s2 (m - 1) s3links s3layers s3size s3len ?_).trans hstr
    intro i
    rw [s3node i]
    by_cases hi : i < s2.layerSize (m - 1)
    · rw [if_pos hi]
      cases hcase : s2.node? (m - 1) i with
      | none => left; simp
      | some nd => right; exact ⟨nd, rfl, _, rfl, rfl, rfl⟩
    · rw [if_neg hi]; left; rfl
  refine ⟨hstr3, ?_, ?_, ?_, ?_⟩
  · intro l i hl
    rw [node?_congr_layer (s3layers l (by omega)) i]
    exact hbelow l i (by omega)
  · intro i
    rw [s3node i]
    by_cases hi : i < s2.layerSize (m - 1)
    · rw [if_pos hi, hbelow (m - 1) i (by omega)]
      cases hnd : net.node? (m - 1) i with
      | none => simp
      | some nd =>
        simp only [Option.map_some']
        congr 1
        have hndD : net.nodeD (m - 1, i) = nd := nodeD_of_node? hnd
        have hilt : i < net.layerSize (m - 1) := node?_some_lt hnd
        have hmm : m - 1 + 1 = m := by omega
        have hfold : nd.outputs.foldl
            (fun acc k => acc + (s2.linkD k).weight * (s2.nodeD (s2.linkD k).dest).inputDer) 0
            = specOutputDer net target errorFunc (m - 1) i := by
          unfold specOutputDer
          rw [hndD, hmm]
          refine (List.foldl_ext _ _ _ (fun acc k hk => ?_)).symm
          have hk' : k ∈ (net.nodeD (m - 1, i)).outputs := by rw [hndD]; exact hk
          obtain ⟨hklen, hsrc⟩ := wf_outputs hwf hm1L hilt hk'
          have hwfk := wf_link hwf hklen
          have hdest1 : (net.linkD k).dest.1 = m := by
            have h := hwfk.2.2.1
            rw [hsrc] at h
            simp only at h
            omega
          obtain ⟨hw, hd⟩ := hlinkproj k hklen
          have hdest2 : (net.linkD k).dest.2 < net.layerSize m := by
            have h := hwfk.2.2.2.1
            rw [hdest1] at h
            exact h
          have hdestp : (net.linkD k).dest = (m, (net.linkD k).dest.2) :=
            Prod.ext hdest1 rfl
          have hnode2 : s2.nodeD (net.linkD k).dest
              = bwdNodeUpd net target errorFunc m (net.linkD k).dest.2
                  (net.nodeD (m, (net.linkD k).dest.2)) := by
            rw [hdestp]
            apply nodeD_of_node?
            show s2.node? m (net.linkD k).dest.2 = _
            rw [habove m (net.linkD k).dest.2 le_rfl, node?_of_lt hmL hdest2]
            rfl
          have hinp : (s2.nodeD (s2.linkD k).dest).inputDer
              = specInputDer net target errorFunc m (net.linkD k).dest.2 := by
            rw [hd, hnode2]
            rfl
          rw [hw, hinp]
        simp only [bwdOdUpd, hfold]
        rw [if_neg (by omega)]
    · rw [if_neg hi]
      have hnone : net.node? (m - 1) i = none := by
        apply node?_eq_none_of_le
        have := hstr.2.1 (m - 1)
        omega
      rw [hbelow (m - 1) i (by omega), hnone]
      simp
  · intro l i hl
    rw [node?_congr_layer (s3layers l (by omega)) i]
    exact habove l i (by omega)
  · intro k lk hlk
    rw [link?_congr_links s3links k, hlinks k lk hlk]
    by_cases hcond : m ≤ lk.dest.1
    · rw [if_pos hcond, if_pos (by omega)]
    · rw [if_neg hcond, if_neg (by omega)]

/-- One backward iteration at a layer `m ≥ 2` carries the walk invariant one
layer down. -/
theorem bwdBody_step (net : Network α) (target : α) (errorFunc : ErrorFunction α)
    (hwf : net.wf) (hL : 2 ≤ net.layers.length) (m : Nat) (h2 : 2 ≤ m)
    (hm : m ≤ net.layers.length - 1)
    (s : Network α) (hInv : BwdInv net target errorFunc m s) :
    BwdInv net target errorFunc (m - 1) (bwdBody s m) := by
  obtain ⟨hstr, hbelow, hat, hlinks⟩ :=
    bwdSteps12_spec net target errorFunc hwf hL m (by omega) hm s hInv
  have hbody : bwdBody s m = bwdStep3 (bwdStep2 (bwdStep1 s m) m) m := by
    unfold bwdBody
    rw [if_neg (by omega)]
  rw [hbody]
  exact bwdStep3_spec net target errorFunc hwf hL m h2 hm _ hstr hbelow hat hlinks

/-- The final backward iteration (layer 1) leaves the network in its fully
characterized final state. -/
theorem bwdBody_final (net : Network α) (target : α) (errorFunc : ErrorFunction α)
    (hwf : net.wf) (hL : 2 ≤ net.layers.length)
    (s : Network α) (hInv : BwdInv net target errorFunc 1 s) :
    sameStructure (bwdBody s 1) net ∧
    (∀ i, (bwdBody s 1).node? 0 i = net.node? 0 i) ∧
    (∀ l i, 1 ≤ l → (bwdBody s 1).node? l i
        = (net.node? l i).map (bwdNodeUpd net target errorFunc l i)) ∧
    (∀ k, (bwdBody s 1).link? k = (net.link? k).map (bwdLinkUpd net target errorFunc)) := by
  obtain ⟨hstr, hbelow, hat, hlinks⟩ :=
    bwdSteps12_spec net target errorFunc hwf hL 1 le_rfl (by omega) s hInv
  have hbody : bwdBody s 1 = bwdStep2 (bwdStep1 s 1) 1 := by
    unfold bwdBody
    rw [if_pos rfl]
  rw [hbody]
  refine ⟨hstr, fun i => hbelow 0 i (by omega), fun l i hl => hat l i hl, fun k => ?_⟩
  cases hlk : net.link? k with
  | none =>
    have hk : net.links.length ≤ k := by
      by_contra hcon
      rw [link?_of_lt (by omega)] at hlk
      exact absurd hlk (by simp)
    have h2 : (bwdStep2 (bwdStep1 s 1) 1).link? k = none := by
      unfold Network.link?
      apply List.getElem?_eq_none
      rw [links_length_bwdStep2]
      have hb1 : (bwdStep1 s 1).links = s.links :=
        (layerLoop_spec s 1 (s.layerSize 1)
          (fun _ _ node =>
            let inputDer := node.outputDer * node.activation.der node.totalInput
            { node with inputDer := inputDer
                        accInputDer := node.accInputDer + inputDer
                        numAccumulatedDers := node.numAccumulatedDers + 1 })
          (fun _ _ _ _ _ _ _ => rfl)).1
      rw [hb1]
      have := hInv.1.2.2.1
      omega
    rw [h2]
    rfl
  | some lk =>
    have hk : k < net.links.length := link?_some_lt hlk
    have hdest1 : 1 ≤ lk.dest.1 := by
      have := (wf_link hwf hk).1
      rw [linkD_of_link? hlk] at this
      exact this
    rw [hlinks k lk hlk, if_pos hdest1]
    rfl

/-- The descending layer walk of `backProp`, by induction from the walk
invariant. -/
theorem bwdLoop_spec (net : Network α) (target : α) (errorFunc : ErrorFunction α)
    (hwf : net.wf) (hL : 2 ≤ net.layers.length) :
    ∀ m, 1 ≤ m → m ≤ net.layers.length - 1 →
    ∀ s, BwdInv net target errorFunc m s →
    sameStructure ((downFrom m).foldl bwdBody s) net ∧
    (∀ i, ((downFrom m).foldl bwdBody s).node? 0 i = net.node? 0 i) ∧
    (∀ l i, 1 ≤ l → ((downFrom m).foldl bwdBody s).node? l i
        = (net.node? l i).map (bwdNodeUpd net target errorFunc l i)) ∧
    (∀ k, ((downFrom m).foldl bwdBody s).link? k
        = (net.link? k).map (bwdLinkUpd net target errorFunc)) := by
  intro m
  induction m with
  | zero => intro h1; exact absurd h1 (by omega)
  | succ m ih =>
    intro _ hm s hInv
    cases Nat.eq_zero_or_pos m with
    | inl hz =>
      subst hz
      show _ ∧ _ ∧ _ ∧ _
      have : (downFrom 1).foldl bwdBody s = bwdBody s 1 := rfl
      rw [this]
      exact bwdBody_final net target errorFunc hwf hL s hInv
    | inr hpos =>
      have hstep := bwdBody_step net target errorFunc hwf hL (m + 1) (by omega) hm s hInv
      have hfold : (downFrom (m + 1)).foldl bwdBody s
          = (downFrom m).foldl bwdBody (bwdBody s (m + 1)) := rfl
      rw [hfold]
      have : m + 1 - 1 = m := by omega
      rw [this] at hstep
      exact ih hpos (by omega) _ hstep

/-- Full characterization of `backProp` on a well-formed network with a
single output node: the walk writes `bwdNodeUpd` into every non-input node,
`bwdLinkUpd` into every link, and leaves the input layer alone. -/
theorem backProp_spec (net : Network α) (target : α) (errorFunc : ErrorFunction α)
    (hwf : net.wf) (hL : 2 ≤ net.layers.length)
    (hlast : net.layerSize (net.layers.length - 1) = 1) :
    sameStructure (backProp net target errorFunc) net ∧
    (∀ i, (backProp net target errorFunc).node? 0 i = net.node? 0 i) ∧
    (∀ l i, 1 ≤ l → (backProp net target errorFunc).node? l i
        = (net.node? l i).map (bwdNodeUpd net target errorFunc l i)) ∧
    (∀ k, (backProp net target errorFunc).link? k
        = (net.link? k).map (bwdLinkUpd net target errorFunc)) := by
  set net0 := net.modifyNode (net.layers.length - 1) 0 (fun node =>
    { node with outputDer := errorFunc.der node.output target }) with hnet0
  have hbp : backProp net target errorFunc = (downFrom (net.layers.length - 1)).foldl
      bwdBody net0 := by
    simp only [backProp]
  have hInv0 : BwdInv net target errorFunc (net.layers.length - 1) net0 := by
    refine ⟨?_, ?_, ?_, ?_, ?_⟩
    · -- structure
      refine sameStructure_pointwise net0 net (net.layers.length - 1) rfl
        (fun l' hl' => layers_getElem?_modifyNode_ne net _ _ _ l' hl')
        (fun l' => layerSize_modifyNode net _ _ _ l')
        (length_layers_modifyNode net _ _ _) ?_
      intro i
      rw [hnet0, node?_modifyNode]
      by_cases hi : i = 0
      · subst hi
        rw [if_pos ⟨rfl, rfl⟩]
        cases hcase : net.node? (net.layers.length - 1) 0 with
        | none => left; simp
        | some nd => right; exact ⟨nd, rfl, _, rfl, rfl, rfl⟩
      · rw [if_neg (fun hc => hi hc.2)]
        left; rfl
    · intro l i hl
      rw [hnet0, node?_modifyNode, if_neg (fun hc => by omega)]
    · intro i
      rw [hnet0, node?_modifyNode]
      by_cases hi : i = 0
      · subst hi
        rw [if_pos ⟨rfl, rfl⟩]
        cases hcase : net.node? (net.layers.length - 1) 0 with
        | none => simp
        | some nd =>
          simp only [Option.map_some']
          congr 1
          unfold bwdOdUpd
          rw [if_pos rfl]
      · rw [if_neg (fun hc => hi hc.2)]
        have hnone : net.node? (net.layers.length - 1) i = none := by
          apply node?_eq_none_of_le
          omega
        rw [hnone]
        simp
    · intro l i hl
      have hnone : net.node? l i = none := by
        apply node?_eq_none_of_le
        have : net.layers[l]? = none := List.getElem?_eq_none (by omega)
        simp [Network.layerSize, this]
      have hnone0 : net0.node? l i = none := by
        apply node?_eq_none_of_le
        have h0 : net0.layers.length = net.layers.length := length_layers_modifyNode net _ _ _
        have : net0.layers[l]? = none := List.getElem?_eq_none (by omega)
        simp [Network.layerSize, this]
      rw [hnone, hnone0]
      simp
    · intro k lk hlk
      have hk : k < net.links.length := link?_some_lt hlk
      have hdlt : lk.dest.1 < net.layers.length := by
        have := (wf_link hwf hk).2.1
        rw [linkD_of_link? hlk] at this
        exact this
      have : net0.link? k = net.link? k := rfl
      rw [this, hlk, if_neg (by omega)]
  rw [hbp]
  exact bwdLoop_spec net target errorFunc hwf hL (net.layers.length - 1) (by omega) le_rfl
    net0 hInv0

/-! ## Characterization of the weight-update pass -/

@[simp] theorem updBias_inputLinks (lr : α) (nd : Node α) :
    (updBias lr nd).inputLinks = nd.inputLinks := by
  unfold updBias; split <;> rfl

@[simp] theorem updBias_outputs (lr : α) (nd : Node α) :
    (updBias lr nd).outputs = nd.outputs := by
  unfold updBias; split <;> rfl

@[simp] theorem updateLink_source (lr rr : α) (lk : Link α) :
    (updateLink lr rr lk).source = lk.source := by
  unfold updateLink
  dsimp only
  repeat' split
  all_goals rfl

@[simp] theorem updateLink_dest (lr rr : α) (lk : Link α) :
    (updateLink lr rr lk).dest = lk.dest := by
  unfold updateLink
  dsimp only
  repeat' split
  all_goals rfl

/-- The per-layer node loop of `updateWeights` maps every node of layer `l`
through the bias step and every link into layer `l` through `updateLink`. -/
theorem updLayer_spec (b : Network α) (hbwf : b.wf) (lr rr : α) (l : Nat) (j : Nat)
    (hj : j ≤ b.layerSize l) :
    (∀ l', l' ≠ l →
      ((List.range j).foldl (fun n' i => updNodeBody lr rr n' l i) b).layers[l']?
        = b.layers[l']?) ∧
    (∀ l', ((List.range j).foldl (fun n' i => updNodeBody lr rr n' l i) b).layerSize l'
        = b.layerSize l') ∧
    (((List.range j).foldl (fun n' i => updNodeBody lr rr n' l i) b).layers.length
        = b.layers.length) ∧
    (((List.range j).foldl (fun n' i => updNodeBody lr rr n' l i) b).links.length
        = b.links.length) ∧
    (∀ i, ((List.range j).foldl (fun n' i => updNodeBody lr rr n' l i) b).node? l i
        = if i < j then (b.node? l i).map (updBias lr) else b.node? l i) ∧
    (∀ k lk, b.link? k = some lk →
      ((List.range j).foldl (fun n' i => updNodeBody lr rr n' l i) b).link? k
        = if lk.dest.1 = l ∧ lk.dest.2 < j then some (updateLink lr rr lk) else some lk) := by
  induction j with
  | zero =>
    refine ⟨fun _ _ => rfl, fun _ => rfl, rfl, rfl, fun i => by simp, fun k lk hlk => ?_⟩
    rw [if_neg (by omega)]
    exact hlk
  | succ j ih =>
    obtain ⟨ihlayers, ihsize, ihlen, ihlinks, ihnode, ihlink⟩ := ih (by omega)
    set sj := (List.range j).foldl (fun n' i => updNodeBody lr rr n' l i) b with hsj
    set n1 := sj.modifyNode l j (updBias lr) with hn1
    have hfold : ((List.range (j + 1)).foldl (fun n' i => updNodeBody lr rr n' l i) b)
        = (n1.nodeD (l, j)).inputLinks.foldl
            (fun n'' k => n''.modifyLink k (updateLink lr rr)) n1 := by
      rw [List.range_succ, List.foldl_append]
      rfl
    have hm : l < b.layers.length := layerSize_pos_layer_lt (by omega)
    have hjsz : j < b.layerSize l := by omega
    -- node (l, j) before this iteration is still the original node
    have hsjnodej : sj.node? l j = b.node? l j := by
      rw [ihnode j, if_neg (by omega)]
    have hn1nodej : n1.node? l j = (b.node? l j).map (updBias lr) := by
      rw [hn1, node?_modifyNode, if_pos ⟨rfl, rfl⟩, hsjnodej]
    have hilinks : (n1.nodeD (l, j)).inputLinks = (b.nodeD (l, j)).inputLinks := by
      cases hcase : b.node? l j with
      | none =>
        have h1 : n1.node? l j = none := by rw [hn1nodej, hcase]; rfl
        unfold Network.nodeD
        rw [h1, hcase]
      | some nd =>
        have h1 : n1.node? l j = some (updBias lr nd) := by
          rw [hn1nodej, hcase]; rfl
        rw [nodeD_of_node? h1, nodeD_of_node? hcase, updBias_inputLinks]
    have hspec := linkLoop_spec n1 ((n1.nodeD (l, j)).inputLinks)
      (fun _ _ lk => updateLink lr rr lk)
      (by rw [hilinks]; exact wf_inputLinks_nodup hbwf hm hjsz)
      (fun _ _ _ _ _ _ => rfl)
    have llay : ((n1.nodeD (l, j)).inputLinks.foldl
        (fun n'' k => n''.modifyLink k (updateLink lr rr)) n1).layers = n1.layers := hspec.1
    have lmem : ∀ k ∈ (n1.nodeD (l, j)).inputLinks,
        ((n1.nodeD (l, j)).inputLinks.foldl
          (fun n'' k => n''.modifyLink k (updateLink lr rr)) n1).link? k
          = (n1.link? k).map (updateLink lr rr) := hspec.2.1
    have lnot : ∀ k, k ∉ (n1.nodeD (l, j)).inputLinks →
        ((n1.nodeD (l, j)).inputLinks.foldl
          (fun n'' k => n''.modifyLink k (updateLink lr rr)) n1).link? k
          = n1.link? k := hspec.2.2
    have hlinklen : ((n1.nodeD (l, j)).inputLinks.foldl
        (fun n'' k => n''.modifyLink k (updateLink lr rr)) n1).links.length
        = n1.links.length := by
      refine foldl_preserves (fun (x : Network α) => x.links.length = n1.links.length)
        _ _ _ rfl ?_
      intro t k _ ht
      exact (links_length_modifyLink t k _).trans ht
    have hn1links : ∀ k, n1.link? k = sj.link? k := fun k => rfl
    rw [hfold]
    refine ⟨?_, ?_, ?_, ?_, ?_, ?_⟩
    · intro l' hl'
      rw [llay, hn1, layers_getElem?_modifyNode_ne _ _ _ _ _ hl']
      exact ihlayers l' hl'
    · intro l'
      have h1 : ((n1.nodeD (l, j)).inputLinks.foldl
          (fun n'' k => n''.modifyLink k (updateLink lr rr)) n1).layerSize l'
          = n1.layerSize l' := by
        simp only [Network.layerSize]; rw [llay]
      rw [h1, hn1, layerSize_modifyNode]
      exact ihsize l'
    · have h1 : ((n1.nodeD (l, j)).inputLinks.foldl
          (fun n'' k => n''.modifyLink k (updateLink lr rr)) n1).layers.length
          = n1.layers.length := by rw [llay]
      rw [h1, hn1, length_layers_modifyNode]
      exact ihlen
    · rw [hlinklen, hn1]
      exact ihlinks
    · intro i
      have hnode : ((n1.nodeD (l, j)).inputLinks.foldl
          (fun n'' k => n''.modifyLink k (updateLink lr rr)) n1).node? l i
          = n1.node? l i := node?_congr_layer (by rw [llay]) i
      rw [hnode]
      rcases Nat.lt_trichotomy i j with hi | hi | hi
      · rw [hn1, node?_modifyNode, if_neg (fun hc => by omega), ihnode i,
          if_pos hi, if_pos (by omega)]
      · subst hi
        rw [hn1nodej, if_pos (by omega)]
      · rw [hn1, node?_modifyNode, if_neg (fun hc => by omega), ihnode i,
          if_neg (by omega), if_neg (by omega)]
    · intro k lk hlk
      have hklen : k < b.links.length := link?_some_lt hlk
      have hlkD : b.linkD k = lk := linkD_of_link? hlk
      by_cases hmem : k ∈ (n1.nodeD (l, j)).inputLinks
      · have hdest : lk.dest = (l, j) := by
          rw [hilinks] at hmem
          have := (wf_inputLinks hbwf hm hjsz hmem).2
          rw [hlkD] at this
          exact this
        have hsjlk : sj.link? k = some lk := by
          rw [ihlink k lk hlk, if_neg (by rw [hdest]; simp)]
        rw [lmem k hmem, hn1links k, hsjlk]
        simp only [Option.map_some']
        rw [if_pos (by rw [hdest]; exact ⟨rfl, by omega⟩)]
      · rw [lnot k hmem, hn1links k, ihlink k lk hlk]
        by_cases hdm : lk.dest.1 = l ∧ lk.dest.2 < j
        · rw [if_pos hdm, if_pos ⟨hdm.1, by omega⟩]
        · rw [if_neg hdm, if_neg ?_]
          intro hcontra
          apply hmem
          have hdj : lk.dest = (l, j) := by
            rcases Nat.lt_or_ge lk.dest.2 j with hlt | hge
            · exact absurd ⟨hcontra.1, hlt⟩ hdm
            · have h2 : lk.dest.2 = j := by omega
              exact Prod.ext hcontra.1 h2
          rw [hilinks]
          have hmem' := wf_mem_inputLinks hbwf hklen
          rw [hlkD, hdj] at hmem'
          exact hmem'

/-- The ascending layer walk of `updateWeights` up to layer `m`. -/
theorem updLayers_spec (net : Network α) (hwf : net.wf) (lr rr : α) (m : Nat)
    (hm : m + 1 ≤ net.layers.length) :
    sameStructure ((List.range' 1 m).foldl
      (fun n layerIdx => (List.range (n.layerSize layerIdx)).foldl
        (fun n' i => updNodeBody lr rr n' layerIdx i) n) net) net ∧
    (∀ l' i, l' = 0 ∨ m < l' →
      ((List.range' 1 m).foldl
        (fun n layerIdx => (List.range (n.layerSize layerIdx)).foldl
          (fun n' i => updNodeBody lr rr n' layerIdx i) n) net).node? l' i
        = net.node? l' i) ∧
    (∀ l i, 1 ≤ l → l ≤ m →
      ((List.range' 1 m).foldl
        (fun n layerIdx => (List.range (n.layerSize layerIdx)).foldl
          (fun n' i => updNodeBody lr rr n' layerIdx i) n) net).node? l i
        = (net.node? l i).map (updBias lr)) ∧
    (∀ k lk, net.link? k = some lk →
      ((List.range' 1 m).foldl
        (fun n layerIdx => (List.range (n.layerSize layerIdx)).foldl
          (fun n' i => updNodeBody lr rr n' layerIdx i) n) net).link? k
        = if 1 ≤ lk.dest.1 ∧ lk.dest.1 ≤ m then some (updateLink lr rr lk) else some lk) := by
  induction m with
  | zero =>
    exact ⟨sameStructure.refl net, fun _ _ _ => rfl,
      fun l i h1 h0 => absurd h0 (by omega),
      fun k lk hlk => by rw [if_neg (by omega)]; exact hlk⟩
  | succ m ih =>
    obtain ⟨ihstr, ihout, ihnode, ihlink⟩ := ih (by omega)
    set netm := (List.range' 1 m).foldl
      (fun n layerIdx => (List.range (n.layerSize layerIdx)).foldl
        (fun n' i => updNodeBody lr rr n' layerIdx i) n) net with hnetm
    have hconcat : List.range' 1 (m + 1) = List.range' 1 m ++ [m + 1] := by
      rw [List.range'_concat]; simp [Nat.add_comm]
    have hfold : (List.range' 1 (m + 1)).foldl
        (fun n layerIdx => (List.range (n.layerSize layerIdx)).foldl
          (fun n' i => updNodeBody lr rr n' layerIdx i) n) net
        = (List.range (netm.layerSize (m + 1))).foldl
            (fun n' i => updNodeBody lr rr n' (m + 1) i) netm := by
      rw [hconcat, List.foldl_append]
      simp only [List.foldl_cons, List.foldl_nil]
    have hwfm : netm.wf := wf_of_sameStructure ihstr hwf
    obtain ⟨ulayers, usize, ulen, ulinkslen, unode, ulink⟩ :=
      updLayer_spec netm hwfm lr rr (m + 1) (netm.layerSize (m + 1)) le_rfl
    rw [hfold]
    set netc := (List.range (netm.layerSize (m + 1))).foldl
      (fun n' i => updNodeBody lr rr n' (m + 1) i) netm with hnetc
    have hstrc : sameStructure netc netm := by
      refine ⟨ulen, usize, ulinkslen, ?_, ?_⟩
      · intro l' i
        by_cases hl' : l' = m + 1
        · subst hl'
          rw [unode i]
          by_cases hi : i < netm.layerSize (m + 1)
          · rw [if_pos hi]
            cases hcase : netm.node? (m + 1) i with
            | none => simp
            | some nd => simp
          · rw [if_neg hi]
        · rw [node?_congr_layer (ulayers l' hl') i]
      · intro k
        rcases Nat.lt_or_ge k netm.links.length with hk | hk
        · obtain ⟨lk, hlk⟩ : ∃ lk, netm.link? k = some lk := ⟨netm.linkD k, link?_of_lt hk⟩
          rw [ulink k lk hlk, hlk]
          by_cases hcond : lk.dest.1 = m + 1 ∧ lk.dest.2 < netm.layerSize (m + 1)
          · rw [if_pos hcond]; simp
          · rw [if_neg hcond]
        · have h2 : netc.link? k = none := by
            unfold Network.link?
            exact List.getElem?_eq_none (by omega)
          have h3 : netm.link? k = none := by
            unfold Network.link?
            exact List.getElem?_eq_none (by omega)
          rw [h2, h3]
    refine ⟨hstrc.trans ihstr, ?_, ?_, ?_⟩
    · intro l' i hl'
      have hne : l' ≠ m + 1 := by omega
      rw [node?_congr_layer (ulayers l' hne) i]
      exact ihout l' i (by omega)
    · intro l i hl1 hlm
      rcases Nat.lt_or_ge l (m + 1) with hcase | hcase
      · have hne : l ≠ m + 1 := by omega
        rw [node?_congr_layer (ulayers l hne) i]
        exact ihnode l i hl1 (by omega)
      · have hleq : l = m + 1 := by omega
        subst hleq
        rw [unode i]
        by_cases hi : i < netm.layerSize (m + 1)
        · rw [if_pos hi, ihout (m + 1) i (by omega)]
        · rw [if_neg hi, ihout (m + 1) i (by omega)]
          have hsz : net.layerSize (m + 1) ≤ i := by
            have := ihstr.2.1 (m + 1)
            omega
          rw [node?_eq_none_of_le hsz]
          rfl
    · intro k lk hlk
      have hklen : k < net.links.length := link?_some_lt hlk
      have hmlk : netm.link? k = if 1 ≤ lk.dest.1 ∧ lk.dest.1 ≤ m
          then some (updateLink lr rr lk) else some lk := ihlink k lk hlk
      by_cases hcond : 1 ≤ lk.dest.1 ∧ lk.dest.1 ≤ m
      · -- already updated in an earlier layer
        rw [if_pos ⟨hcond.1, by omega⟩]
        rw [if_pos hcond] at hmlk
        have := ulink k (updateLink lr rr lk) hmlk
        rw [this, if_neg (by rw [updateLink_dest]; intro hc; omega)]
      · rw [if_neg hcond] at hmlk
        by_cases hc2 : lk.dest.1 = m + 1
        · have hd2 : lk.dest.2 < netm.layerSize (m + 1) := by
            have h := (wf_link hwf hklen).2.2.2.1
            rw [linkD_of_link? hlk, hc2] at h
            have := ihstr.2.1 (m + 1)
            omega
          rw [ulink k lk hmlk, if_pos ⟨hc2, hd2⟩, if_pos (by omega)]
        · rw [ulink k lk hmlk, if_neg (by intro hc; omega), if_neg (by intro hc; omega)]

/-- Full characterization of `updateWeights` on a well-formed network: every
non-input node's bias is stepped and its accumulators reset (when any
derivatives were accumulated), every link goes through `updateLink` exactly
once, and the input layer is untouched. -/
theorem updateWeights_spec (net : Network α) (lr rr : α) (hwf : net.wf)
    (hL : 1 ≤ net.layers.length) :
    sameStructure (updateWeights net lr rr) net ∧
    (∀ i, (updateWeights net lr rr).node? 0 i = net.node? 0 i) ∧
    (∀ l i, 1 ≤ l → (updateWeights net lr rr).node? l i
        = (net.node? l i).map (updBias lr)) ∧
    (∀ k, (updateWeights net lr rr).link? k = (net.link? k).map (updateLink lr rr)) := by
  obtain ⟨hstr, hout, hnode, hlink⟩ :=
    updLayers_spec net hwf lr rr (net.layers.length - 1) (by omega)
  have hupd : updateWeights net lr rr = (List.range' 1 (net.layers.length - 1)).foldl
      (fun n layerIdx => (List.range (n.layerSize layerIdx)).foldl
        (fun n' i => updNodeBody lr rr n' layerIdx i) n) net := rfl
  rw [hupd]
  refine ⟨hstr, fun i => hout 0 i (Or.inl rfl), ?_, ?_⟩
  · intro l i hl
    rcases Nat.lt_or_ge l net.layers.length with hcase | hcase
    · exact hnode l i hl (by omega)
    · rw [hout l i (by omega)]
      have hnone : net.node? l i = none := by
        apply node?_eq_none_of_le
        have : net.layers[l]? = none := List.getElem?_eq_none (by omega)
        simp [Network.layerSize, this]
      rw [hnone]
      rfl
  · intro k
    cases hlk : net.link? k with
    | none =>
      have hk : net.links.length ≤ k := by
        by_contra hcon
        rw [link?_of_lt (by omega)] at hlk
        exact absurd hlk (by simp)
      have h2 : ((List.range' 1 (net.layers.length - 1)).foldl
          (fun n layerIdx => (List.range (n.layerSize layerIdx)).foldl
            (fun n' i => updNodeBody lr rr n' layerIdx i) n) net).link? k = none := by
        unfold Network.link?
        apply List.getElem?_eq_none
        have := hstr.2.2.1
        omega
      rw [h2]
      rfl
    | some lk =>
      have hklen : k < net.links.length := link?_some_lt hlk
      have hwfk := wf_link hwf hklen
      rw [linkD_of_link? hlk] at hwfk
      rw [hlink k lk hlk, if_pos ⟨hwfk.1, by omega⟩]
      rfl

/-! ## Dead links: invariance under every pass -/

/-- Pairwise `foldl` congruence under an invariant. -/
theorem foldl_congr_of_inv {σ β : Type} (P : σ → Prop) (f g : σ → β → σ) (l : List β)
    (s : σ) (hP : P s) (hpres : ∀ t b, b ∈ l → P t → P (f t b))
    (heq : ∀ t b, b ∈ l → P t → f t b = g t b) : l.foldl f s = l.foldl g s := by
  induction l generalizing s with
  | nil => rfl
  | cons b bs ih =>
    have h1 : f s b = g s b := heq s b (List.mem_cons_self _ _) hP
    show bs.foldl f (f s b) = bs.foldl g (g s b)
    rw [← h1]
    exact ih (f s b) (hpres s b (List.mem_cons_self _ _) hP)
      (fun t c hc ht => hpres t c (List.mem_cons_of_mem _ hc) ht)
      (fun t c hc ht => heq t c (List.mem_cons_of_mem _ hc) ht)

/-- `forwardProp` never touches the link arena. -/
theorem forwardProp_links (net : Network α) (inputs : List α) :
    ((forwardProp net inputs).1).links = net.links := by
  unfold forwardProp
  by_cases hcond : inputs.length ≠ (net.layers[0]?.getD []).length
  · rw [if_pos hcond]
  · rw [if_neg hcond]
    simp only
    refine foldl_preserves (fun (x : Network α) => x.links = net.links) _ _ _ ?_ ?_
    · exact foldl_preserves (fun (x : Network α) => x.links = net.links) _ _ _ rfl
        (fun t b _ ht => ht)
    · intro t b _ ht
      refine foldl_preserves (fun (x : Network α) => x.links = net.links) _ _ _ ht ?_
      intro u i _ hu
      exact hu

/-- A dead link is completely ignored by `backProp`. -/
theorem backProp_dead_link (net : Network α) (target : α) (e : ErrorFunction α)
    (k : Nat) (hd : ∀ lk, net.link? k = some lk → lk.isDead = true) :
    (backProp net target e).link? k = net.link? k := by
  unfold backProp
  simp only
  refine foldl_preserves (fun (x : Network α) => x.link? k = net.link? k) _ _ _ rfl ?_
  intro t m _ ht
  unfold bwdBody
  simp only
  have hstep1 : ∀ (u : Network α), u.link? k = net.link? k →
      (bwdStep1 u m).link? k = net.link? k := by
    intro u hu
    unfold bwdStep1
    refine foldl_preserves (fun (x : Network α) => x.link? k = net.link? k) _ _ _ hu ?_
    intro v i _ hv
    rw [link?_modifyNode]
    exact hv
  have hstep2 : ∀ (u : Network α), u.link? k = net.link? k →
      (bwdStep2 u m).link? k = net.link? k := by
    intro u hu
    unfold bwdStep2
    refine foldl_preserves (fun (x : Network α) => x.link? k = net.link? k) _ _ _ hu ?_
    intro v i _ hv
    simp only
    refine foldl_preserves (fun (x : Network α) => x.link? k = net.link? k) _ _ _ hv ?_
    intro w k' _ hw
    rw [link?_modifyLink]
    by_cases hk : k = k'
    · subst hk
      rw [if_pos rfl, hw]
      cases hcase : net.link? k with
      | none => rfl
      | some lk =>
        have : lk.isDead = true := hd lk hcase
        simp [this]
    · rw [if_neg hk]
      exact hw
  have hstep3 : ∀ (u : Network α), u.link? k = net.link? k →
      (bwdStep3 u m).link? k = net.link? k := by
    intro u hu
    unfold bwdStep3
    refine foldl_preserves (fun (x : Network α) => x.link? k = net.link? k) _ _ _ hu ?_
    intro v i _ hv
    rw [link?_modifyNode]
    exact hv
  by_cases hm : m = 1
  · rw [if_pos hm]
    exact hstep2 _ (hstep1 _ ht)
  · rw [if_neg hm]
    exact hstep3 _ (hstep2 _ (hstep1 _ ht))

/-- `backProp` never changes any link's `isDead` flag. -/
theorem backProp_isDead (net : Network α) (target : α) (e : ErrorFunction α) (k : Nat) :
    ((backProp net target e).link? k).map (fun lk => lk.isDead)
      = (net.link? k).map (fun lk => lk.isDead) := by
  unfold backProp
  simp only
  refine foldl_preserves (fun (x : Network α) =>
    (x.link? k).map (fun lk => lk.isDead) = (net.link? k).map (fun lk => lk.isDead))
    _ _ _ rfl ?_
  intro t m _ ht
  unfold bwdBody
  simp only
  have hstep12 : ∀ (u : Network α),
      (u.link? k).map (fun lk => lk.isDead) = (net.link? k).map (fun lk => lk.isDead) →
      ((bwdStep2 (bwdStep1 u m) m).link? k).map (fun lk => lk.isDead)
        = (net.link? k).map (fun lk => lk.isDead) := by
    intro u hu
    have h1 : (bwdStep1 u m).link? k = u.link? k := by
      unfold bwdStep1
      refine foldl_preserves (fun (x : Network α) => x.link? k = u.link? k) _ _ _ rfl ?_
      intro v i _ hv
      rw [link?_modifyNode]; exact hv
    unfold bwdStep2
    refine foldl_preserves (fun (x : Network α) =>
      (x.link? k).map (fun lk => lk.isDead) = (net.link? k).map (fun lk => lk.isDead))
      _ _ _ ?_ ?_
    · show ((bwdStep1 u m).link? k).map (fun lk => lk.isDead)
        = (net.link? k).map (fun lk => lk.isDead)
      rw [h1]; exact hu
    · intro v i _ hv
      simp only
      refine foldl_preserves (fun (x : Network α) =>
        (x.link? k).map (fun lk => lk.isDead) = (net.link? k).map (fun lk => lk.isDead))
        _ _ _ hv ?_
      intro w k' _ hw
      rw [link?_modifyLink]
      by_cases hk : k = k'
      · subst hk
        rw [if_pos rfl]
        cases hcase : w.link? k with
        | none =>
          rw [hcase] at hw
          exact hw
        | some lk =>
          rw [hcase] at hw
          simp only [Option.map_some'] at hw ⊢
          rw [← hw]
          congr 1
          by_cases hdead : lk.isDead = true
          · rw [if_pos hdead]
          · rw [if_neg hdead]
      · rw [if_neg hk]
        exact hw
  by_cases hm : m = 1
  · rw [if_pos hm]
    exact hstep12 _ ht
  · rw [if_neg hm]
    have h3 : ∀ (u : Network α), (bwdStep3 u m).link? k = u.link? k := by
      intro u
      unfold bwdStep3
      refine foldl_preserves (fun (x : Network α) => x.link? k = u.link? k) _ _ _ rfl ?_
      intro v i _ hv
      rw [link?_modifyNode]; exact hv
    rw [h3]
    exact hstep12 _ ht

/-- After `updateLink`, either the accumulators are cleared or nothing
happened at all. -/
theorem updateLink_num_or (lr rr : α) (lk : Link α) :
    (updateLink lr rr lk).numAccumulatedDers = 0 ∨ updateLink lr rr lk = lk := by
  unfold updateLink
  dsimp only
  by_cases hdead : lk.isDead = true
  · rw [if_pos hdead]; right; rfl
  · rw [if_neg hdead]
    by_cases hnum : 0 < lk.numAccumulatedDers
    · rw [if_pos hnum]
      left
      split
      · rfl
      · rfl
    · rw [if_neg hnum]; right; rfl

/-- `updateLink` is idempotent: once the accumulators are cleared (or the
link is dead) a second application is a no-op. -/
theorem updateLink_idem (lr rr : α) (lk : Link α) :
    updateLink lr rr (updateLink lr rr lk) = updateLink lr rr lk := by
  rcases updateLink_num_or lr rr lk with h | h
  · set lk' := updateLink lr rr lk with hlk'
    show updateLink lr rr lk' = lk'
    unfold updateLink
    dsimp only
    by_cases hdead : lk'.isDead = true
    · rw [if_pos hdead]
    · rw [if_neg hdead, if_neg (by omega)]
  · rw [h]
    exact h

/-- Every link of the post-update network is either untouched or the
`updateLink` image of the original link (and on well-formed networks,
`updateWeights_spec` shows it is always the latter). -/
theorem updateWeights_link_cases (net : Network α) (lr rr : α) (k : Nat) :
    (updateWeights net lr rr).link? k = net.link? k ∨
    (updateWeights net lr rr).link? k = (net.link? k).map (updateLink lr rr) := by
  unfold updateWeights
  refine foldl_preserves (fun (x : Network α) =>
    x.link? k = net.link? k ∨ x.link? k = (net.link? k).map (updateLink lr rr))
    _ _ _ (Or.inl rfl) ?_
  intro t m _ ht
  refine foldl_preserves (fun (x : Network α) =>
    x.link? k = net.link? k ∨ x.link? k = (net.link? k).map (updateLink lr rr))
    _ _ _ ht ?_
  intro u i _ hu
  unfold updNodeBody
  simp only
  refine foldl_preserves (fun (x : Network α) =>
    x.link? k = net.link? k ∨ x.link? k = (net.link? k).map (updateLink lr rr))
    _ _ _ ?_ ?_
  · rcases hu with hu | hu
    · left; rw [link?_modifyNode]; exact hu
    · right; rw [link?_modifyNode]; exact hu
  · intro v k' _ hv
    rw [link?_modifyLink]
    by_cases hk : k = k'
    · subst hk
      rw [if_pos rfl]
      rcases hv with hv | hv
      · right; rw [hv]
      · right
        rw [hv]
        cases hcase : net.link? k with
        | none => rfl
        | some lk =>
          simp only [Option.map_some']
          rw [updateLink_idem]
    · rw [if_neg hk]
      exact hv

/-! ## Dead links contribute nothing to the forward pass -/

/-- Spec-side variant of `Node.updateOutput` that sums only over the live
(non-dead) incoming links. -/
def updateOutputAtLive (net : Network α) (l i : Nat) : Network α :=
  net.modifyNode l i fun node =>
    let totalInput := (node.inputLinks.filter (fun k => !(net.linkD k).isDead)).foldl
      (fun acc k => acc + (net.linkD k).weight * (net.nodeD (net.linkD k).source).output)
      node.bias
    { node with totalInput := totalInput, output := node.activation.output totalInput }

/-- Spec-side variant of `forwardProp` that excludes dead links from every
weighted sum. -/
def forwardPropLive (net : Network α) (inputs : List α) : Network α × Except String α :=
  let inputLayer := net.layers[0]?.getD []
  if inputs.length ≠ inputLayer.length then
    (net, .error "The number of inputs must match the number of nodes in the input layer")
  else
    let net1 := (List.range inputLayer.length).foldl
      (fun n i => n.modifyNode 0 i fun node => { node with output := inputs.getD i 0 }) net
    let net2 := (List.range' 1 (net.layers.length - 1)).foldl
      (fun n layerIdx =>
        (List.range (n.layerSize layerIdx)).foldl
          (fun n' i => updateOutputAtLive n' layerIdx i) n)
      net1
    (net2, .ok (net2.nodeD (net2.layers.length - 1, 0)).output)

/-- Dropping the zero-weight summands of a weighted accumulation. -/
theorem foldl_filter_zero (net : Network α) (ks : List Nat) (acc : α)
    (hz : ∀ k ∈ ks, (net.linkD k).isDead = true → (net.linkD k).weight = 0) :
    ks.foldl (fun acc k => acc + (net.linkD k).weight * (net.nodeD (net.linkD k).source).output)
        acc
      = (ks.filter (fun k => !(net.linkD k).isDead)).foldl
        (fun acc k => acc + (net.linkD k).weight * (net.nodeD (net.linkD k).source).output)
        acc := by
  induction ks generalizing acc with
  | nil => rfl
  | cons k ks ih =>
    by_cases hdead : (net.linkD k).isDead = true
    · have hw : (net.linkD k).weight = 0 := hz k (List.mem_cons_self _ _) hdead
      have hfilter : (k :: ks).filter (fun k => !(net.linkD k).isDead)
          = ks.filter (fun k => !(net.linkD k).isDead) := by
        rw [List.filter_cons_of_neg (by simp [hdead])]
      rw [hfilter]
      show ks.foldl _ (acc + (net.linkD k).weight * (net.nodeD (net.linkD k).source).output) = _
      rw [hw, zero_mul, add_zero]
      exact ih acc (fun k' hk' => hz k' (List.mem_cons_of_mem _ hk'))
    · have hfilter : (k :: ks).filter (fun k => !(net.linkD k).isDead)
          = k :: ks.filter (fun k => !(net.linkD k).isDead) := by
        rw [List.filter_cons_of_pos (by simp [hdead])]
      rw [hfilter]
      exact ih _ (fun k' hk' => hz k' (List.mem_cons_of_mem _ hk'))

/-- When every dead link has weight exactly 0 (the pruning invariant),
`forwardProp` computes exactly what the live-only variant computes: dead
links contribute nothing. -/
theorem forwardProp_eq_live (net : Network α) (inputs : List α)
    (hz : ∀ k, (net.linkD k).isDead = true → (net.linkD k).weight = 0) :
    forwardProp net inputs = forwardPropLive net inputs := by
  unfold forwardProp forwardPropLive
  by_cases hcond : inputs.length ≠ (net.layers[0]?.getD []).length
  · rw [if_pos hcond, if_pos hcond]
  · rw [if_neg hcond, if_neg hcond]
    simp only
    have hfold : (List.range' 1 (net.layers.length - 1)).foldl
        (fun n layerIdx => (List.range (n.layerSize layerIdx)).foldl
          (fun n' i => updateOutputAt n' layerIdx i) n)
        ((List.range (net.layers[0]?.getD []).length).foldl
          (fun n i => n.modifyNode 0 i fun node => { node with output := inputs.getD i 0 }) net)
        = (List.range' 1 (net.layers.length - 1)).foldl
        (fun n layerIdx => (List.range (n.layerSize layerIdx)).foldl
          (fun n' i => updateOutputAtLive n' layerIdx i) n)
        ((List.range (net.layers[0]?.getD []).length).foldl
          (fun n i => n.modifyNode 0 i fun node => { node with output := inputs.getD i 0 }) net) := by
      have hbase : ((List.range (net.layers[0]?.getD []).length).foldl
          (fun n i => n.modifyNode 0 i fun node => { node with output := inputs.getD i 0 })
          net).links = net.links :=
        foldl_preserves (fun (x : Network α) => x.links = net.links) _ _ _ rfl
          (fun t b _ ht => ht)
      refine foldl_congr_of_inv (fun (x : Network α) => x.links = net.links) _ _ _ _ hbase
        ?_ ?_
      · intro t b _ ht
        refine foldl_preserves (fun (x : Network α) => x.links = net.links) _ _ _ ht ?_
        intro u i _ hu
        exact hu
      · intro t b _ ht
        refine foldl_congr_of_inv (fun (x : Network α) => x.links = net.links) _ _ _ _ ht
          (fun u i _ hu => hu) ?_
        intro u i _ hu
        unfold updateOutputAt updateOutputAtLive
        congr 1
        funext node
        have hlkD : ∀ k, u.linkD k = net.linkD k := linkD_congr hu
        have hz' : ∀ k ∈ node.inputLinks, (u.linkD k).isDead = true →
            (u.linkD k).weight = 0 := by
          intro k _ hk
          rw [hlkD k] at hk ⊢
          exact hz k hk
        rw [foldl_filter_zero u node.inputLinks node.bias hz']
    rw [hfold]

/-- The three engine operations, for stating properties of arbitrary call
sequences. -/
inductive EngineOp (α : Type) where
  | fwd : List α → EngineOp α
  | bwd : α → ErrorFunction α → EngineOp α
  | upd : α → α → EngineOp α

def applyOp (net : Network α) : EngineOp α → Network α
  | .fwd inputs => (forwardProp net inputs).1
  | .bwd target errorFunc => backProp net target errorFunc
  | .upd lr rr => updateWeights net lr rr

def applyOps (net : Network α) (ops : List (EngineOp α)) : Network α :=
  ops.foldl applyOp net

/-- A dead link is left entirely unchanged — same weight, flags and
accumulators — by every later engine call, in any order. -/
theorem applyOps_dead_link (net : Network α) (k : Nat) (lk : Link α)
    (hlk : net.link? k = some lk) (hdead : lk.isDead = true) (ops : List (EngineOp α)) :
    (applyOps net ops).link? k = some lk := by
  unfold applyOps
  refine foldl_preserves (fun (x : Network α) => x.link? k = some lk) _ _ _ hlk ?_
  intro t op _ ht
  cases op with
  | fwd inputs =>
    show ((forwardProp t inputs).1).link? k = some lk
    rw [link?_congr_links (forwardProp_links t inputs) k]
    exact ht
  | bwd target errorFunc =>
    show (backProp t target errorFunc).link? k = some lk
    rw [backProp_dead_link t target errorFunc k
      (fun lk' hlk' => by rw [ht] at hlk'; cases hlk'; exact hdead)]
    exact ht
  | upd lr rr =>
    show (updateWeights t lr rr).link? k = some lk
    rcases updateWeights_link_cases t lr rr k with h | h
    · rw [h]; exact ht
    · rw [h, ht]
      simp only [Option.map_some']
      congr 1
      unfold updateLink
      rw [if_pos hdead]

/-! ## Closed form of `buildNetwork`

The builder creates links in a fixed order (layer by layer, destination node
outer, source node inner), so every node's endpoint lists and every arena
slot have explicit closed forms. -/

section BuildClosedForm

variable (networkShape : List Nat) (activation outputActivation : ActivationFunction α)
variable (regularization : RegRef α) (inputIds : List String) (initZero : Bool)
variable (rand : Nat → α)

/-- Number of links created before the builder starts layer `l`. -/
def linksBefore : Nat → Nat
  | 0 => 0
  | l + 1 => linksBefore l +
      (if l = 0 then 0 else (networkShape.getD l 0) * (networkShape.getD (l - 1) 0))

/-- The id counter value when the builder starts layer `l`. -/
def idBase : Nat → Nat
  | 0 => 1
  | l + 1 => idBase l + (if l = 0 then 0 else networkShape.getD l 0)

/-- The id string of node `(l, i)`. -/
def builtNodeId (l i : Nat) : String :=
  if l = 0 then inputIds.getD i "" else toString (idBase networkShape l + i)

/-- Arena index of the link from `(l - 1, j)` to `(l, i)`. -/
def linkIndex (l i j : Nat) : Nat :=
  linksBefore networkShape l + i * networkShape.getD (l - 1) 0 + j

/-- The incoming-link list of node `(l, i)`: one link per previous-layer
node, ordered by source position. -/
def builtInputLinks (l i : Nat) : List Nat :=
  if l = 0 then []
  else (List.range (networkShape.getD (l - 1) 0)).map (fun j => linkIndex networkShape l i j)

/-- The outgoing-link list of node `(l, i)`. -/
def builtOutputs (l i : Nat) : List Nat :=
  if l = networkShape.length - 1 then []
  else (List.range (networkShape.getD (l + 1) 0)).map
    (fun i' => linkIndex networkShape (l + 1) i' i)

/-- The finished node `(l, i)`. -/
def builtNodeAt (l i : Nat) : Node α :=
  { id := builtNodeId networkShape inputIds l i
    inputLinks := builtInputLinks networkShape l i
    bias := if initZero then 0 else 1 / 10
    outputs := builtOutputs networkShape l i
    totalInput := 0, output := 0, outputDer := 0, inputDer := 0, accInputDer := 0
    numAccumulatedDers := 0
    activation := if l = networkShape.length - 1 then outputActivation else activation }

/-- Node `(l, i)` before any outgoing link has been attached. -/
def builtNodeNoOut (l i : Nat) : Node α :=
  { builtNodeAt networkShape activation outputActivation inputIds initZero l i with
    outputs := [] }

/-- The finished link from `(l - 1, j)` to `(l, i)`. -/
def builtLink (l i j : Nat) : Link α :=
  { id := builtNodeId networkShape inputIds (l - 1) j ++ "-"
      ++ builtNodeId networkShape inputIds l i
    source := (l - 1, j), dest := (l, i)
    weight := if initZero then 0 else rand (linkIndex networkShape l i j)
    isDead := false, errorDer := 0, accErrorDer := 0, numAccumulatedDers := 0
    regularization := regularization }

/-- All links created while processing layer `l` (destination outer, source
inner). -/
def layerLinks (l : Nat) : List (Link α) :=
  (List.range (networkShape.getD l 0)).flatMap
    (fun i => (List.range (networkShape.getD (l - 1) 0)).map
      (fun j => builtLink networkShape regularization inputIds initZero rand l i j))

/-- The link arena after the builder has finished the layers `< m`. -/
def builtLinks : Nat → List (Link α)
  | 0 => []
  | l + 1 => builtLinks l ++
      (if l = 0 then []
       else layerLinks networkShape regularization inputIds initZero rand l)

end BuildClosedForm

/-- Folding a step function along `0, …, n-1` through a family of states. -/
theorem foldl_range_eq {σ : Type} (f : σ → Nat → σ) (g : Nat → σ) (n : Nat)
    (hstep : ∀ j, j < n → f (g j) j = g (j + 1)) :
    (List.range n).foldl f (g 0) = g n := by
  induction n with
  | zero => rfl
  | succ n ih =>
    rw [List.range_succ, List.foldl_append, ih (fun j hj => hstep j (by omega))]
    exact hstep n (by omega)

theorem listModify_map_range {β : Type} (n i : Nat) (f : Nat → β) (g : β → β) :
    listModify ((List.range n).map f) i g
      = (List.range n).map (fun j => if j = i then g (f j) else f j) := by
  apply List.ext_getElem?
  intro j
  by_cases hj : j < n
  · by_cases hij : j = i
    · subst hij
      rw [getElem?_listModify_self]
      rw [List.getElem?_map, List.getElem?_range hj, List.getElem?_map,
        List.getElem?_range hj]
      simp
    · rw [getElem?_listModify_ne _ _ _ _ hij]
      rw [List.getElem?_map, List.getElem?_range hj, List.getElem?_map,
        List.getElem?_range hj]
      simp [hij]
  · have h1 : ((List.range n).map f).length ≤ j := by
      rw [List.length_map, List.length_range]; omega
    have h2 : ((List.range n).map
        (fun j => if j = i then g (f j) else f j)).length ≤ j := by
      rw [List.length_map, List.length_range]; omega
    rw [List.getElem?_eq_none (by rw [length_listModify]; exact h1),
      List.getElem?_eq_none h2]

section BuildProof

variable (networkShape : List Nat) (activation outputActivation : ActivationFunction α)
variable (regularization : RegRef α) (inputIds : List String) (initZero : Bool)
variable (rand : Nat → α)

theorem length_layerLinks (l : Nat) :
    (layerLinks networkShape regularization inputIds initZero rand l).length
      = networkShape.getD l 0 * networkShape.getD (l - 1) 0 := by
  unfold layerLinks
  rw [List.length_bind]
  have h1 : List.map (List.length ∘ fun i => (List.range (networkShape.getD (l - 1) 0)).map
      (fun j => builtLink networkShape regularization inputIds initZero rand l i j))
      (List.range (networkShape.getD l 0))
      = List.replicate (networkShape.getD l 0) (networkShape.getD (l - 1) 0) := by
    apply List.ext_getElem?
    intro j
    by_cases hj : j < networkShape.getD l 0
    · rw [List.getElem?_map, List.getElem?_range hj, List.getElem?_replicate]
      have hj' : j < networkShape[l]?.getD 0 := by simpa [List.getD] using hj
      simp [hj', List.getD]
    · rw [List.getElem?_eq_none (by rw [List.length_map, List.length_range]; omega),
        List.getElem?_eq_none (by rw [List.length_replicate]; omega)]
  rw [h1, List.sum_replicate, smul_eq_mul]

theorem length_builtLinks (m : Nat) :
    (builtLinks networkShape regularization inputIds initZero rand m).length
      = linksBefore networkShape m := by
  induction m with
  | zero => rfl
  | succ m ih =>
    have hrec : linksBefore networkShape (m + 1)
        = linksBefore networkShape m
          + (if m = 0 then 0 else networkShape.getD m 0 * networkShape.getD (m - 1) 0) := rfl
    have hrec2 : builtLinks networkShape regularization inputIds initZero rand (m + 1)
        = builtLinks networkShape regularization inputIds initZero rand m
          ++ (if m = 0 then []
              else layerLinks networkShape regularization inputIds initZero rand m) := rfl
    rw [hrec2, List.length_append, ih, hrec]
    by_cases hm : m = 0
    · rw [if_pos hm, if_pos hm]; rfl
    · rw [if_neg hm, if_neg hm, length_layerLinks]

/-- The builder state in the middle of the link loop of node `(m, i)`
(`m ≥ 1`): `j0` links into node `(m, i)` have been created so far. -/
def buildState3 (m i j0 : Nat) : Network α :=
  { layers := (List.range (m + 1)).map (fun l =>
      if l < m then
        (List.range (networkShape.getD l 0)).map (fun ii =>
          if l + 1 < m then
            builtNodeAt networkShape activation outputActivation inputIds initZero l ii
          else
            { builtNodeAt networkShape activation outputActivation inputIds initZero l ii with
              outputs :=
                (List.range i).map (fun i' => linkIndex networkShape m i' ii)
                ++ (if ii < j0 then [linkIndex networkShape m i ii] else []) })
      else
        (List.range (i + 1)).map (fun ii =>
          if ii < i then
            builtNodeNoOut networkShape activation outputActivation inputIds initZero m ii
          else
            { builtNodeNoOut networkShape activation outputActivation inputIds initZero m ii with
              inputLinks := (List.range j0).map (fun j => linkIndex networkShape m i j) }))
    links := builtLinks networkShape regularization inputIds initZero rand m
      ++ (List.range i).flatMap (fun i' => (List.range (networkShape.getD (m - 1) 0)).map
          (fun j => builtLink networkShape regularization inputIds initZero rand m i' j))
      ++ (List.range j0).map
          (fun j => builtLink networkShape regularization inputIds initZero rand m i j) }

theorem addLinkStep_state3 (m i j0 : Nat) (hm : 1 ≤ m)
    (hj : j0 < networkShape.getD (m - 1) 0) :
    addLinkStep regularization initZero rand m i
      (buildState3 networkShape activation outputActivation regularization inputIds
        initZero rand m i j0) j0
      = buildState3 networkShape activation outputActivation regularization inputIds
        initZero rand m i (j0 + 1) := by
  set n := buildState3 networkShape activation outputActivation regularization inputIds
    initZero rand m i j0 with hn
  -- arena length = the next link's index
  have hflatlen : ((List.range i).flatMap (fun i' =>
      (List.range (networkShape.getD (m - 1) 0)).map
        (fun j => builtLink networkShape regularization inputIds initZero rand m i' j))).length
      = i * networkShape.getD (m - 1) 0 := by
    rw [List.length_bind]
    have h1 : List.map (List.length ∘ fun i' =>
        (List.range (networkShape.getD (m - 1) 0)).map
          (fun j => builtLink networkShape regularization inputIds initZero rand m i' j))
        (List.range i)
        = List.replicate i (networkShape.getD (m - 1) 0) := by
      apply List.ext_getElem?
      intro j
      by_cases hji : j < i
      · rw [List.getElem?_map, List.getElem?_range hji, List.getElem?_replicate]
        simp [hji]
      · rw [List.getElem?_eq_none (by rw [List.length_map, List.length_range]; omega),
          List.getElem?_eq_none (by rw [List.length_replicate]; omega)]
    rw [h1, List.sum_replicate, smul_eq_mul]
  have hk : n.links.length = linkIndex networkShape m i j0 := by
    rw [hn]
    show (builtLinks networkShape regularization inputIds initZero rand m ++ _ ++ _).length = _
    rw [List.length_append, List.length_append, length_builtLinks, hflatlen,
      List.length_map, List.length_range]
    unfold linkIndex
    omega
  -- the two endpoint nodes (only their ids matter for the new link)
  have hlayprev : n.layers[m - 1]?
      = some ((List.range (networkShape.getD (m - 1) 0)).map (fun ii =>
          if (m - 1) + 1 < m then
            builtNodeAt networkShape activation outputActivation inputIds initZero (m - 1) ii
          else
            { builtNodeAt networkShape activation outputActivation inputIds initZero
                (m - 1) ii with
              outputs :=
                (List.range i).map (fun i' => linkIndex networkShape m i' ii)
                ++ (if ii < j0 then [linkIndex networkShape m i ii] else []) })) := by
    rw [hn]
    simp only [buildState3]
    rw [List.getElem?_map, List.getElem?_range (by omega)]
    simp only [Option.map_some']
    rw [if_pos (by omega)]
  have hprevnode : n.nodeD (m - 1, j0)
      = { builtNodeAt networkShape activation outputActivation inputIds initZero
            (m - 1) j0 with
          outputs :=
            (List.range i).map (fun i' => linkIndex networkShape m i' j0)
            ++ (if j0 < j0 then [linkIndex networkShape m i j0] else []) } := by
    apply nodeD_of_node?
    show n.node? (m - 1) j0 = _
    unfold Network.node?
    rw [hlayprev]
    show ((List.range (networkShape.getD (m - 1) 0)).map _)[j0]? = _
    rw [List.getElem?_map, List.getElem?_range hj]
    simp only [Option.map_some']
    rw [if_neg (by omega)]
  have hlaym : n.layers[m]?
      = some ((List.range (i + 1)).map (fun ii =>
          if ii < i then
            builtNodeNoOut networkShape activation outputActivation inputIds initZero m ii
          else
            { builtNodeNoOut networkShape activation outputActivation inputIds initZero
                m ii with
              inputLinks := (List.range j0).map (fun j => linkIndex networkShape m i j) })) := by
    rw [hn]
    simp only [buildState3]
    rw [List.getElem?_map, List.getElem?_range (by omega)]
    simp only [Option.map_some']
    rw [if_neg (by omega)]
  have hmnode : n.nodeD (m, i)
      = { builtNodeNoOut networkShape activation outputActivation inputIds initZero m i with
          inputLinks := (List.range j0).map (fun j => linkIndex networkShape m i j) } := by
    apply nodeD_of_node?
    show n.node? m i = _
    unfold Network.node?
    rw [hlaym]
    show ((List.range (i + 1)).map _)[i]? = _
    rw [List.getElem?_map, List.getElem?_range (by omega)]
    simp only [Option.map_some']
    rw [if_neg (by omega)]
  -- the created link is the closed-form link
  have hlink : ({ id := (n.nodeD (m - 1, j0)).id ++ "-" ++ (n.nodeD (m, i)).id,
                  source := (m - 1, j0), dest := (m, i),
                  weight := if initZero then 0 else rand n.links.length,
                  isDead := false, errorDer := 0, accErrorDer := 0,
                  numAccumulatedDers := 0,
                  regularization := regularization } : Link α)
      = builtLink networkShape regularization inputIds initZero rand m i j0 := by
    rw [hprevnode, hmnode, hk]
    rfl
  show (({ n with links := n.links ++
      [{ id := (n.nodeD (m - 1, j0)).id ++ "-" ++ (n.nodeD (m, i)).id,
         source := (m - 1, j0), dest := (m, i),
         weight := if initZero then 0 else rand n.links.length,
         isDead := false, errorDer := 0, accErrorDer := 0, numAccumulatedDers := 0,
         regularization := regularization }] } : Network α).modifyNode (m - 1) j0
      (fun p => { p with outputs := p.outputs ++ [n.links.length] })).modifyNode m i
      (fun q => { q with inputLinks := q.inputLinks ++ [n.links.length] }) = _
  rw [hlink, hk]
  -- compare the two components
  unfold Network.modifyNode
  rw [hn]
  simp only [buildState3, Network.mk.injEq]
  constructor
  · -- layers
    rw [listModify_map_range, listModify_map_range]
    apply List.map_congr_left
    intro l hl
    rw [List.mem_range] at hl
    by_cases hlm : l = m
    · subst hlm
      rw [if_pos rfl, if_neg (by omega), if_neg (by omega), if_neg (by omega)]
      rw [listModify_map_range]
      apply List.map_congr_left
      intro ii hii
      rw [List.mem_range] at hii
      by_cases hiii : ii = i
      · subst hiii
        rw [if_pos rfl, if_neg (by omega), if_neg (by omega)]
        have h5 : (List.range j0).map (fun j => linkIndex networkShape l ii j)
            ++ [linkIndex networkShape l ii j0]
            = (List.range (j0 + 1)).map (fun j => linkIndex networkShape l ii j) := by
          rw [List.range_succ, List.map_append]
          rfl
        rw [← h5]
      · rw [if_neg hiii, if_pos (by omega), if_pos (by omega)]
    · by_cases hlm1 : l = m - 1
      · subst hlm1
        rw [if_neg hlm, if_pos rfl, if_pos (by omega), if_pos (by omega)]
        rw [listModify_map_range]
        apply List.map_congr_left
        intro ii hii
        rw [List.mem_range] at hii
        have hmf : ¬(m - 1 + 1 < m) := by omega
        by_cases hiij : ii = j0
        · subst hiij
          have hii1 : ¬(ii < ii) := by omega
          have hii2 : ii < ii + 1 := by omega
          rw [if_pos rfl, if_neg hmf, if_neg hmf, if_neg hii1, if_pos hii2]
          simp
        · rw [if_neg hiij, if_neg hmf, if_neg hmf]
          by_cases hlt : ii < j0
          · rw [if_pos hlt, if_pos (show ii < j0 + 1 by omega)]
          · rw [if_neg hlt, if_neg (show ¬(ii < j0 + 1) by omega)]
      · rw [if_neg hlm, if_neg hlm1]
        by_cases hlltm : l < m
        · rw [if_pos hlltm, if_pos hlltm]
          have hl1 : l + 1 < m := by omega
          apply List.map_congr_left
          intro ii _
          rw [if_pos hl1, if_pos hl1]
        · omega
  · -- links
    have h6 : (List.range j0).map
        (fun j => builtLink networkShape regularization inputIds initZero rand m i j)
        ++ [builtLink networkShape regularization inputIds initZero rand m i j0]
        = (List.range (j0 + 1)).map
          (fun j => builtLink networkShape regularization inputIds initZero rand m i j) := by
      rw [List.range_succ, List.map_append]
      rfl
    rw [List.append_assoc, h6]

/-- The network right after `addNodeStep` has appended the new node, before
its link loop runs. -/
def nodeAppended (st : Network α × Nat) (m : Nat) : Network α :=
  { st.1 with layers := listModify st.1.layers m (fun lay => lay ++
      [Node.make (toString st.2)
        (if m = networkShape.length - 1 then outputActivation else activation) initZero]) }

theorem addNodeStep_eq (m : Nat) (hm : 1 ≤ m) (st : Network α × Nat) (i : Nat) :
    addNodeStep networkShape activation outputActivation regularization inputIds initZero rand
      m st i
    = ((List.range ((((nodeAppended networkShape activation outputActivation initZero st
          m).layers[m - 1]?).getD []).length)).foldl
        (addLinkStep regularization initZero rand m i)
        (nodeAppended networkShape activation outputActivation initZero st m),
       st.2 + 1) := by
  have hm0 : ¬(m = 0) := by omega
  simp only [addNodeStep, nodeAppended]
  rw [if_pos hm, if_neg hm0, if_neg hm0]

/-- The builder state at the start of node `i0` of layer `m` (`m ≥ 1`):
layers `0, …, m` exist, layer `m` holds `i0` finished (output-less) nodes,
layer `m - 1` nodes have outgoing links to those `i0` nodes only. -/
def buildState2 (m i0 : Nat) : Network α × Nat :=
  ({ layers := (List.range (m + 1)).map (fun l =>
      if l < m then
        (List.range (networkShape.getD l 0)).map (fun ii =>
          if l + 1 < m then
            builtNodeAt networkShape activation outputActivation inputIds initZero l ii
          else
            { builtNodeAt networkShape activation outputActivation inputIds initZero l ii with
              outputs := (List.range i0).map (fun i' => linkIndex networkShape m i' ii) })
      else
        (List.range i0).map (fun ii =>
          builtNodeNoOut networkShape activation outputActivation inputIds initZero m ii))
     links := builtLinks networkShape regularization inputIds initZero rand m
       ++ (List.range i0).flatMap (fun i' => (List.range (networkShape.getD (m - 1) 0)).map
           (fun j => builtLink networkShape regularization inputIds initZero rand m i' j)) },
   idBase networkShape m + i0)

theorem addNodeStep_state2 (m i0 : Nat) (hm : 1 ≤ m) :
    addNodeStep networkShape activation outputActivation regularization inputIds initZero rand
      m (buildState2 networkShape activation outputActivation regularization inputIds
        initZero rand m i0) i0
      = buildState2 networkShape activation outputActivation regularization inputIds
        initZero rand m (i0 + 1) := by
  have hm0 : ¬(m = 0) := by omega
  rw [addNodeStep_eq networkShape activation outputActivation regularization inputIds
    initZero rand m hm]
  have happ : nodeAppended networkShape activation outputActivation initZero
      (buildState2 networkShape activation outputActivation regularization inputIds
        initZero rand m i0) m
      = buildState3 networkShape activation outputActivation regularization inputIds
        initZero rand m i0 0 := by
    simp only [nodeAppended, buildState2, buildState3, Network.mk.injEq]
    constructor
    · rw [listModify_map_range]
      apply List.map_congr_left
      intro l hl
      rw [List.mem_range] at hl
      by_cases hlm : l = m
      · subst hlm
        rw [if_pos rfl, if_neg (lt_irrefl l), if_neg (lt_irrefl l)]
        rw [List.range_succ, List.map_append]
        congr 1
        · apply List.map_congr_left
          intro ii hii
          rw [List.mem_range] at hii
          rw [if_pos hii]
        · simp only [List.map_cons, List.map_nil]
          rw [if_neg (lt_irrefl i0)]
          simp only [builtNodeNoOut, builtNodeAt, Node.make, builtNodeId, if_neg hm0]
          rfl
      · rw [if_neg hlm]
        by_cases hlt : l < m
        · rw [if_pos hlt, if_pos hlt]
          apply List.map_congr_left
          intro ii _
          by_cases h1 : l + 1 < m
          · rw [if_pos h1, if_pos h1]
          · rw [if_neg h1, if_neg h1, if_neg (Nat.not_lt_zero ii)]
            simp
        · omega
    · simp
  rw [happ]
  have hlen : ((((buildState3 networkShape activation outputActivation regularization
      inputIds initZero rand m i0 0).layers[m - 1]?).getD []).length)
      = networkShape.getD (m - 1) 0 := by
    simp only [buildState3]
    rw [List.getElem?_map, List.getElem?_range (show m - 1 < m + 1 by omega)]
    simp only [Option.map_some', Option.getD_some]
    rw [if_pos (show m - 1 < m by omega)]
    rw [List.length_map, List.length_range]
  rw [hlen]
  have hfold : (List.range (networkShape.getD (m - 1) 0)).foldl
      (addLinkStep regularization initZero rand m i0)
      (buildState3 networkShape activation outputActivation regularization inputIds
        initZero rand m i0 0)
      = buildState3 networkShape activation outputActivation regularization inputIds
        initZero rand m i0 (networkShape.getD (m - 1) 0) :=
    foldl_range_eq _
      (fun j0 => buildState3 networkShape activation outputActivation regularization inputIds
        initZero rand m i0 j0) _
      (fun j0 hj => addLinkStep_state3 networkShape activation outputActivation regularization
        inputIds initZero rand m i0 j0 hm hj)
  rw [hfold]
  have hS : buildState3 networkShape activation outputActivation regularization inputIds
      initZero rand m i0 (networkShape.getD (m - 1) 0)
      = (buildState2 networkShape activation outputActivation regularization inputIds
        initZero rand m (i0 + 1)).1 := by
    simp only [buildState2, buildState3, Network.mk.injEq]
    constructor
    · apply List.map_congr_left
      intro l hl
      rw [List.mem_range] at hl
      by_cases hlt : l < m
      · rw [if_pos hlt, if_pos hlt]
        apply List.map_congr_left
        intro ii hii
        rw [List.mem_range] at hii
        by_cases h1 : l + 1 < m
        · rw [if_pos h1, if_pos h1]
        · have hl1 : l = m - 1 := by omega
          subst hl1
          rw [if_neg h1, if_neg h1, if_pos hii]
          have h5 : (List.range i0).map (fun i' => linkIndex networkShape m i' ii)
              ++ [linkIndex networkShape m i0 ii]
              = (List.range (i0 + 1)).map (fun i' => linkIndex networkShape m i' ii) := by
            rw [List.range_succ, List.map_append]
            rfl
          rw [← h5]
      · have hlm : l = m := by omega
        subst hlm
        rw [if_neg hlt, if_neg hlt]
        apply List.map_congr_left
        intro ii hii
        rw [List.mem_range] at hii
        by_cases h2 : ii < i0
        · rw [if_pos h2]
        · have hii0 : ii = i0 := by omega
          subst hii0
          rw [if_neg h2]
          simp only [builtNodeNoOut, builtNodeAt, builtInputLinks, if_neg hm0]
    · have h6 : (List.range (i0 + 1)).flatMap
          (fun i' => (List.range (networkShape.getD (m - 1) 0)).map
            (fun j => builtLink networkShape regularization inputIds initZero rand m i' j))
          = (List.range i0).flatMap
            (fun i' => (List.range (networkShape.getD (m - 1) 0)).map
              (fun j => builtLink networkShape regularization inputIds initZero rand m i' j))
            ++ (List.range (networkShape.getD (m - 1) 0)).map
              (fun j => builtLink networkShape regularization inputIds initZero rand m i0 j) := by
        rw [List.range_succ]
        simp
      rw [h6, ← List.append_assoc]
  rw [hS]
  rfl

/-- The builder state at the start of node `i0` of the input layer. -/
def buildState0 (i0 : Nat) : Network α × Nat :=
  ({ layers := [(List.range i0).map (fun ii =>
       builtNodeNoOut networkShape activation outputActivation inputIds initZero 0 ii)],
     links := [] }, 1)

theorem addNodeStep0_eq (st : Network α × Nat) (i : Nat) :
    addNodeStep networkShape activation outputActivation regularization inputIds initZero rand
      0 st i
    = ({ st.1 with layers := listModify st.1.layers 0 (fun lay => lay ++
        [Node.make (inputIds.getD i "")
          (if 0 = networkShape.length - 1 then outputActivation else activation) initZero]) },
       st.2) := rfl

theorem addNodeStep_state0 (i0 : Nat) :
    addNodeStep networkShape activation outputActivation regularization inputIds initZero rand
      0 (buildState0 networkShape activation outputActivation inputIds initZero i0) i0
      = buildState0 networkShape activation outputActivation inputIds initZero (i0 + 1) := by
  rw [addNodeStep0_eq]
  have h : (List.range i0).map (fun ii =>
        builtNodeNoOut networkShape activation outputActivation inputIds initZero 0 ii)
      ++ [Node.make (inputIds.getD i0 "")
        (if 0 = networkShape.length - 1 then outputActivation else activation) initZero]
      = (List.range (i0 + 1)).map (fun ii =>
        builtNodeNoOut networkShape activation outputActivation inputIds initZero 0 ii) := by
    rw [List.range_succ, List.map_append]
    congr 1
  have h1 : listModify (buildState0 networkShape activation outputActivation inputIds
        initZero i0).1.layers 0 (fun lay => lay ++
        [Node.make (inputIds.getD i0 "")
          (if 0 = networkShape.length - 1 then outputActivation else activation) initZero])
      = [(List.range i0).map (fun ii =>
          builtNodeNoOut networkShape activation outputActivation inputIds initZero 0 ii)
         ++ [Node.make (inputIds.getD i0 "")
           (if 0 = networkShape.length - 1 then outputActivation else activation) initZero]] :=
    rfl
  rw [h1, h]
  rfl

/-- The builder state when the layer loop reaches layer `m`: layers
`0, …, m - 1` are finished except that layer `m - 1` has no outgoing
links yet. -/
def buildState1 (m : Nat) : Network α × Nat :=
  ({ layers := (List.range m).map (fun l =>
       (List.range (networkShape.getD l 0)).map (fun ii =>
         if l + 1 < m then
           builtNodeAt networkShape activation outputActivation inputIds initZero l ii
         else builtNodeNoOut networkShape activation outputActivation inputIds initZero l ii)),
     links := builtLinks networkShape regularization inputIds initZero rand m },
   idBase networkShape m)

theorem layerStep_state1 (m : Nat) (hmL : m < networkShape.length) :
    (List.range (networkShape.getD m 0)).foldl
      (addNodeStep networkShape activation outputActivation regularization inputIds initZero
        rand m)
      ({ (buildState1 networkShape activation outputActivation regularization inputIds initZero
            rand m).1 with
         layers := (buildState1 networkShape activation outputActivation regularization inputIds
            initZero rand m).1.layers ++ [[]] },
       (buildState1 networkShape activation outputActivation regularization inputIds initZero
         rand m).2)
      = buildState1 networkShape activation outputActivation regularization inputIds initZero
          rand (m + 1) := by
  by_cases hm : m = 0
  · subst hm
    have hstart : ({ (buildState1 networkShape activation outputActivation regularization
          inputIds initZero rand 0).1 with
        layers := (buildState1 networkShape activation outputActivation regularization inputIds
          initZero rand 0).1.layers ++ [[]] },
        (buildState1 networkShape activation outputActivation regularization inputIds initZero
          rand 0).2)
        = buildState0 networkShape activation outputActivation inputIds initZero 0 := rfl
    rw [hstart]
    have hfold : (List.range (networkShape.getD 0 0)).foldl
        (addNodeStep networkShape activation outputActivation regularization inputIds initZero
          rand 0)
        (buildState0 networkShape activation outputActivation inputIds initZero 0)
        = buildState0 networkShape activation outputActivation inputIds initZero
            (networkShape.getD 0 0) :=
      foldl_range_eq _
        (fun i0 => buildState0 networkShape activation outputActivation inputIds initZero i0) _
        (fun i0 _ => addNodeStep_state0 networkShape activation outputActivation regularization
          inputIds initZero rand i0)
    rw [hfold]
    simp only [buildState0, buildState1, Prod.mk.injEq, Network.mk.injEq]
    refine ⟨⟨?_, rfl⟩, rfl⟩
    rw [show List.range (0 + 1) = [0] from rfl, List.map_cons, List.map_nil]
    congr 1
  · have hm1 : 1 ≤ m := by omega
    have hstart : ({ (buildState1 networkShape activation outputActivation regularization
          inputIds initZero rand m).1 with
        layers := (buildState1 networkShape activation outputActivation regularization inputIds
          initZero rand m).1.layers ++ [[]] },
        (buildState1 networkShape activation outputActivation regularization inputIds initZero
          rand m).2)
        = buildState2 networkShape activation outputActivation regularization inputIds initZero
            rand m 0 := by
      simp only [buildState1, buildState2, Prod.mk.injEq, Network.mk.injEq]
      refine ⟨⟨?_, ?_⟩, rfl⟩
      · rw [List.range_succ, List.map_append]
        congr 1
        · apply List.map_congr_left
          intro l hl
          rw [List.mem_range] at hl
          rw [if_pos hl]
          apply List.map_congr_left
          intro ii _
          by_cases h1 : l + 1 < m
          · rw [if_pos h1, if_pos h1]
          · rw [if_neg h1, if_neg h1]
            simp [builtNodeNoOut]
        · simp only [List.map_cons, List.map_nil]
          rw [if_neg (lt_irrefl m)]
          rfl
      · simp
    rw [hstart]
    have hfold : (List.range (networkShape.getD m 0)).foldl
        (addNodeStep networkShape activation outputActivation regularization inputIds initZero
          rand m)
        (buildState2 networkShape activation outputActivation regularization inputIds initZero
          rand m 0)
        = buildState2 networkShape activation outputActivation regularization inputIds initZero
            rand m (networkShape.getD m 0) :=
      foldl_range_eq _
        (fun i0 => buildState2 networkShape activation outputActivation regularization inputIds
          initZero rand m i0) _
        (fun i0 _ => addNodeStep_state2 networkShape activation outputActivation regularization
          inputIds initZero rand m i0 hm1)
    rw [hfold]
    simp only [buildState1, buildState2, Prod.mk.injEq, Network.mk.injEq]
    refine ⟨⟨?_, ?_⟩, ?_⟩
    · apply List.map_congr_left
      intro l hl
      rw [List.mem_range] at hl
      by_cases hlt : l < m
      · rw [if_pos hlt]
        apply List.map_congr_left
        intro ii _
        rw [if_pos (show l + 1 < m + 1 from by omega)]
        by_cases h1 : l + 1 < m
        · rw [if_pos h1]
        · have hl1 : l = m - 1 := by omega
          subst hl1
          rw [if_neg h1]
          have hne : ¬(m - 1 = networkShape.length - 1) := by omega
          have hmm : m - 1 + 1 = m := by omega
          simp only [builtNodeAt, builtOutputs, if_neg hne, hmm]
      · have hlm : l = m := by omega
        subst hlm
        rw [if_neg hlt]
        apply List.map_congr_left
        intro ii _
        rw [if_neg (lt_irrefl (l + 1))]
    · have hrec : builtLinks networkShape regularization inputIds initZero rand (m + 1)
          = builtLinks networkShape regularization inputIds initZero rand m
            ++ (if m = 0 then []
                else layerLinks networkShape regularization inputIds initZero rand m) := rfl
      rw [hrec, if_neg hm]
      rfl
    · have hrec2 : idBase networkShape (m + 1)
          = idBase networkShape m + (if m = 0 then 0 else networkShape.getD m 0) := rfl
      rw [hrec2, if_neg hm]

theorem buildNetwork_eq :
    buildNetwork networkShape activation outputActivation regularization inputIds initZero rand
      = (buildState1 networkShape activation outputActivation regularization inputIds initZero
          rand networkShape.length).1 := by
  unfold buildNetwork
  exact congrArg Prod.fst (foldl_range_eq _
    (fun m => buildState1 networkShape activation outputActivation regularization inputIds
      initZero rand m)
    networkShape.length
    (fun m hm => layerStep_state1 networkShape activation outputActivation regularization
      inputIds initZero rand m hm))

/-- Closed form of the network built by `buildNetwork`. -/
theorem buildNetwork_closed :
    buildNetwork networkShape activation outputActivation regularization inputIds initZero rand
      = { layers := (List.range networkShape.length).map (fun l =>
            (List.range (networkShape.getD l 0)).map (fun ii =>
              builtNodeAt networkShape activation outputActivation inputIds initZero l ii)),
          links := builtLinks networkShape regularization inputIds initZero rand
            networkShape.length } := by
  rw [buildNetwork_eq networkShape activation outputActivation regularization inputIds
    initZero rand]
  simp only [buildState1, Network.mk.injEq]
  refine ⟨?_, trivial⟩
  apply List.map_congr_left
  intro l hl
  rw [List.mem_range] at hl
  apply List.map_congr_left
  intro ii _
  by_cases h1 : l + 1 < networkShape.length
  · rw [if_pos h1]
  · rw [if_neg h1]
    have hle : l = networkShape.length - 1 := by omega
    simp only [builtNodeNoOut, builtNodeAt, builtOutputs, if_pos hle]

theorem linksBefore_le (a b : Nat) (h : a ≤ b) :
    linksBefore networkShape a ≤ linksBefore networkShape b := by
  induction b with
  | zero =>
    have ha : a = 0 := by omega
    subst ha
    exact le_refl _
  | succ b ih =>
    by_cases hab : a = b + 1
    · subst hab
      exact le_refl _
    · have hle : a ≤ b := by omega
      have h2 : linksBefore networkShape (b + 1)
          = linksBefore networkShape b
            + (if b = 0 then 0
               else networkShape.getD b 0 * networkShape.getD (b - 1) 0) := rfl
      have h3 := ih hle
      rw [h2]
      omega

theorem length_flatMap_range {β : Type} (n s : Nat) (f : Nat → Nat → β) :
    ((List.range n).flatMap (fun i => (List.range s).map (f i))).length = n * s := by
  induction n with
  | zero => simp
  | succ n ih =>
    rw [List.range_succ, List.flatMap_append, List.length_append, ih]
    simp [Nat.succ_mul]

theorem getElem?_flatMap_range {β : Type} (n s : Nat) (f : Nat → Nat → β) (i j : Nat)
    (hi : i < n) (hj : j < s) :
    ((List.range n).flatMap (fun i => (List.range s).map (f i)))[i * s + j]?
      = some (f i j) := by
  induction n with
  | zero => omega
  | succ n ih =>
    rw [List.range_succ, List.flatMap_append]
    by_cases hii : i < n
    · rw [List.getElem?_append_left (by
        rw [length_flatMap_range]
        have h1 : i * s + j < (i + 1) * s := by rw [Nat.succ_mul]; omega
        have h2 : (i + 1) * s ≤ n * s := Nat.mul_le_mul_right s (by omega)
        omega)]
      exact ih hii
    · have hii' : i = n := by omega
      subst hii'
      rw [List.getElem?_append_right (by rw [length_flatMap_range]; omega)]
      rw [length_flatMap_range]
      simp only [List.flatMap_cons, List.flatMap_nil, List.append_nil]
      have h3 : i * s + j - i * s = j := by omega
      rw [h3, List.getElem?_map, List.getElem?_range hj]
      rfl

theorem getElem?_builtLinks (m t i j : Nat) (ht1 : 1 ≤ t) (htm : t < m)
    (hi : i < networkShape.getD t 0) (hj : j < networkShape.getD (t - 1) 0) :
    (builtLinks networkShape regularization inputIds initZero rand
        m)[linkIndex networkShape t i j]?
      = some (builtLink networkShape regularization inputIds initZero rand t i j) := by
  induction m with
  | zero => omega
  | succ m ih =>
    have hrec : builtLinks networkShape regularization inputIds initZero rand (m + 1)
        = builtLinks networkShape regularization inputIds initZero rand m
          ++ (if m = 0 then []
              else layerLinks networkShape regularization inputIds initZero rand m) := rfl
    rw [hrec]
    by_cases htm' : t < m
    · rw [List.getElem?_append_left (by
        rw [length_builtLinks]
        have h1 : linkIndex networkShape t i j < linksBefore networkShape (t + 1) := by
          have hrec3 : linksBefore networkShape (t + 1)
              = linksBefore networkShape t
                + (if t = 0 then 0
                   else networkShape.getD t 0 * networkShape.getD (t - 1) 0) := rfl
          rw [hrec3, if_neg (show ¬t = 0 by omega)]
          unfold linkIndex
          have h3 : i * networkShape.getD (t - 1) 0 + j
              < (i + 1) * networkShape.getD (t - 1) 0 := by rw [Nat.succ_mul]; omega
          have h4 : (i + 1) * networkShape.getD (t - 1) 0
              ≤ networkShape.getD t 0 * networkShape.getD (t - 1) 0 :=
            Nat.mul_le_mul_right _ (by omega)
          omega
        have h5 := linksBefore_le networkShape (t + 1) m (by omega)
        omega)]
      exact ih htm'
    · have htm2 : t = m := by omega
      subst htm2
      rw [if_neg (show ¬t = 0 by omega)]
      rw [List.getElem?_append_right (by rw [length_builtLinks]; unfold linkIndex; omega)]
      rw [length_builtLinks]
      unfold layerLinks
      have h6 : linkIndex networkShape t i j - linksBefore networkShape t
          = i * networkShape.getD (t - 1) 0 + j := by
        unfold linkIndex
        omega
      rw [h6]
      exact getElem?_flatMap_range _ _ _ i j hi hj

theorem mem_builtLinks (m : Nat) (lk : Link α)
    (h : lk ∈ builtLinks networkShape regularization inputIds initZero rand m) :
    ∃ t i j, 1 ≤ t ∧ t < m ∧ i < networkShape.getD t 0 ∧ j < networkShape.getD (t - 1) 0
      ∧ lk = builtLink networkShape regularization inputIds initZero rand t i j := by
  induction m with
  | zero => simp [builtLinks] at h
  | succ m ih =>
    have hrec : builtLinks networkShape regularization inputIds initZero rand (m + 1)
        = builtLinks networkShape regularization inputIds initZero rand m
          ++ (if m = 0 then []
              else layerLinks networkShape regularization inputIds initZero rand m) := rfl
    rw [hrec, List.mem_append] at h
    rcases h with h | h
    · obtain ⟨t, i, j, ht1, htm, hi, hj, heq⟩ := ih h
      exact ⟨t, i, j, ht1, by omega, hi, hj, heq⟩
    · by_cases hm : m = 0
      · rw [if_pos hm] at h
        simp at h
      · rw [if_neg hm] at h
        unfold layerLinks at h
        rw [List.mem_flatMap] at h
        obtain ⟨i, hi, h2⟩ := h
        rw [List.mem_range] at hi
        rw [List.mem_map] at h2
        obtain ⟨j, hj, heq⟩ := h2
        rw [List.mem_range] at hj
        exact ⟨m, i, j, by omega, by omega, hi, hj, heq.symm⟩

theorem filter_dest_builtLinks (m t : Nat) (ht : 1 ≤ t) :
    ((builtLinks networkShape regularization inputIds initZero rand m).filter
      (fun lk => lk.dest.1 = t)).length
      = if t < m then networkShape.getD t 0 * networkShape.getD (t - 1) 0 else 0 := by
  induction m with
  | zero =>
    rw [if_neg (by omega)]
    rfl
  | succ m ih =>
    have hrec : builtLinks networkShape regularization inputIds initZero rand (m + 1)
        = builtLinks networkShape regularization inputIds initZero rand m
          ++ (if m = 0 then []
              else layerLinks networkShape regularization inputIds initZero rand m) := rfl
    rw [hrec, List.filter_append, List.length_append, ih]
    by_cases hm : m = 0
    · subst hm
      rw [if_pos rfl, if_neg (by omega), if_neg (by omega)]
      rfl
    · rw [if_neg hm]
      by_cases htm : t = m
      · subst htm
        rw [if_neg (lt_irrefl t), if_pos (by omega)]
        have hall : (layerLinks networkShape regularization inputIds initZero rand t).filter
            (fun lk => lk.dest.1 = t)
            = layerLinks networkShape regularization inputIds initZero rand t := by
          rw [List.filter_eq_self]
          intro lk hmem
          unfold layerLinks at hmem
          rw [List.mem_flatMap] at hmem
          obtain ⟨i, _, h2⟩ := hmem
          rw [List.mem_map] at h2
          obtain ⟨j, _, heq⟩ := h2
          rw [← heq]
          simp [builtLink]
        rw [hall, length_layerLinks]
        omega
      · have hnone : (layerLinks networkShape regularization inputIds initZero rand m).filter
            (fun lk => lk.dest.1 = t) = [] := by
          rw [List.filter_eq_nil_iff]
          intro lk hmem
          unfold layerLinks at hmem
          rw [List.mem_flatMap] at hmem
          obtain ⟨i, _, h2⟩ := hmem
          rw [List.mem_map] at h2
          obtain ⟨j, _, heq⟩ := h2
          rw [← heq]
          simp [builtLink]
          omega
        rw [hnone]
        simp only [List.length_nil]
        by_cases h7 : t < m
        · rw [if_pos h7, if_pos (by omega)]
          omega
        · rw [if_neg h7, if_neg (by omega)]

theorem node?_buildNetwork (l i : Nat) (hl : l < networkShape.length)
    (hi : i < networkShape.getD l 0) :
    (buildNetwork networkShape activation outputActivation regularization inputIds initZero
      rand).node? l i
    = some (builtNodeAt networkShape activation outputActivation inputIds initZero l i) := by
  rw [buildNetwork_closed networkShape activation outputActivation regularization inputIds
    initZero rand]
  unfold Network.node?
  show ((List.range networkShape.length).map (fun l =>
      (List.range (networkShape.getD l 0)).map (fun ii =>
        builtNodeAt networkShape activation outputActivation inputIds initZero
          l ii)))[l]?.bind (fun layer => layer[i]?) = _
  rw [List.getElem?_map, List.getElem?_range hl]
  simp only [Option.map_some', Option.some_bind]
  rw [List.getElem?_map, List.getElem?_range hi]
  rfl

theorem layerSize_buildNetwork (l : Nat) (hl : l < networkShape.length) :
    (buildNetwork networkShape activation outputActivation regularization inputIds initZero
      rand).layerSize l = networkShape.getD l 0 := by
  rw [buildNetwork_closed networkShape activation outputActivation regularization inputIds
    initZero rand]
  unfold Network.layerSize
  show ((((List.range networkShape.length).map (fun l =>
      (List.range (networkShape.getD l 0)).map (fun ii =>
        builtNodeAt networkShape activation outputActivation inputIds initZero
          l ii)))[l]?).getD []).length = _
  rw [List.getElem?_map, List.getElem?_range hl]
  simp only [Option.map_some', Option.getD_some]
  rw [List.length_map, List.length_range]

/-- C8: on a shape of positive layer sizes (length ≥ 2) with matching input
ids, `buildNetwork` wires every node of layer `l + 1` with exactly one
incoming link from each node of layer `l`, ordered by the source's position
(the `j`-th entry of `inputLinks` is the link from source `(l, j)`); the
number of links into layer `l + 1` is `size(l + 1) * size(l)`; input-layer
nodes have no incoming links; and every link goes from a layer to the next
(no skip-layer or intra-layer links). -/
theorem c8_buildNetwork_dense (net : Network α)
    (hnet : net = buildNetwork networkShape activation outputActivation regularization
      inputIds initZero rand)
    (hlen : 2 ≤ networkShape.length)
    (hpos : ∀ x ∈ networkShape, 0 < x)
    (hids : inputIds.length = networkShape.getD 0 0) :
    (∀ l i nd, l + 1 < networkShape.length → net.node? (l + 1) i = some nd →
      nd.inputLinks.length = networkShape.getD l 0 ∧
      ∀ j, j < networkShape.getD l 0 →
        ∃ lk, net.link? (nd.inputLinks.getD j 0) = some lk
          ∧ lk.source = (l, j) ∧ lk.dest = (l + 1, i))
    ∧ (∀ l, l + 1 < networkShape.length →
        (net.links.filter (fun lk => lk.dest.1 = l + 1)).length
          = networkShape.getD (l + 1) 0 * networkShape.getD l 0)
    ∧ (∀ i nd, net.node? 0 i = some nd → nd.inputLinks = [])
    ∧ (∀ k lk, net.link? k = some lk → lk.dest.1 = lk.source.1 + 1) := by
  subst hnet
  refine ⟨?_, ?_, ?_, ?_⟩
  · intro l i nd hl hnode
    have hi : i < networkShape.getD (l + 1) 0 := by
      have h1 := node?_some_lt hnode
      rw [layerSize_buildNetwork networkShape activation outputActivation regularization
        inputIds initZero rand (l + 1) hl] at h1
      exact h1
    rw [node?_buildNetwork networkShape activation outputActivation regularization inputIds
      initZero rand (l + 1) i hl hi] at hnode
    simp only [Option.some.injEq] at hnode
    subst hnode
    have hinp : (builtNodeAt networkShape activation outputActivation inputIds initZero
        (l + 1) i).inputLinks
        = (List.range (networkShape.getD l 0)).map
          (fun j => linkIndex networkShape (l + 1) i j) := by
      simp only [builtNodeAt, builtInputLinks]
      rw [if_neg (show ¬(l + 1 = 0) from by omega)]
      simp
    constructor
    · rw [hinp, List.length_map, List.length_range]
    · intro j hj
      refine ⟨builtLink networkShape regularization inputIds initZero rand (l + 1) i j,
        ?_, rfl, rfl⟩
      have hidx : (builtNodeAt networkShape activation outputActivation inputIds initZero
          (l + 1) i).inputLinks.getD j 0 = linkIndex networkShape (l + 1) i j := by
        rw [hinp]
        have hj2 : ((List.range (networkShape.getD l 0)).map
            (fun j => linkIndex networkShape (l + 1) i j))[j]?
            = some (linkIndex networkShape (l + 1) i j) := by
          rw [List.getElem?_map, List.getElem?_range hj]
          rfl
        rw [List.getD_eq_getElem?_getD, hj2]
        rfl
      rw [hidx]
      unfold Network.link?
      rw [buildNetwork_closed networkShape activation outputActivation regularization
        inputIds initZero rand]
      show (builtLinks networkShape regularization inputIds initZero rand
        networkShape.length)[linkIndex networkShape (l + 1) i j]? = _
      exact getElem?_builtLinks networkShape regularization inputIds initZero rand
        networkShape.length (l + 1) i j (by omega) hl hi
        (show j < networkShape.getD (l + 1 - 1) 0 from by simpa using hj)
  · intro l hl
    rw [buildNetwork_closed networkShape activation outputActivation regularization inputIds
      initZero rand]
    show ((builtLinks networkShape regularization inputIds initZero rand
        networkShape.length).filter (fun lk => lk.dest.1 = l + 1)).length = _
    rw [filter_dest_builtLinks networkShape regularization inputIds initZero rand
      networkShape.length (l + 1) (by omega), if_pos hl]
    simp
  · intro i nd hnode
    have hi : i < networkShape.getD 0 0 := by
      have h1 := node?_some_lt hnode
      rw [layerSize_buildNetwork networkShape activation outputActivation regularization
        inputIds initZero rand 0 (by omega)] at h1
      exact h1
    rw [node?_buildNetwork networkShape activation outputActivation regularization inputIds
      initZero rand 0 i (by omega) hi] at hnode
    simp only [Option.some.injEq] at hnode
    subst hnode
    simp [builtNodeAt, builtInputLinks]
  · intro k lk hlink
    unfold Network.link? at hlink
    rw [buildNetwork_closed networkShape activation outputActivation regularization inputIds
      initZero rand] at hlink
    have hmem : lk ∈ builtLinks networkShape regularization inputIds initZero rand
        networkShape.length := by
      rw [List.mem_iff_getElem?]
      exact ⟨k, hlink⟩
    obtain ⟨t, i, j, ht1, _, _, _, heq⟩ := mem_builtLinks networkShape regularization inputIds
      initZero rand networkShape.length lk hmem
    subst heq
    show t = t - 1 + 1
    omega

theorem c8_witness :
    (2 ≤ ([2, 3, 1] : List Nat).length
      ∧ (∀ x ∈ ([2, 3, 1] : List Nat), 0 < x)
      ∧ (["a", "b"] : List String).length = ([2, 3, 1] : List Nat).getD 0 0)
    ∧ ∀ k lk, (buildNetwork [2, 3, 1] Activations.RELU Activations.LINEAR RegRef.null
        ["a", "b"] true (fun _ => 0) : Network ℚ).link? k = some lk →
        lk.dest.1 = lk.source.1 + 1 :=
  ⟨⟨by decide, by decide, by decide⟩,
    (c8_buildNetwork_dense [2, 3, 1] Activations.RELU Activations.LINEAR RegRef.null
      ["a", "b"] true (fun _ => 0) _ rfl (by decide) (by decide) (by decide)).2.2.2⟩

end BuildProof

/-- Spec-side variant of the per-link `update` step, following the claim's
words: the gradient step is applied first and `regulDer` is computed from
the post-gradient-step weight. To be compared with `updateLink`, which is
translated from the source. -/
def claimUpdateLink (learningRate regularizationRate : α) (link : Link α) : Link α :=
  if link.isDead then link
  else if 0 < link.numAccumulatedDers then
    let w1 := link.weight - (learningRate / (link.numAccumulatedDers : α)) * link.accErrorDer
    let regulDer := match link.regularization.fn with
      | none => 0
      | some reg => reg.der w1
    let newLinkWeight := w1 - (learningRate * regularizationRate) * regulDer
    if link.regularization.isL1 = true ∧ w1 * newLinkWeight < 0 then
      { link with weight := 0, isDead := true, accErrorDer := 0, numAccumulatedDers := 0 }
    else
      { link with weight := newLinkWeight, accErrorDer := 0, numAccumulatedDers := 0 }
  else link

/-- A two-node network with one L1-regularized link carrying one
accumulated derivative; on it the source's `update` and the claim's
described `update` give different weights. -/
def c2Net : Network ℚ :=
  { layers :=
      [[{ id := "x", inputLinks := [], bias := 0, outputs := [0], totalInput := 0,
          output := 0, outputDer := 0, inputDer := 0, accInputDer := 0,
          numAccumulatedDers := 0, activation := Activations.LINEAR }],
       [{ id := "1", inputLinks := [0], bias := 0, outputs := [], totalInput := 0,
          output := 0, outputDer := 0, inputDer := 0, accInputDer := 0,
          numAccumulatedDers := 0, activation := Activations.LINEAR }]],
    links := [{ id := "x-1", source := (0, 0), dest := (1, 0), weight := 1/2,
                isDead := false, errorDer := 0, accErrorDer := 1,
                numAccumulatedDers := 1,
                regularization := RegRef.builtinL1 }] }

/-- C5: when the number of inputs differs from the size of the input layer,
`forward` throws the shape-mismatch error and returns with every node and
link of the network unchanged — the length check happens before any
mutation. -/
theorem c5_shape_mismatch (net : Network α) (inputs : List α)
    (hmismatch : inputs.length ≠ net.layerSize 0) :
    forwardProp net inputs
      = (net, Except.error
          "The number of inputs must match the number of nodes in the input layer") := by
  have hm2 : inputs.length ≠ (net.layers[0]?.getD []).length := hmismatch
  simp only [forwardProp]
  rw [if_pos hm2]

theorem c5_witness :
    (([] : List ℚ).length
      ≠ (buildNetwork [1, 1] Activations.RELU Activations.LINEAR RegRef.null ["x"] true
          (fun _ => 0) : Network ℚ).layerSize 0)
    ∧ forwardProp
        (buildNetwork [1, 1] Activations.RELU Activations.LINEAR RegRef.null ["x"] true
          (fun _ => 0) : Network ℚ) []
      = (buildNetwork [1, 1] Activations.RELU Activations.LINEAR RegRef.null ["x"] true
          (fun _ => 0),
         Except.error
           "The number of inputs must match the number of nodes in the input layer") :=
  ⟨by decide, c5_shape_mismatch _ [] (by decide)⟩

/-- C7: `update` adjusts every non-input node's bias by
`learningRate * accInputDer / numAccumulatedDers` and clears both
accumulators exactly when `numAccumulatedDers > 0`, and leaves the node
(bias and accumulators) untouched when `numAccumulatedDers = 0`; no error
is raised in either case. -/
theorem c7_bias_update (net : Network α) (lr rr : α) (hwf : net.wf)
    (hL : 1 ≤ net.layers.length) :
    ∀ l i nd, 1 ≤ l → net.node? l i = some nd →
      (updateWeights net lr rr).node? l i
        = some (if 0 < nd.numAccumulatedDers then
            { nd with
              bias := nd.bias - lr * nd.accInputDer / (nd.numAccumulatedDers : α)
              accInputDer := 0, numAccumulatedDers := 0 }
          else nd) := by
  intro l i nd hl hnd
  obtain ⟨_, _, hnode, _⟩ := updateWeights_spec net lr rr hwf hL
  rw [hnode l i hl, hnd]
  rfl

theorem c7_witness :
    ((buildNetwork [1, 1] Activations.RELU Activations.LINEAR RegRef.null ["x"] true
        (fun _ => 0) : Network ℚ).wf
      ∧ 1 ≤ (buildNetwork [1, 1] Activations.RELU Activations.LINEAR RegRef.null ["x"] true
          (fun _ => 0) : Network ℚ).layers.length)
    ∧ (∀ l i nd, 1 ≤ l →
        (buildNetwork [1, 1] Activations.RELU Activations.LINEAR RegRef.null ["x"] true
          (fun _ => 0) : Network ℚ).node? l i = some nd →
        (updateWeights
          (buildNetwork [1, 1] Activations.RELU Activations.LINEAR RegRef.null ["x"] true
            (fun _ => 0)) 1 0).node? l i
          = some (if 0 < nd.numAccumulatedDers then
              { nd with
                bias := nd.bias - 1 * nd.accInputDer / (nd.numAccumulatedDers : ℚ)
                accInputDer := 0, numAccumulatedDers := 0 }
            else nd)) :=
  ⟨⟨by decide, by decide⟩, c7_bias_update _ 1 0 (by decide) (by decide)⟩

/-- C2 (amended): in `update`, for every link reached by the loop,
`regulDer` is computed from the weight BEFORE the gradient step; the
gradient step then updates the weight, the regularization term is
subtracted using that pre-gradient `regulDer`, and the L1 pruning decision
compares the post-gradient weight with the candidate. -/
theorem c2_update_regDer_pre_gradient (net : Network α) (lr rr : α) (hwf : net.wf)
    (hL : 1 ≤ net.layers.length) :
    ∀ k lk, net.link? k = some lk →
      (updateWeights net lr rr).link? k
        = some (if lk.isDead then lk
            else
              let regulDer := match lk.regularization.fn with
                | none => 0
                | some reg => reg.der lk.weight
              if 0 < lk.numAccumulatedDers then
                let w1 := lk.weight - (lr / (lk.numAccumulatedDers : α)) * lk.accErrorDer
                let newLinkWeight := w1 - (lr * rr) * regulDer
                if lk.regularization.isL1 = true ∧ w1 * newLinkWeight < 0 then
                  { lk with
                    weight := 0, isDead := true, accErrorDer := 0, numAccumulatedDers := 0 }
                else
                  { lk with
                    weight := newLinkWeight, accErrorDer := 0, numAccumulatedDers := 0 }
              else lk) := by
  intro k lk hlk
  obtain ⟨_, _, _, hlink⟩ := updateWeights_spec net lr rr hwf hL
  rw [hlink k, hlk]
  rfl

theorem c2_witness :
    (c2Net.wf ∧ 1 ≤ c2Net.layers.length)
    ∧ (updateWeights c2Net 1 (1/2)).link? 0 = some (updateLink 1 (1/2) (c2Net.linkD 0)) :=
  ⟨⟨by decide, by decide⟩, by
    have h := c2_update_regDer_pre_gradient c2Net 1 (1/2) (by decide) (by decide) 0
      (c2Net.linkD 0) rfl
    exact h⟩

/-- After `backProp`, a valid non-input node's `inputDer` is `specInputDer`. -/
theorem backProp_inputDer (net : Network α) (target : α) (errorFunc : ErrorFunction α)
    (hwf : net.wf) (hL : 2 ≤ net.layers.length)
    (hlast : net.layerSize (net.layers.length - 1) = 1) (l i : Nat)
    (hl : 1 ≤ l) (hll : l < net.layers.length) (hi : i < net.layerSize l) :
    ((backProp net target errorFunc).nodeD (l, i)).inputDer
      = specInputDer net target errorFunc l i := by
  obtain ⟨_, _, hnode, _⟩ := backProp_spec net target errorFunc hwf hL hlast
  have h1 := hnode l i hl
  rw [node?_of_lt hll hi] at h1
  simp only [Option.map_some'] at h1
  rw [nodeD_of_node? h1]
  rfl

/-- C1: `backward(network, target, errorFunc)` seeds the output node's
`outputDer` with `errorFunc.der(output, target)` and walks layers from the
last one down to layer 1: every visited node's `inputDer` becomes its new
`outputDer * activation.der(totalInput)`, is added into `accInputDer` and
bumps `numAccumulatedDers`; every non-dead incoming link of a visited node
gets `errorDer = dest.inputDer * source.output`, added into `accErrorDer`
with its counter bumped, while dead links are skipped entirely; an interior
node's `outputDer` is the sum over its outgoing links of
`weight * dest.inputDer` with the destination's new `inputDer`; and the
input layer's nodes are left completely unchanged. -/
theorem c1_backProp_order_effects (net : Network α) (target : α)
    (errorFunc : ErrorFunction α) (hwf : net.wf) (hL : 2 ≤ net.layers.length)
    (hlast : net.layerSize (net.layers.length - 1) = 1) :
    sameStructure (backProp net target errorFunc) net
    ∧ (∀ i, (backProp net target errorFunc).node? 0 i = net.node? 0 i)
    ∧ (∀ l i nd, 1 ≤ l → net.node? l i = some nd →
        ∃ nd', (backProp net target errorFunc).node? l i = some nd'
          ∧ nd'.outputDer
              = (if l = net.layers.length - 1 then errorFunc.der nd.output target
                 else nd.outputs.foldl
                   (fun acc k => acc + (net.linkD k).weight *
                     ((backProp net target errorFunc).nodeD
                       (l + 1, (net.linkD k).dest.2)).inputDer) 0)
          ∧ nd'.inputDer = nd'.outputDer * nd.activation.der nd.totalInput
          ∧ nd'.accInputDer = nd.accInputDer + nd'.inputDer
          ∧ nd'.numAccumulatedDers = nd.numAccumulatedDers + 1
          ∧ nd'.output = nd.output ∧ nd'.totalInput = nd.totalInput ∧ nd'.bias = nd.bias)
    ∧ (∀ k lk, net.link? k = some lk →
        ∃ lk', (backProp net target errorFunc).link? k = some lk'
          ∧ (lk.isDead = true → lk' = lk)
          ∧ (lk.isDead = false →
              lk'.errorDer = ((backProp net target errorFunc).nodeD lk.dest).inputDer
                * (net.nodeD lk.source).output
              ∧ lk'.accErrorDer = lk.accErrorDer + lk'.errorDer
              ∧ lk'.numAccumulatedDers = lk.numAccumulatedDers + 1
              ∧ lk'.weight = lk.weight ∧ lk'.isDead = false)) := by
  obtain ⟨hstr, hin, hnode, hlink⟩ := backProp_spec net target errorFunc hwf hL hlast
  refine ⟨hstr, hin, ?_, ?_⟩
  · intro l i nd hl hnd
    have hll : l < net.layers.length := node?_some_layer_lt hnd
    have hi : i < net.layerSize l := node?_some_lt hnd
    refine ⟨bwdNodeUpd net target errorFunc l i nd, by rw [hnode l i hl, hnd]; rfl,
      ?_, ?_, ?_, rfl, rfl, rfl, rfl⟩
    · show (if l = net.layers.length - 1 then errorFunc.der nd.output target
          else specOutputDer net target errorFunc l i) = _
      by_cases hcase : l = net.layers.length - 1
      · rw [if_pos hcase, if_pos hcase]
      · rw [if_neg hcase, if_neg hcase]
        unfold specOutputDer
        rw [nodeD_of_node? hnd]
        refine List.foldl_ext _ _ _ (fun acc k hk => ?_)
        have hksrc := wf_outputs hwf hll hi (by rw [nodeD_of_node? hnd]; exact hk)
        obtain ⟨hklen, hsrc⟩ := hksrc
        obtain ⟨hd1, hdL, hadj, hd2, _, _, _⟩ := wf_link hwf hklen
        have hdest1 : (net.linkD k).dest.1 = l + 1 := by rw [hsrc] at hadj; omega
        have hId : ((backProp net target errorFunc).nodeD
            (l + 1, (net.linkD k).dest.2)).inputDer
            = specInputDer net target errorFunc (l + 1) (net.linkD k).dest.2 := by
          apply backProp_inputDer net target errorFunc hwf hL hlast _ _ (by omega)
            (by omega) (by rw [← hdest1]; exact hd2)
        rw [hId]
    · show specInputDer net target errorFunc l i = _
      rw [specInputDer_def]
      have hact : (net.nodeD (l, i)).activation = nd.activation := by
        rw [nodeD_of_node? hnd]
      have htot : (net.nodeD (l, i)).totalInput = nd.totalInput := by
        rw [nodeD_of_node? hnd]
      have hout : (net.nodeD (l, i)).output = nd.output := by
        rw [nodeD_of_node? hnd]
      rw [hact, htot, hout]
      congr 1
      show (if net.layers.length - 1 ≤ l then errorFunc.der nd.output target
          else specOutputDer net target errorFunc l i)
        = (if l = net.layers.length - 1 then errorFunc.der nd.output target
           else specOutputDer net target errorFunc l i)
      by_cases hcase : l = net.layers.length - 1
      · rw [if_pos (by omega), if_pos hcase]
      · rw [if_neg (by omega), if_neg hcase]
    · show nd.accInputDer + specInputDer net target errorFunc l i = _
      rfl
  · intro k lk hlk
    refine ⟨bwdLinkUpd net target errorFunc lk, by rw [hlink k, hlk]; rfl, ?_, ?_⟩
    · intro hdead
      unfold bwdLinkUpd
      rw [if_pos hdead]
    · intro hlive
      have hklen : k < net.links.length := link?_some_lt hlk
      have hlkD : net.linkD k = lk := linkD_of_link? hlk
      obtain ⟨hd1, hdL, hadj, hd2, _, _, _⟩ := wf_link hwf hklen
      rw [hlkD] at hd1 hdL hd2
      have hIdest : ((backProp net target errorFunc).nodeD lk.dest).inputDer
          = specInputDer net target errorFunc lk.dest.1 lk.dest.2 :=
        backProp_inputDer net target errorFunc hwf hL hlast _ _ hd1 hdL hd2
      unfold bwdLinkUpd
      rw [if_neg (by rw [hlive]; exact Bool.false_ne_true)]
      refine ⟨?_, rfl, rfl, rfl, hlive⟩
      show specInputDer net target errorFunc lk.dest.1 lk.dest.2
          * (net.nodeD lk.source).output = _
      rw [hIdest]

theorem c1_witness :
    ((buildNetwork [1, 1] Activations.RELU Activations.LINEAR RegRef.null ["x"] true
        (fun _ => 0) : Network ℚ).wf
      ∧ 2 ≤ (buildNetwork [1, 1] Activations.RELU Activations.LINEAR RegRef.null ["x"] true
          (fun _ => 0) : Network ℚ).layers.length
      ∧ (buildNetwork [1, 1] Activations.RELU Activations.LINEAR RegRef.null ["x"] true
          (fun _ => 0) : Network ℚ).layerSize
          ((buildNetwork [1, 1] Activations.RELU Activations.LINEAR RegRef.null ["x"] true
            (fun _ => 0) : Network ℚ).layers.length - 1) = 1)
    ∧ sameStructure
        (backProp (buildNetwork [1, 1] Activations.RELU Activations.LINEAR RegRef.null ["x"]
          true (fun _ => 0) : Network ℚ) 1 Errors.SQUARE)
        (buildNetwork [1, 1] Activations.RELU Activations.LINEAR RegRef.null ["x"] true
          (fun _ => 0)) :=
  ⟨⟨by decide, by decide, by decide⟩,
    (c1_backProp_order_effects _ 1 Errors.SQUARE (by decide) (by decide) (by decide)).1⟩

/-- C3: when the input length matches the input layer, `forward` writes the
inputs into the input nodes' outputs, then, layer by layer in index order,
sets every node's `totalInput` to its bias plus the sum over ALL its
incoming links — dead or not — of `weight * source.output`, sets `output`
to `activation.value(totalInput)`, and returns the output of the first node
of the last layer; the link arena is untouched. -/
theorem c3_forwardProp_characterization (net : Network α) (inputs : List α)
    (hwf : net.wf) (hL : 1 ≤ net.layers.length)
    (hlen : inputs.length = net.layerSize 0) :
    (forwardProp net inputs).2
      = Except.ok ((((forwardProp net inputs).1).nodeD (net.layers.length - 1, 0)).output)
    ∧ (∀ i nd, net.node? 0 i = some nd →
        ((forwardProp net inputs).1).node? 0 i
          = some { nd with output := inputs.getD i 0 })
    ∧ (∀ l i nd, 1 ≤ l → net.node? l i = some nd →
        ∃ nd', ((forwardProp net inputs).1).node? l i = some nd'
          ∧ nd'.totalInput = nd.inputLinks.foldl
              (fun acc k => acc + (net.linkD k).weight *
                (((forwardProp net inputs).1).nodeD ((net.linkD k).source)).output) nd.bias
          ∧ nd'.output = nd.activation.output nd'.totalInput)
    ∧ ((forwardProp net inputs).1).links = net.links := by
  obtain ⟨hret, hlinks, hstr, hin, hnode⟩ := forwardProp_spec net inputs hwf hL hlen
  refine ⟨hret, ?_, ?_, hlinks⟩
  · intro i nd hnd
    rw [hin i, hnd]
    rfl
  · intro l i nd hl hnd
    refine ⟨fwdNodeUpd (forwardProp net inputs).1 nd, by rw [hnode l i hl, hnd]; rfl,
      ?_, rfl⟩
    show fwdTotalInput (forwardProp net inputs).1 nd = _
    unfold fwdTotalInput
    refine List.foldl_ext _ _ _ (fun acc k _ => ?_)
    have hlD : (forwardProp net inputs).1.linkD k = net.linkD k := by
      unfold Network.linkD Network.link?
      rw [hlinks]
    rw [hlD]

theorem c3_witness :
    ((buildNetwork [1, 1] Activations.RELU Activations.LINEAR RegRef.null ["x"] true
        (fun _ => 0) : Network ℚ).wf
      ∧ 1 ≤ (buildNetwork [1, 1] Activations.RELU Activations.LINEAR RegRef.null ["x"] true
          (fun _ => 0) : Network ℚ).layers.length
      ∧ ([(2 : ℚ)] : List ℚ).length
          = (buildNetwork [1, 1] Activations.RELU Activations.LINEAR RegRef.null ["x"] true
            (fun _ => 0) : Network ℚ).layerSize 0)
    ∧ (forwardProp (buildNetwork [1, 1] Activations.RELU Activations.LINEAR RegRef.null
        ["x"] true (fun _ => 0) : Network ℚ) [2]).2
      = Except.ok ((((forwardProp (buildNetwork [1, 1] Activations.RELU Activations.LINEAR
          RegRef.null ["x"] true (fun _ => 0) : Network ℚ) [2]).1).nodeD
          ((buildNetwork [1, 1] Activations.RELU Activations.LINEAR RegRef.null ["x"] true
            (fun _ => 0) : Network ℚ).layers.length - 1, 0)).output) :=
  ⟨⟨by decide, by decide, by decide⟩,
    (c3_forwardProp_characterization _ [2] (by decide) (by decide) (by decide)).1⟩

/-- A two-node network whose single link is dead with weight `0`. -/
def c4Net : Network ℚ :=
  { layers :=
      [[{ id := "x", inputLinks := [], bias := 0, outputs := [0], totalInput := 0,
          output := 0, outputDer := 0, inputDer := 0, accInputDer := 0,
          numAccumulatedDers := 0, activation := Activations.LINEAR }],
       [{ id := "1", inputLinks := [0], bias := 0, outputs := [], totalInput := 0,
          output := 0, outputDer := 0, inputDer := 0, accInputDer := 0,
          numAccumulatedDers := 0, activation := Activations.LINEAR }]],
    links := [{ id := "x-1", source := (0, 0), dest := (1, 0), weight := 0,
                isDead := true, errorDer := 0, accErrorDer := 0,
                numAccumulatedDers := 0,
                regularization := RegRef.builtinL1 }] }

/-- C4: a dead link is permanent and inert: every later `forward`,
`backward` and `update` call, in any order, returns it exactly as it is —
weight still `0`, `isDead` still `true`, accumulators untouched; a link is
made dead only by `update`'s L1 branch, which sets the weight to exactly
`0` at that moment; and when every dead link has weight `0`, `forward`
computes the same result as the variant that omits dead links from every
weighted sum (a dead link contributes `0`). -/
theorem c4_dead_link_permanence (net : Network α) (k : Nat) (lk : Link α)
    (hlk : net.link? k = some lk) (hdead : lk.isDead = true) :
    (∀ ops : List (EngineOp α), (applyOps net ops).link? k = some lk)
    ∧ (∀ lr rr : α, ∀ lk' : Link α, (updateLink lr rr lk').isDead = true →
        lk'.isDead = true ∨ ((updateLink lr rr lk').weight = 0
          ∧ lk'.regularization.isL1 = true))
    ∧ (∀ inputs : List α,
        (∀ k' lk'', net.link? k' = some lk'' → lk''.isDead = true → lk''.weight = 0) →
        forwardProp net inputs = forwardPropLive net inputs) := by
  refine ⟨fun ops => applyOps_dead_link net k lk hlk hdead ops, ?_, ?_⟩
  · intro lr rr lk' hd
    unfold updateLink at hd ⊢
    by_cases hdead' : lk'.isDead = true
    · left; exact hdead'
    · rw [if_neg hdead'] at hd ⊢
      dsimp only at hd ⊢
      by_cases hnum : 0 < lk'.numAccumulatedDers
      · rw [if_pos hnum] at hd ⊢
        by_cases hkill : lk'.regularization.isL1 = true
            ∧ (lk'.weight - (lr / (lk'.numAccumulatedDers : α)) * lk'.accErrorDer)
              * ((lk'.weight - (lr / (lk'.numAccumulatedDers : α)) * lk'.accErrorDer)
                - (lr * rr) * (match lk'.regularization.fn with
                    | none => 0
                    | some reg => reg.der lk'.weight)) < 0
        · rw [if_pos hkill] at hd ⊢
          right
          exact ⟨rfl, hkill.1⟩
        · rw [if_neg hkill] at hd
          exact absurd hd hdead'
      · rw [if_neg hnum] at hd
        left; exact hd
  · intro inputs hz
    apply forwardProp_eq_live
    intro k' hd
    by_cases hk' : k' < net.links.length
    · exact hz k' _ (link?_of_lt hk') hd
    · have hnone : net.linkD k' = defaultLink := by
        unfold Network.linkD Network.link?
        rw [List.getElem?_eq_none (by omega)]
        rfl
      rw [hnone] at hd
      exact absurd hd (by simp [defaultLink])

theorem c4_witness :
    (c4Net.link? 0 = some (c4Net.linkD 0) ∧ (c4Net.linkD 0).isDead = true)
    ∧ ∀ ops : List (EngineOp ℚ), (applyOps c4Net ops).link? 0 = some (c4Net.linkD 0) :=
  ⟨⟨rfl, rfl⟩, (c4_dead_link_permanence c4Net 0 (c4Net.linkD 0) rfl rfl).1⟩

/-- C9: the network built with shape `[2, 2, 1]`, sigmoid hidden
activation, linear output activation and zero initialization (all weights
and biases `0`) returns exactly `0` from `forward` on input `[1, 1]`. -/
theorem c9_zero_init_forward :
    (forwardProp (buildNetwork [2, 2, 1] Activations.SIGMOID Activations.LINEAR RegRef.null
      ["x", "y"] true (fun _ => 0)) [1, 1]).2 = Except.ok (0 : ℝ) := by
  obtain ⟨hret, hlinks, hstr, hin, hnode⟩ :=
    forwardProp_spec (buildNetwork [2, 2, 1] Activations.SIGMOID Activations.LINEAR
      RegRef.null ["x", "y"] true (fun _ => 0)) ([1, 1] : List ℝ)
      (by decide) (by decide) (by decide)
  rw [hret]
  have h20 : (buildNetwork [2, 2, 1] Activations.SIGMOID Activations.LINEAR RegRef.null
      ["x", "y"] true (fun _ => 0) : Network ℝ).node? 2 0
      = some ((buildNetwork [2, 2, 1] Activations.SIGMOID Activations.LINEAR RegRef.null
        ["x", "y"] true (fun _ => 0) : Network ℝ).nodeD (2, 0)) :=
    node?_of_lt (by decide) (by decide)
  have h2 := hnode 2 0 (by omega)
  rw [h20] at h2
  simp only [Option.map_some'] at h2
  rw [show (buildNetwork [2, 2, 1] Activations.SIGMOID Activations.LINEAR RegRef.null
      ["x", "y"] true (fun _ => 0) : Network ℝ).layers.length - 1 = 2 from by decide]
  rw [nodeD_of_node? h2]
  refine congrArg Except.ok ?_
  show fwdTotalInput
      (forwardProp (buildNetwork [2, 2, 1] Activations.SIGMOID Activations.LINEAR
        RegRef.null ["x", "y"] true (fun _ => 0)) [1, 1]).1
      ((buildNetwork [2, 2, 1] Activations.SIGMOID Activations.LINEAR RegRef.null
        ["x", "y"] true (fun _ => 0) : Network ℝ).nodeD (2, 0)) = 0
  unfold fwdTotalInput
  rw [show ((buildNetwork [2, 2, 1] Activations.SIGMOID Activations.LINEAR RegRef.null
      ["x", "y"] true (fun _ => 0) : Network ℝ).nodeD (2, 0)).inputLinks = [4, 5] from rfl]
  rw [show ((buildNetwork [2, 2, 1] Activations.SIGMOID Activations.LINEAR RegRef.null
      ["x", "y"] true (fun _ => 0) : Network ℝ).nodeD (2, 0)).bias = 0 from rfl]
  simp only [List.foldl_cons, List.foldl_nil]
  have hw : ∀ k, ((forwardProp (buildNetwork [2, 2, 1] Activations.SIGMOID
      Activations.LINEAR RegRef.null ["x", "y"] true (fun _ => 0)) [1, 1]).1.linkD k).weight
      = ((buildNetwork [2, 2, 1] Activations.SIGMOID Activations.LINEAR RegRef.null
        ["x", "y"] true (fun _ => 0) : Network ℝ).linkD k).weight := by
    intro k
    unfold Network.linkD Network.link?
    rw [hlinks]
  rw [hw 4, hw 5]
  rw [show ((buildNetwork [2, 2, 1] Activations.SIGMOID Activations.LINEAR RegRef.null
      ["x", "y"] true (fun _ => 0) : Network ℝ).linkD 4).weight = 0 from rfl]
  rw [show ((buildNetwork [2, 2, 1] Activations.SIGMOID Activations.LINEAR RegRef.null
      ["x", "y"] true (fun _ => 0) : Network ℝ).linkD 5).weight = 0 from rfl]
  ring

/-- One training step as the callers of nn.ts perform it: a `forward` pass
on the example's inputs followed by a `backward` pass on its target. -/
def fbPass (errorFunc : ErrorFunction α) (net : Network α) (ex : List α × α) : Network α :=
  backProp (forwardProp net ex.1).1 ex.2 errorFunc

/-- A sequence of forward+backward training steps. -/
def fbPasses (errorFunc : ErrorFunction α) (net : Network α)
    (exs : List (List α × α)) : Network α :=
  exs.foldl (fbPass errorFunc) net

/-- One forward+backward pass adds the fresh `inputDer` / `errorDer` to each
accumulator and bumps each counter by one. -/
theorem fbPass_acc (net : Network α) (errorFunc : ErrorFunction α) (ex : List α × α)
    (hwf : net.wf) (hL : 2 ≤ net.layers.length)
    (hlast : net.layerSize (net.layers.length - 1) = 1)
    (hlen : ex.1.length = net.layerSize 0) :
    sameStructure (fbPass errorFunc net ex) net
    ∧ (∀ l i nd, 1 ≤ l → net.node? l i = some nd →
        ∃ nd', (fbPass errorFunc net ex).node? l i = some nd'
          ∧ nd'.accInputDer = nd.accInputDer + nd'.inputDer
          ∧ nd'.numAccumulatedDers = nd.numAccumulatedDers + 1)
    ∧ (∀ k lk, net.link? k = some lk → lk.isDead = false →
        ∃ lk', (fbPass errorFunc net ex).link? k = some lk'
          ∧ lk'.isDead = false
          ∧ lk'.accErrorDer = lk.accErrorDer + lk'.errorDer
          ∧ lk'.numAccumulatedDers = lk.numAccumulatedDers + 1) := by
  obtain ⟨hret, hlinks, hstrF, hinF, hnodeF⟩ := forwardProp_spec net ex.1 hwf (by omega) hlen
  set net1 := (forwardProp net ex.1).1 with hnet1
  have hwf1 : net1.wf := wf_of_sameStructure hstrF hwf
  have hL1 : 2 ≤ net1.layers.length := by rw [hstrF.1]; exact hL
  have hlast1 : net1.layerSize (net1.layers.length - 1) = 1 := by
    rw [hstrF.2.1, hstrF.1]; exact hlast
  obtain ⟨hstrB, hinB, hnodeB, hlinkB⟩ := backProp_spec net1 ex.2 errorFunc hwf1 hL1 hlast1
  have hfb : fbPass errorFunc net ex = backProp net1 ex.2 errorFunc := rfl
  refine ⟨?_, ?_, ?_⟩
  · rw [hfb]; exact hstrB.trans hstrF
  · intro l i nd hl hnd
    have h1 : net1.node? l i = some (fwdNodeUpd net1 nd) := by
      rw [hnodeF l i hl, hnd]; rfl
    have h2 : (backProp net1 ex.2 errorFunc).node? l i
        = some (bwdNodeUpd net1 ex.2 errorFunc l i (fwdNodeUpd net1 nd)) := by
      rw [hnodeB l i hl, h1]; rfl
    refine ⟨_, by rw [hfb]; exact h2, ?_, rfl⟩
    show (fwdNodeUpd net1 nd).accInputDer + specInputDer net1 ex.2 errorFunc l i = _
    rfl
  · intro k lk hlk hlive
    have h1 : net1.link? k = some lk := by
      unfold Network.link?
      rw [hlinks]
      exact hlk
    have h2 : (backProp net1 ex.2 errorFunc).link? k
        = some (bwdLinkUpd net1 ex.2 errorFunc lk) := by
      rw [hlinkB k, h1]; rfl
    refine ⟨_, by rw [hfb]; exact h2, ?_, ?_, ?_⟩
    · unfold bwdLinkUpd
      rw [if_neg (by rw [hlive]; exact Bool.false_ne_true)]
      exact hlive
    · unfold bwdLinkUpd
      rw [if_neg (by rw [hlive]; exact Bool.false_ne_true)]
    · unfold bwdLinkUpd
      rw [if_neg (by rw [hlive]; exact Bool.false_ne_true)]

/-- C6: `backward` only adds to the accumulators (`accInputDer`,
`accErrorDer` and the two counters) and never resets or decreases them, so
after `N` consecutive forward+backward training steps every non-input
node's `accInputDer` has grown by the sum of the `N` per-example `inputDer`
values and its counter by `N`; likewise every non-dead link's `accErrorDer`
has grown by the sum of the `N` per-example `errorDer` values and its
counter by `N`. -/
theorem c6_accumulation (net : Network α) (errorFunc : ErrorFunction α)
    (exs : List (List α × α)) (hwf : net.wf) (hL : 2 ≤ net.layers.length)
    (hlast : net.layerSize (net.layers.length - 1) = 1)
    (hex : ∀ ex ∈ exs, ex.1.length = net.layerSize 0) :
    sameStructure (fbPasses errorFunc net exs) net
    ∧ (∀ l i nd, 1 ≤ l → net.node? l i = some nd →
        ∃ nd', (fbPasses errorFunc net exs).node? l i = some nd'
          ∧ nd'.accInputDer = nd.accInputDer
              + ((List.range exs.length).map (fun p =>
                  ((fbPasses errorFunc net (exs.take (p + 1))).nodeD (l, i)).inputDer)).sum
          ∧ nd'.numAccumulatedDers = nd.numAccumulatedDers + exs.length)
    ∧ (∀ k lk, net.link? k = some lk → lk.isDead = false →
        ∃ lk', (fbPasses errorFunc net exs).link? k = some lk'
          ∧ lk'.isDead = false
          ∧ lk'.accErrorDer = lk.accErrorDer
              + ((List.range exs.length).map (fun p =>
                  ((fbPasses errorFunc net (exs.take (p + 1))).linkD k).errorDer)).sum
          ∧ lk'.numAccumulatedDers = lk.numAccumulatedDers + exs.length) := by
  induction exs using List.reverseRecOn with
  | nil =>
    refine ⟨sameStructure.refl _, ?_, ?_⟩
    · intro l i nd hl hnd
      exact ⟨nd, hnd, by simp, by simp⟩
    · intro k lk hlk hlive
      exact ⟨lk, hlk, hlive, by simp, by simp⟩
  | append_singleton xs x ih =>
    have hex' : ∀ ex ∈ xs, ex.1.length = net.layerSize 0 := fun ex hm =>
      hex ex (by simp [hm])
    obtain ⟨ihstr, ihnode, ihlink⟩ := ih hex'
    have hstep : fbPasses errorFunc net (xs ++ [x])
        = fbPass errorFunc (fbPasses errorFunc net xs) x := by
      unfold fbPasses
      rw [List.foldl_append]
      rfl
    have hwfxs : (fbPasses errorFunc net xs).wf := wf_of_sameStructure ihstr hwf
    have hLxs : 2 ≤ (fbPasses errorFunc net xs).layers.length := by
      rw [ihstr.1]; exact hL
    have hlastxs : (fbPasses errorFunc net xs).layerSize
        ((fbPasses errorFunc net xs).layers.length - 1) = 1 := by
      rw [ihstr.2.1, ihstr.1]; exact hlast
    have hlenx : x.1.length = (fbPasses errorFunc net xs).layerSize 0 := by
      rw [ihstr.2.1]; exact hex x (by simp)
    obtain ⟨pstr, pnode, plink⟩ :=
      fbPass_acc (fbPasses errorFunc net xs) errorFunc x hwfxs hLxs hlastxs hlenx
    have htake : ∀ p, p < xs.length → (xs ++ [x]).take (p + 1) = xs.take (p + 1) := by
      intro p hp
      rw [List.take_append_of_le_length (by omega)]
    have htakeall : (xs ++ [x]).take (xs.length + 1) = xs ++ [x] := by
      rw [List.take_of_length_le (by simp)]
    refine ⟨?_, ?_, ?_⟩
    · rw [hstep]; exact pstr.trans ihstr
    · intro l i nd hl hnd
      obtain ⟨nd1, hnd1, hacc1, hnum1⟩ := ihnode l i nd hl hnd
      obtain ⟨nd2, hnd2, hacc2, hnum2⟩ := pnode l i nd1 hl hnd1
      refine ⟨nd2, by rw [hstep]; exact hnd2, ?_, ?_⟩
      · rw [hacc2, hacc1]
        rw [show (xs ++ [x]).length = xs.length + 1 from by simp]
        rw [List.range_succ, List.map_append, List.sum_append]
        have hmapeq : (List.range xs.length).map (fun p =>
            ((fbPasses errorFunc net ((xs ++ [x]).take (p + 1))).nodeD (l, i)).inputDer)
            = (List.range xs.length).map (fun p =>
              ((fbPasses errorFunc net (xs.take (p + 1))).nodeD (l, i)).inputDer) := by
          apply List.map_congr_left
          intro p hp
          rw [List.mem_range] at hp
          rw [htake p hp]
        rw [hmapeq]
        simp only [List.map_cons, List.map_nil, List.sum_cons, List.sum_nil]
        rw [htakeall, hstep, nodeD_of_node? hnd2]
        ring
      · rw [hnum2, hnum1]
        simp only [List.length_append, List.length_cons, List.length_nil]
        omega
    · intro k lk hlk hlive
      obtain ⟨lk1, hlk1, hlive1, hacc1, hnum1⟩ := ihlink k lk hlk hlive
      obtain ⟨lk2, hlk2, hlive2, hacc2, hnum2⟩ := plink k lk1 hlk1 hlive1
      refine ⟨lk2, by rw [hstep]; exact hlk2, hlive2, ?_, ?_⟩
      · rw [hacc2, hacc1]
        rw [show (xs ++ [x]).length = xs.length + 1 from by simp]
        rw [List.range_succ, List.map_append, List.sum_append]
        have hmapeq : (List.range xs.length).map (fun p =>
            ((fbPasses errorFunc net ((xs ++ [x]).take (p + 1))).linkD k).errorDer)
            = (List.range xs.length).map (fun p =>
              ((fbPasses errorFunc net (xs.take (p + 1))).linkD k).errorDer) := by
          apply List.map_congr_left
          intro p hp
          rw [List.mem_range] at hp
          rw [htake p hp]
        rw [hmapeq]
        simp only [List.map_cons, List.map_nil, List.sum_cons, List.sum_nil]
        rw [htakeall, hstep, linkD_of_link? hlk2]
        ring
      · rw [hnum2, hnum1]
        simp only [List.length_append, List.length_cons, List.length_nil]
        omega

theorem c6_witness :
    ((buildNetwork [1, 1] Activations.RELU Activations.LINEAR RegRef.null ["x"] true
        (fun _ => 0) : Network ℚ).wf
      ∧ 2 ≤ (buildNetwork [1, 1] Activations.RELU Activations.LINEAR RegRef.null ["x"] true
          (fun _ => 0) : Network ℚ).layers.length
      ∧ (buildNetwork [1, 1] Activations.RELU Activations.LINEAR RegRef.null ["x"] true
          (fun _ => 0) : Network ℚ).layerSize
          ((buildNetwork [1, 1] Activations.RELU Activations.LINEAR RegRef.null ["x"] true
            (fun _ => 0) : Network ℚ).layers.length - 1) = 1
      ∧ ∀ ex ∈ [(([2] : List ℚ), (1 : ℚ))], ex.1.length
          = (buildNetwork [1, 1] Activations.RELU Activations.LINEAR RegRef.null ["x"] true
            (fun _ => 0) : Network ℚ).layerSize 0)
    ∧ sameStructure
        (fbPasses Errors.SQUARE
          (buildNetwork [1, 1] Activations.RELU Activations.LINEAR RegRef.null ["x"] true
            (fun _ => 0) : Network ℚ) [([2], 1)])
        (buildNetwork [1, 1] Activations.RELU Activations.LINEAR RegRef.null ["x"] true
          (fun _ => 0)) :=
  ⟨⟨by decide, by decide, by decide, by decide⟩,
    (c6_accumulation _ Errors.SQUARE [([2], 1)] (by decide) (by decide) (by decide)
      (by decide)).1⟩

/-- C2 (counterexample): on `c2Net` with `learningRate = 1` and
`regularizationRate = 1/2`, the source's `update` leaves the link weight
`-1`, while the claim's order of operations (gradient step first, then
`regulDer` from the post-gradient weight) would leave it `0`. -/
theorem c2_counterexample :
    ((updateWeights c2Net 1 (1/2)).linkD 0).weight = -1
    ∧ (claimUpdateLink (1 : ℚ) (1/2) (c2Net.linkD 0)).weight = 0 := by
  have hlk0 : c2Net.link? 0 = some (c2Net.linkD 0) := rfl
  obtain ⟨_, _, _, hlink⟩ := updateWeights_spec c2Net 1 (1/2) (by decide) (by decide)
  have h1 : (updateWeights c2Net 1 (1/2)).link? 0
      = some (updateLink 1 (1/2) (c2Net.linkD 0)) := by
    rw [hlink 0, hlk0]
    rfl
  have h2 : (updateWeights c2Net 1 (1/2)).linkD 0 = updateLink 1 (1/2) (c2Net.linkD 0) :=
    linkD_of_link? h1
  constructor
  · rw [h2]
    norm_num [updateLink, c2Net, Network.linkD, Network.link?, RegRef.fn, RegRef.isL1,
      RegularizationFunction.L1]
  · norm_num [claimUpdateLink, c2Net, Network.linkD, Network.link?, RegRef.fn, RegRef.isL1,
      RegularizationFunction.L1]

/-- Model of JavaScript `String.prototype.trim` as `hasKey` in state.ts
calls it: strips leading and trailing whitespace. -/
def jsTrim (s : String) : String :=
  ⟨((s.data.dropWhile Char.isWhitespace).reverse.dropWhile Char.isWhitespace).reverse⟩

/-- Lookup in the URL-hash map of `State.deserializeState`: `none` when the
name is absent, `some none` when it is present with an undefined (null)
value, `some (some v)` when it maps to the string `v`. -/
def mapGet (map : List (String × Option String)) (name : String) : Option (Option String) :=
  (map.find? (fun p => p.1 = name)).map (fun p => p.2)

/-- `hasKey` from `State.deserializeState`:
`name in map && map[name] != null && map[name].trim() !== ""`. -/
def hasKey (map : List (String × Option String)) (name : String) : Bool :=
  match mapGet map name with
  | some (some v) => jsTrim v ≠ ""
  | _ => false

/-- The `Type.BOOLEAN` case of `State.deserializeState`:
`if (hasKey(name)) state[name] = (map[name] === "false" ? false : true)`;
`dflt` is the class-default value of the property. -/
def deserializeBooleanProp (map : List (String × Option String)) (name : String)
    (dflt : Bool) : Bool :=
  if hasKey map name then
    if mapGet map name = some (some "false") then false else true
  else dflt

/-- Spec-side parsing rule as the claim states it: a present, non-empty
value parses as `false` exactly for the string `"false"` and as `true`
otherwise; a missing or empty value leaves the default. To be compared
with `deserializeBooleanProp`, which is translated from the source. -/
def claimBooleanProp (map : List (String × Option String)) (name : String)
    (dflt : Bool) : Bool :=
  match mapGet map name with
  | some (some v) => if v = "" then dflt else if v = "false" then false else true
  | _ => dflt

/-- C10 (amended): a boolean property present with a value whose JS-`trim`
is non-empty parses as `false` exactly when the value is the exact string
`"false"`, and as `true` otherwise; a missing value, a null value, or a
value that trims to the empty string (in particular a whitespace-only
value) leaves the class default unchanged. -/
theorem c10_boolean_parsing (map : List (String × Option String)) (name : String)
    (dflt : Bool) :
    deserializeBooleanProp map name dflt
      = match mapGet map name with
        | some (some v) =>
            if jsTrim v = "" then dflt else if v = "false" then false else true
        | some none => dflt
        | none => dflt := by
  unfold deserializeBooleanProp hasKey
  cases hcase : mapGet map name with
  | none => rfl
  | some o =>
    cases o with
    | none => rfl
    | some v =>
      by_cases hv : jsTrim v = "" <;> by_cases hf : v = "false" <;> simp [hv, hf]

/-- C10 (counterexample): the boolean property `"discretize"`, present with
the whitespace value `" "` — a non-empty value, which the claim says sets
the property to `true` — is left at the class default (`false` here): the
source's `hasKey` trims the value, so a whitespace-only value is treated
as missing. -/
theorem c10_counterexample :
    claimBooleanProp [("discretize", some " ")] "discretize" false = true
    ∧ deserializeBooleanProp [("discretize", some " ")] "discretize" false = false := by
  refine ⟨by decide, by decide⟩

end NN
